import Mathlib

/-!
# factomd: shallow embedding and verified properties

The definitions of the namespace `P2P` follow `src/p2p/peerManager.go` function
by function. The namespaces `StateSaver`, `FLog`, `Wire` and `AdminBlock` do
the same for `src/state/stateSaver.go`, `src/logger/logger.go`,
`src/btcd/wire/msggetblocks.go` and
`src/common/adminBlock/EntryDBSignature.go`.

Modelling conventions
* A Go `*Peer` is an address `Ptr` into the heap `PeerManager.heap`; two peers
  are the same peer exactly when their addresses are equal.
* A Go `map[string]V` is an association list (`GoMap V`); the position of a
  binding in the list carries no meaning.
* Machine integers are `Nat`/`Int` with explicit reduction modulo `2^32` where
  the source computes in `uint32`.
* A run-time panic of the Go program is an `Except.error` carrying a `GoPanic`.
* A call of a function that acts outside the manager and is not part of the
  sources (`Peer.Send`, `Peer.StartToDial`, `BlockFreeChannelSend`, `go f(...)`,
  `con.Close()`) is recorded in a list of the calls made; what the callee then
  does is not modelled.
* Logging calls have no effect on the state and are left out.
-/

namespace P2P

/-! ## Run-time failures -/

/-- The run-time panics the embedded code can raise. -/
inductive GoPanic where
  | divideByZero
  | indexOutOfRange
  | makeLenOutOfRange
  | intnNonPositive
  | outOfFuel
  deriving DecidableEq, Repr

deriving instance DecidableEq for Except

/-! ## Go maps with string keys -/

/-- A Go `map[string]V` as an association list with at most one binding per key. -/
abbrev GoMap (V : Type) := List (String × V)

namespace GoMap

variable {V : Type}

/-- The lookup `v, ok := m[k]`. -/
def get : GoMap V → String → Option V
  | [], _ => none
  | (k', v) :: rest, k => if k' = k then some v else get rest k

/-- The builtin `delete(m, k)`. -/
def delete : GoMap V → String → GoMap V
  | [], _ => []
  | (k', v) :: rest, k => if k' = k then delete rest k else (k', v) :: delete rest k

/-- The assignment `m[k] = v`. -/
def set (m : GoMap V) (k : String) (v : V) : GoMap V :=
  (k, v) :: delete m k

end GoMap

/-! ## Data model -/

/-- A `*Peer`: the address of a peer record in the heap. -/
abbrev Ptr := Nat

/-- Modelled from the spec: the declaration of the peer state type is not part
of the sources; the spec lists the states `Offline`, `Connecting`, `Online`
and `Stopping`. -/
inductive PeerState where
  | Offline
  | Connecting
  | Online
  | Stopping
  deriving DecidableEq, Repr

/-- Modelled from the spec: the parcel type constants used by `manageData`;
their declaration is not part of the sources. A tag that is none of the named
constants is `TypeUnknown`. -/
inductive ParcelType where
  | TypeMessagePart
  | TypeHeartbeat
  | TypePing
  | TypePong
  | TypeAlert
  | TypeMessage
  | TypePeerRequest
  | TypePeerResponse
  | TypeUnknown (tag : Nat)
  deriving DecidableEq, Repr

/-- The parcel header fields read by the manager. -/
structure ParcelHeader where
  Network : Nat
  Type' : ParcelType
  deriving DecidableEq, Repr

/-- A parcel: header and payload bytes. -/
structure Parcel where
  Header : ParcelHeader
  Payload : List Nat
  deriving DecidableEq, Repr

/-- The fields of `Peer` that `peerManager.go` reads or writes, and the fields
`LastSeen`, `Special` and `CanDial` that the spec names for the methods
`Better`, `IsSpecial` and `CanDial`. Times are nanosecond counts; `0` is the
zero `time.Time`. -/
structure Peer where
  Address : String := ""
  Outgoing : Bool := false
  state : PeerState := PeerState.Offline
  ListenPort : String := ""
  Hash : String := ""
  Port : String := ""
  Location : Nat := 0
  QualityScore : Int := 0
  lastPeerSend : Int := 0
  lastPeerRequest : Int := 0
  LastSeen : Int := 0
  Special : Bool := false
  CanDial : Bool := false
  deriving DecidableEq, Repr

instance : Inhabited Peer := ⟨{}⟩

/-- The fields of `Configuration` that `peerManager.go` reads. -/
structure Configuration where
  Network : Nat := 0
  NodeName : String := ""
  ListenPort : String := ""
  SeedURL : String := ""
  Outgoing : Nat := 0
  Fanout : Nat := 0
  PeerRequestInterval : Int := 0
  PingInterval : Int := 0
  RedialInterval : Int := 0
  MinimumQualityScore : Int := 0
  TrustedOnly : Bool := false
  RefuseIncoming : Bool := false
  RefuseUnknown : Bool := false
  deriving DecidableEq, Repr

/-- A `PeerParcel`: a parcel together with the peer it was read from. -/
structure PeerParcel where
  Peer : Ptr
  Parcel : Parcel
  deriving DecidableEq, Repr

/-- The `PeerMap` type, `map[string]*Peer`. -/
abbrev PeerMap := GoMap Ptr

/-- A goroutine started with `go`; it runs after the step that started it. -/
inductive Goroutine where
  | sharePeers (peer : Ptr)
  | processPeers (peer : Ptr) (parcel : Parcel)
  deriving DecidableEq, Repr

/-- The source `*rand.Rand`: `src i` is the raw outcome of the `i`-th draw and
`pos` the number of draws made so far. -/
structure Rand where
  src : Nat → Nat
  pos : Nat

/-- A `net.Conn` as seen by the manager: an identity and its remote address. -/
structure Conn where
  id : Nat
  RemoteAddr : String
  deriving DecidableEq, Repr

/-- The state of a `PeerManager`, together with the parts of its environment
that its methods act on: the peer records (`heap`, `nextPtr`), the package
counter `ApplicationMessagesReceived`, the parcels handed to `Peer.Send`, the
goroutines started, the connections closed and the peers on which
`StartToDial` was called. `FromNetwork` is the record of the calls
`BlockFreeChannelSend(pm.controller.FromNetwork, parcel)`: the parcels handed
to that function, in the order of the calls; it is not the content of the
channel. The channel `stop`, made with capacity 1 and never received from in
`peerManager.go`, is the number of values it holds. -/
structure PeerManager where
  config : Configuration
  heap : Ptr → Peer
  nextPtr : Ptr
  peerByHash : PeerMap
  peerByIP : GoMap PeerMap
  incoming : Nat
  outgoing : Nat
  specialIP : GoMap Bool
  lastPeerRequest : Int
  lastPeerDial : Int
  lastPeerDuplicateCheck : Int
  rng : Rand
  FromNetwork : List Parcel
  ApplicationMessagesReceived : Nat
  sent : List (Ptr × Parcel)
  goroutines : List Goroutine
  closed : List Nat
  stop : Nat
  dialed : List Ptr

/-! ## `rand.Rand` -/

/-- The call `rng.Intn(n)`: panics for `n <= 0`, otherwise yields a number in
`[0, n)`. Every number in the range is the outcome for some raw draw. -/
def Rand.Intn (r : Rand) (n : Int) : Except GoPanic (Nat × Rand) :=
  if n ≤ 0 then .error .intnNonPositive
  else .ok (r.src r.pos % n.toNat, { r with pos := r.pos + 1 })

/-! ## Outgoing selection -/

/-- The conversion `uint32(x)` of a Go `int`. -/
def uint32 (x : Int) : Nat := (x % 4294967296).toNat

/-- The expression `uint32(4294967295/uint32(wanted)) + 1`, computed in `uint32`. -/
def bucketSize (wanted : Int) : Except GoPanic Nat :=
  if uint32 wanted = 0 then .error .divideByZero
  else .ok ((4294967295 / uint32 wanted + 1) % 4294967296)

/-- The loop "distribute peers over n buckets". -/
def distribute (heap : Ptr → Peer) (bucketSize : Nat) :
    List Ptr → List (List Ptr) → Except GoPanic (List (List Ptr))
  | [], buckets => .ok buckets
  | peer :: rest, buckets =>
    if bucketSize = 0 then .error .divideByZero
    else
      let bucketIndex := (heap peer).Location % 4294967296 / bucketSize
      match buckets[bucketIndex]? with
      | none => .error .indexOutOfRange
      | some bucket =>
        distribute heap bucketSize rest (buckets.set bucketIndex (bucket ++ [peer]))

/-- One iteration `i` of the inner loop of the pick phase. -/
def pickFrom (offset : Nat) (st : List (List Ptr) × List Ptr × Rand) (i : Nat) :
    Except GoPanic (List (List Ptr) × List Ptr × Rand) :=
  let (buckets, picked, rng) := st
  let bi := (i + offset) % buckets.length
  match buckets[bi]? with
  | none => .error .indexOutOfRange
  | some bucket =>
    if bucket.length > 0 then do
      let (pi, rng) ← rng.Intn bucket.length
      match bucket[pi]?, bucket[bucket.length - 1]? with
      | some chosen, some last =>
        let picked := picked ++ [chosen]
        let bucket := bucket.set pi last
        pure (buckets.set bi (bucket.take (bucket.length - 1)), picked, rng)
      | _, _ => .error .indexOutOfRange
    else pure (buckets, picked, rng)

/-- One pass of the outer loop: draw the offset, then walk all buckets. -/
def pickPass (st : List (List Ptr) × List Ptr × Rand) :
    Except GoPanic (List (List Ptr) × List Ptr × Rand) := do
  let (buckets, picked, rng) := st
  let (offset, rng) ← rng.Intn buckets.length
  (List.range buckets.length).foldlM (pickFrom offset) (buckets, picked, rng)

/-- The loop `for len(picked) < wanted`, run for at most `fuel` passes. -/
def pickLoop (wanted : Int) :
    Nat → List (List Ptr) × List Ptr × Rand → Except GoPanic (List Ptr × Rand)
  | fuel, (buckets, picked, rng) =>
    if (picked.length : Int) < wanted then
      match fuel with
      | 0 => .error .outOfFuel
      | fuel + 1 => do
        let st ← pickPass (buckets, picked, rng)
        pickLoop wanted fuel st
    else .ok (picked, rng)

/-- The method `getOutgoingSelection(filtered, wanted)`; returns the selection
and the advanced random source. The pick loop gets `wanted` passes of fuel. -/
def getOutgoingSelection (pm : PeerManager) (filtered : List Ptr) (wanted : Int) :
    Except GoPanic (List Ptr × Rand) :=
  if (filtered.length : Int) ≤ wanted then .ok (filtered, pm.rng)
  else if wanted < 0 then .error .makeLenOutOfRange
  else do
    let buckets : List (List Ptr) := List.replicate wanted.toNat []
    let bucketSize ← bucketSize wanted
    let buckets ← distribute pm.heap bucketSize filtered buckets
    pickLoop wanted wanted.toNat (buckets, [], pm.rng)

/-! ## Peer methods used by the manager -/

/-- Apply `f` to the record behind the pointer `peer`. -/
def PeerManager.modifyPeer (pm : PeerManager) (peer : Ptr) (f : Peer → Peer) : PeerManager :=
  { pm with heap := fun q => if q = peer then f (pm.heap q) else pm.heap q }

/-- Modelled from the spec: `Peer.GoOffline` is not part of the sources; the
spec says it "closes the connection, drains the mailbox, transitions to
`Offline`" and is idempotent. -/
def GoOffline (pm : PeerManager) (peer : Ptr) : PeerManager :=
  pm.modifyPeer peer (fun p => { p with state := PeerState.Offline })

/-- Modelled from the spec: `Peer.StartWithActiveConnection` is not part of the
sources; the spec says "for inbound peers; attach and go `Online`". -/
def StartWithActiveConnection (pm : PeerManager) (peer : Ptr) (_con : Conn) : PeerManager :=
  pm.modifyPeer peer (fun p => { p with state := PeerState.Online })

/-- Modelled from the spec: `Peer.IsOffline` is not part of the sources. -/
def IsOffline (pm : PeerManager) (peer : Ptr) : Bool :=
  (pm.heap peer).state = PeerState.Offline

/-- Modelled from the spec: `PeerMap.Add` is not part of the sources; the spec
describes the index as `map Hash → Peer`, so the peer is bound under its
`Hash`. -/
def PeerMap.Add (heap : Ptr → Peer) (m : PeerMap) (peer : Ptr) : PeerMap :=
  GoMap.set m (heap peer).Hash peer

/-- Modelled from the spec: `PeerMap.Remove` is not part of the sources; it
deletes the binding under the peer's `Hash`. -/
def PeerMap.Remove (heap : Ptr → Peer) (m : PeerMap) (peer : Ptr) : PeerMap :=
  GoMap.delete m (heap peer).Hash

/-- The call `BlockFreeChannelSend(pm.controller.FromNetwork, message)`. The
function is not part of the sources, and what it does with a full channel is
not settled by what is: the spec says that the manager "blocks until space is
available or shutdown is signalled", the name of the function says that the
send does not block. The embedding therefore records the call and nothing
else: the parcel is added to the record `FromNetwork` of parcels handed to the
function. Whether the parcel enters the channel, waits or is dropped is not
modelled. -/
def BlockFreeChannelSend (pm : PeerManager) (message : Parcel) : PeerManager :=
  { pm with FromNetwork := pm.FromNetwork ++ [message] }

/-- The largest `time.Duration`. -/
def maxDuration : Int := 9223372036854775807

/-- The smallest `time.Duration`. -/
def minDuration : Int := -9223372036854775808

/-- The call `time.Since(t)` when the clock reads `now`; the difference
saturates at the ends of the `int64` range. -/
def timeSince (now t : Int) : Int :=
  max minDuration (min maxDuration (now - t))

/-! ## The peer store -/

/-- The constructor `NewPeerManager`: empty indices, zero counters. -/
def NewPeerManager (config : Configuration) (rng : Rand) : PeerManager :=
  { config := config
    heap := fun _ => {}
    nextPtr := 0
    peerByHash := []
    peerByIP := []
    incoming := 0
    outgoing := 0
    specialIP := []
    lastPeerRequest := 0
    lastPeerDial := 0
    lastPeerDuplicateCheck := 0
    rng := rng
    FromNetwork := []
    ApplicationMessagesReceived := 0
    sent := []
    goroutines := []
    closed := []
    stop := 0
    dialed := [] }

/-- The increment `x++` of a Go `uint`. -/
def uintInc (x : Nat) : Nat := (x + 1) % 18446744073709551616

/-- The method `addPeer`. -/
def addPeer (pm : PeerManager) (peer : Ptr) : PeerManager :=
  let pm := { pm with peerByHash := PeerMap.Add pm.heap pm.peerByHash peer }
  let pm :=
    match pm.peerByIP.get (pm.heap peer).Address with
    | some ip =>
      { pm with peerByIP := pm.peerByIP.set (pm.heap peer).Address (PeerMap.Add pm.heap ip peer) }
    | none =>
      { pm with peerByIP := pm.peerByIP.set (pm.heap peer).Address [((pm.heap peer).Hash, peer)] }
  if (pm.heap peer).Outgoing then
    { pm with outgoing := uintInc pm.outgoing }
  else
    { pm with incoming := uintInc pm.incoming }

/-- The method `removePeer`. Deleting from the map of an address that has no
map is a no-op, as `delete` on a nil map is. -/
def removePeer (pm : PeerManager) (peer : Ptr) : PeerManager :=
  let pm := GoOffline pm peer
  let pm := { pm with peerByHash := PeerMap.Remove pm.heap pm.peerByHash peer }
  match pm.peerByIP.get (pm.heap peer).Address with
  | some ip =>
    { pm with peerByIP := pm.peerByIP.set (pm.heap peer).Address (ip.delete (pm.heap peer).Hash) }
  | none => pm

/-- The method `banPeer`. -/
def banPeer (pm : PeerManager) (peer : Ptr) : PeerManager :=
  removePeer pm peer

/-- The method `SpawnPeer`; returns the new manager state and the new peer.
The record is allocated at the next free address. -/
def SpawnPeer (pm : PeerManager) (address : String) (outgoing : Bool) (listenPort : String) :
    PeerManager × Ptr :=
  let p : Peer :=
    { Address := address, Outgoing := outgoing, state := PeerState.Offline,
      ListenPort := listenPort }
  let p := { p with ListenPort := pm.config.ListenPort }
  let p := { p with Hash := address ++ ":" ++ listenPort }
  let ptr := pm.nextPtr
  let pm := { pm with heap := fun q => if q = ptr then p else pm.heap q, nextPtr := ptr + 1 }
  (addPeer pm ptr, ptr)

/-- The method `HandleIncoming`; `con.RemoteAddr().String()` is `con.RemoteAddr`
and `con.Close()` records the connection in `closed`. -/
def HandleIncoming (pm : PeerManager) (con : Conn) : PeerManager :=
  let ip := con.RemoteAddr
  let special := (pm.specialIP.get ip).getD false
  if !special then
    if pm.outgoing ≥ pm.config.Outgoing then
      { pm with closed := pm.closed ++ [con.id] }
    else if pm.config.RefuseIncoming || pm.config.RefuseUnknown then
      { pm with closed := pm.closed ++ [con.id] }
    else
      let (pm, p) := SpawnPeer pm ip false "0"
      StartWithActiveConnection pm p con
  else
    let (pm, p) := SpawnPeer pm ip false "0"
    StartWithActiveConnection pm p con

/-! ## The data loop -/

/-- One iteration of the loop of `manageData`, for the item `data` received
from the `Data` channel while the clock reads `now`. -/
def manageDataStep (pm : PeerManager) (data : PeerParcel) (now : Int) : PeerManager :=
  let parcel := data.Parcel
  let peer := data.Peer
  if parcel.Header.Network ≠ pm.config.Network then
    banPeer pm peer
  else
    match parcel.Header.Type' with
    | .TypeMessagePart => pm
    | .TypeHeartbeat => pm
    | .TypePing => pm
    | .TypePong => pm
    | .TypeAlert => pm
    | .TypeMessage =>
      let pm := { pm with ApplicationMessagesReceived := pm.ApplicationMessagesReceived + 1 }
      BlockFreeChannelSend pm parcel
    | .TypePeerRequest =>
      if timeSince now (pm.heap peer).lastPeerSend ≥ pm.config.PeerRequestInterval then
        let pm := pm.modifyPeer peer (fun p => { p with lastPeerSend := now })
        { pm with goroutines := pm.goroutines ++ [Goroutine.sharePeers peer] }
      else pm
    | .TypePeerResponse =>
      if timeSince now (pm.heap peer).lastPeerRequest ≥ pm.config.PeerRequestInterval then
        let pm := pm.modifyPeer peer (fun p => { p with lastPeerRequest := now })
        { pm with goroutines := pm.goroutines ++ [Goroutine.processPeers peer parcel] }
      else pm
    | .TypeUnknown _ => pm

/-- The method `manageData` run on the items received, in order, each with the
clock reading at which it is handled. -/
def manageData (pm : PeerManager) (items : List (PeerParcel × Int)) : PeerManager :=
  items.foldl (fun pm item => manageDataStep pm item.1 item.2) pm

/-! ## Observations on manager states -/

/-- The count made at the start of `managePeersDialOutgoing`: the number of
peers in `peerByHash` that are not `Offline`. -/
def countNotOffline (pm : PeerManager) : Nat :=
  (pm.peerByHash.filter (fun e => !IsOffline pm e.2)).length

/-- The peer `p` is the value stored in `peerByHash` under its `Hash`. -/
def storedByHash (pm : PeerManager) (p : Ptr) : Prop :=
  pm.peerByHash.get (pm.heap p).Hash = some p

/-- The two-level lookup `byIP[address][hash]`; a missing inner map reads as
an empty one. -/
def get2 (byIP : GoMap PeerMap) (address hash : String) : Option Ptr :=
  (byIP.get address).bind (fun m => m.get hash)

/-- The peer `p` is the value stored in `peerByIP[p.Address]` under its `Hash`. -/
def storedByIP (pm : PeerManager) (p : Ptr) : Prop :=
  get2 pm.peerByIP (pm.heap p).Address (pm.heap p).Hash = some p

instance (pm : PeerManager) (p : Ptr) : Decidable (storedByHash pm p) := by
  unfold storedByHash; infer_instance

instance (pm : PeerManager) (p : Ptr) : Decidable (storedByIP pm p) := by
  unfold storedByIP; infer_instance

/-- The lookup `pm.specialIP[ip]`; a missing key reads as `false`. -/
def isSpecialIP (pm : PeerManager) (ip : String) : Bool :=
  (pm.specialIP.get ip).getD false

/-- The spec's "the IP is in the known set": the index `peerByIP` holds a peer
for this address. -/
def knownIP (pm : PeerManager) (ip : String) : Bool :=
  match pm.peerByIP.get ip with
  | some m => !m.isEmpty
  | none => false

/-- `HandleIncoming` rejects `con`: the connection is closed, no peer record is
created and both indices are untouched. -/
def rejectsIncoming (pm : PeerManager) (con : Conn) : Prop :=
  (HandleIncoming pm con).closed = pm.closed ++ [con.id] ∧
  (HandleIncoming pm con).nextPtr = pm.nextPtr ∧
  (HandleIncoming pm con).peerByHash = pm.peerByHash ∧
  (HandleIncoming pm con).peerByIP = pm.peerByIP

/-- `HandleIncoming` admits `con`: the connection stays open and a new incoming
peer for the remote address is in the store, `Online`. -/
def admitsIncoming (pm : PeerManager) (con : Conn) : Prop :=
  (HandleIncoming pm con).closed = pm.closed ∧
  (HandleIncoming pm con).nextPtr = pm.nextPtr + 1 ∧
  ((HandleIncoming pm con).heap pm.nextPtr).Address = con.RemoteAddr ∧
  ((HandleIncoming pm con).heap pm.nextPtr).Outgoing = false ∧
  ((HandleIncoming pm con).heap pm.nextPtr).state = PeerState.Online ∧
  (HandleIncoming pm con).peerByHash.get (con.RemoteAddr ++ ":" ++ "0") = some pm.nextPtr

instance (pm : PeerManager) (con : Conn) : Decidable (rejectsIncoming pm con) := by
  unfold rejectsIncoming; infer_instance

instance (pm : PeerManager) (con : Conn) : Decidable (admitsIncoming pm con) := by
  unfold admitsIncoming; infer_instance

/-- The listen-port strings of real endpoints: no `:` in them. -/
def colonFree (s : String) : Prop := ':' ∉ s.data

instance (s : String) : Decidable (colonFree s) := by
  unfold colonFree; infer_instance

/-- The manager states reachable from the empty store of `NewPeerManager` by
calls of `SpawnPeer`, `addPeer`, `removePeer` and `banPeer`. The listen ports
passed to `SpawnPeer` satisfy `portOk`; the peers passed to the other three
are peers that `SpawnPeer` has returned. -/
inductive Reachable (portOk : String → Prop) (config : Configuration) (rng : Rand) :
    PeerManager → Prop where
  | init : Reachable portOk config rng (NewPeerManager config rng)
  | spawn {pm : PeerManager} (address : String) (outgoing : Bool) (listenPort : String) :
      Reachable portOk config rng pm → portOk listenPort →
      Reachable portOk config rng (SpawnPeer pm address outgoing listenPort).1
  | add {pm : PeerManager} (peer : Ptr) :
      Reachable portOk config rng pm → peer < pm.nextPtr →
      Reachable portOk config rng (addPeer pm peer)
  | remove {pm : PeerManager} (peer : Ptr) :
      Reachable portOk config rng pm → peer < pm.nextPtr →
      Reachable portOk config rng (removePeer pm peer)
  | ban {pm : PeerManager} (peer : Ptr) :
      Reachable portOk config rng pm → peer < pm.nextPtr →
      Reachable portOk config rng (banPeer pm peer)

/-- The facts about a store that the calls `SpawnPeer`, `addPeer`, `removePeer`
and `banPeer` keep true when every spawned listen port is `colonFree`:
the bindings of `peerByIP` sit under the address and hash of allocated peers,
every allocated peer has a hash of the form `Address:port`, and the two
indices hold the same peers under the same hashes. -/
structure StoreInv (pm : PeerManager) : Prop where
  ipKey : ∀ a k q, get2 pm.peerByIP a k = some q →
    q < pm.nextPtr ∧ (pm.heap q).Hash = k ∧ (pm.heap q).Address = a
  hashForm : ∀ q, q < pm.nextPtr →
    ∃ lp, colonFree lp ∧ (pm.heap q).Hash = (pm.heap q).Address ++ ":" ++ lp
  agree : ∀ k q, pm.peerByHash.get k = some q ↔ ∃ a, get2 pm.peerByIP a k = some q

/-! ## Concrete inputs -/

/-- A configuration: network 1, listening on 8108, eight outgoing peers wanted,
peer requests at least one second apart. -/
def exampleConfig : Configuration :=
  { Network := 1, ListenPort := "8108", Outgoing := 8, PeerRequestInterval := 1000000000 }

/-- The configuration `exampleConfig` with `RefuseUnknown` set. -/
def refuseUnknownConfig : Configuration :=
  { exampleConfig with RefuseUnknown := true }

/-- A random source whose every raw draw is `0`. -/
def zeroRand : Rand := ⟨fun _ => 0, 0⟩

/-- A manager whose peer records `0, 1, ...` have the given `Location`s. -/
def withLocations (locs : List Nat) : PeerManager :=
  { NewPeerManager exampleConfig zeroRand with
    heap := fun q => { Location := locs.getD q 0 }
    nextPtr := locs.length }

/-- The empty manager after one incoming peer from `10.0.0.1:4000` was spawned,
under `refuseUnknownConfig`. -/
def oneKnownPeer : PeerManager :=
  (SpawnPeer (NewPeerManager refuseUnknownConfig zeroRand) "10.0.0.1:4000" false "0").1

/-- The call `SpawnPeer("10.0.0.1", false, "0")` on the empty manager, as made
by `HandleIncoming` for a first connection, under `exampleConfig`. -/
def spawnInbound : PeerManager × Ptr :=
  SpawnPeer (NewPeerManager exampleConfig zeroRand) "10.0.0.1" false "0"

/-- The empty manager after `SpawnPeer("10.0.0.1", true, "8108")`. -/
def oneSeed : PeerManager :=
  (SpawnPeer (NewPeerManager exampleConfig zeroRand) "10.0.0.1" true "8108").1

/-- The empty manager after `SpawnPeer("10.0.0.1:4000", false, "0")`, the call
`HandleIncoming` makes for that remote address, and then
`SpawnPeer("10.0.0.1", true, "4000:0")`: two peers with the same `Hash`,
`10.0.0.1:4000:0`, and different addresses. -/
def twoColliding : PeerManager :=
  (SpawnPeer (SpawnPeer (NewPeerManager exampleConfig zeroRand) "10.0.0.1:4000" false "0").1
    "10.0.0.1" true "4000:0").1

/-- A parcel of the given network and type with a three-byte payload. -/
def exampleParcel (network : Nat) (type : ParcelType) : Parcel :=
  { Header := { Network := network, Type' := type }, Payload := [1, 2, 3] }

/-! ## Peer sharing -/

/-- Modelled from the spec: `Peer.IsOnline` is not part of the sources. -/
def IsOnline (pm : PeerManager) (peer : Ptr) : Bool :=
  (pm.heap peer).state = PeerState.Online

/-- Modelled from the spec: `Peer.IsSpecial` is not part of the sources; the
spec lists `Special` among the capability flags of a peer. -/
def IsSpecial (pm : PeerManager) (peer : Ptr) : Bool :=
  (pm.heap peer).Special

/-- Modelled from the spec: `Peer.Send` is not part of the sources; the spec
says it enqueues the parcel on the peer's mailbox. The call is recorded in
`sent`. -/
def Send (pm : PeerManager) (peer : Ptr) (parcel : Parcel) : PeerManager :=
  { pm with sent := pm.sent ++ [(peer, parcel)] }

/-- Modelled from the spec: `Controller.CreateParcel` is not part of the
sources; the controller is the factory for parcels of the local network. -/
def CreateParcel (pm : PeerManager) (type : ParcelType) (payload : List Nat) : Parcel :=
  { Header := { Network := pm.config.Network, Type' := type }, Payload := payload }

/-- The method `filteredSharing`: the loop over `peerByHash` appends every peer
that is not special and whose score reaches the configured minimum. -/
def filteredSharing (pm : PeerManager) : List Ptr :=
  pm.peerByHash.foldl
    (fun filtered e =>
      if !IsSpecial pm e.2 && decide ((pm.heap e.2).QualityScore ≥ pm.config.MinimumQualityScore)
      then filtered ++ [e.2] else filtered)
    []

/-- The method `sharePeers`. The encoder `json.Marshal` of the standard library
is the parameter `marshal`; it is applied to the records behind the pointers. -/
def sharePeers (marshal : List Peer → Except String (List Nat)) (pm : PeerManager)
    (peer : Ptr) : PeerManager :=
  let list := filteredSharing pm
  match marshal (list.map pm.heap) with
  | .error _ => pm
  | .ok json =>
    let parcel := CreateParcel pm ParcelType.TypePeerResponse json
    Send pm peer parcel

/-- The second argument of `json.Unmarshal`: a `[]Peer` passed as it is, or a
pointer to one. -/
inductive JsonDest where
  | value (list : List Peer)
  | pointer (list : List Peer)
  deriving DecidableEq, Repr

/-- The call `json.Unmarshal(data, v)` of the standard library; returns the
content of the destination after the call and whether the error is non-nil.
A destination that is not a pointer gives an `InvalidUnmarshalError` (or the
syntax error of `data`) and is left as it was. The decoder for a pointer
destination is the parameter `decode`. -/
def jsonUnmarshal (decode : List Nat → Option (List Peer)) (data : List Nat) :
    JsonDest → List Peer × Bool
  | .value list => (list, true)
  | .pointer list =>
    match decode data with
    | some decoded => (decoded, false)
    | none => (list, true)

/-- The first statements of `processPeers`: `var list []Peer` followed by
`json.Unmarshal(parcel.Payload, list)`; returns `list` and whether `err` is
non-nil. -/
def processPeersDecode (decode : List Nat → Option (List Peer)) (payload : List Nat) :
    List Peer × Bool :=
  jsonUnmarshal decode payload (JsonDest.value [])

/-- The first loop of `processPeers`: the set `known` of the connect addresses
of the store. -/
def knownAddresses (ConnectAddress : Peer → String) (pm : PeerManager) : GoMap Bool :=
  pm.peerByHash.foldl (fun known e => known.set (ConnectAddress (pm.heap e.2)) true) []

/-- The method `processPeers`. A decode error is logged and the method goes on
with `list`. `Peer.ConnectAddress`, not part of the sources, is the parameter
`ConnectAddress`. -/
def processPeers (decode : List Nat → Option (List Peer)) (ConnectAddress : Peer → String)
    (pm : PeerManager) (_peer : Ptr) (parcel : Parcel) : PeerManager :=
  let (list, _err) := processPeersDecode decode parcel.Payload
  let known := knownAddresses ConnectAddress pm
  (list.foldl
    (fun (st : PeerManager × GoMap Bool) p =>
      if !((st.2.get (ConnectAddress p)).getD false) then
        let known := st.2.set (ConnectAddress p) true
        let (pm, add) := SpawnPeer st.1 p.Address true p.ListenPort
        (addPeer pm add, known)
      else st)
    (pm, known)).1

/-! ## Broadcast -/

/-- The loop at the start of `selectRandomPeers`: the `Online` peers of
`peerByHash`. -/
def onlinePeers (pm : PeerManager) : List Ptr :=
  pm.peerByHash.foldl (fun peers e => if IsOnline pm e.2 then peers ++ [e.2] else peers) []

/-- The swap function handed to `shuffle`:
`peers[i], peers[j] = peers[j], peers[i]`. -/
def swapPeers (peers : List Ptr) (i j : Nat) : Except GoPanic (List Ptr) :=
  match peers[i]?, peers[j]? with
  | some a, some b => .ok ((peers.set i b).set j a)
  | _, _ => .error .indexOutOfRange

/-- The method `selectRandomPeers`. The function `shuffle` is not part of the
sources; `swaps` is the sequence of index pairs with which it calls the swap
function. -/
def selectRandomPeers (pm : PeerManager) (count : Nat) (swaps : List (Nat × Nat)) :
    Except GoPanic (List Ptr) :=
  let peers := onlinePeers pm
  if peers.length ≤ count then .ok peers
  else do
    let peers ← swaps.foldlM (fun ps s => swapPeers ps s.1 s.2) peers
    pure (peers.take count)

/-- The method `Broadcast`; `swaps` is the outcome of the shuffle made by
`selectRandomPeers`. -/
def Broadcast (pm : PeerManager) (parcel : Parcel) (full : Bool) (swaps : List (Nat × Nat)) :
    Except GoPanic PeerManager :=
  if full then
    .ok (pm.peerByHash.foldl (fun pm e => Send pm e.2 parcel) pm)
  else do
    let selection ← selectRandomPeers pm pm.config.Fanout swaps
    pure (selection.foldl (fun pm p => Send pm p parcel) pm)

/-! ## Duplicate detection -/

/-- Modelled from the spec: `Peer.Better` is not part of the sources; the spec
says "higher `QualityScore`, then older `LastSeen`, then outgoing preferred
over incoming". -/
def Better (p other : Peer) : Bool :=
  decide (p.QualityScore > other.QualityScore) ||
  (decide (p.QualityScore = other.QualityScore) &&
    (decide (p.LastSeen < other.LastSeen) ||
      (decide (p.LastSeen = other.LastSeen) && (p.Outgoing && !other.Outgoing))))

/-- One iteration of the loop of `managePeersDetectDuplicate`, on the map
`exists` and the slice `remove`. -/
def detectStep (ConnectAddress : Peer → String) (heap : Ptr → Peer)
    (st : GoMap Ptr × List Ptr) (e : String × Ptr) : GoMap Ptr × List Ptr :=
  let p := e.2
  let addr := ConnectAddress (heap p)
  match st.1.get addr with
  | some other =>
    if Better (heap p) (heap other) then (st.1.set addr p, st.2 ++ [other])
    else (st.1, st.2 ++ [p])
  | none => (st.1.set addr p, st.2)

/-- The method `managePeersDetectDuplicate`. `Peer.ConnectAddress`, not part of
the sources, is the parameter `ConnectAddress`. -/
def managePeersDetectDuplicate (ConnectAddress : Peer → String) (pm : PeerManager) :
    PeerManager :=
  let remove := (pm.peerByHash.foldl (detectStep ConnectAddress pm.heap) ([], [])).2
  if remove.length > 0 then remove.foldl removePeer pm else pm

/-- The peers of the store: the values of `peerByHash`. -/
def storePeers (pm : PeerManager) : List Ptr :=
  pm.peerByHash.map Prod.snd

/-- A store as Go builds it: the keys of `peerByHash` are distinct and every
peer is bound under its own `Hash`. -/
def storeKeyed (pm : PeerManager) : Prop :=
  (pm.peerByHash.map Prod.fst).Nodup ∧ ∀ e ∈ pm.peerByHash, (pm.heap e.2).Hash = e.1

instance (pm : PeerManager) : Decidable (storeKeyed pm) := by
  unfold storeKeyed; infer_instance

/-- The facts that hold of the map `exists` and the slice `remove` of
`managePeersDetectDuplicate` after the peers `done` have been visited: a peer
bound in `exists` sits under its connect address and was visited; a visited
peer is in `remove` or is the one bound under its address; and a peer in
`remove` was visited, is not the one bound under its address, and is not
`Better` than the one that is. -/
structure DetectInv (ConnectAddress : Peer → String) (heap : Ptr → Peer) (done : List Ptr)
    (st : GoMap Ptr × List Ptr) : Prop where
  cur : ∀ a s, st.1.get a = some s → ConnectAddress (heap s) = a ∧ s ∈ done
  visited : ∀ q ∈ done, q ∈ st.2 ∨ st.1.get (ConnectAddress (heap q)) = some q
  removed : ∀ r ∈ st.2, r ∈ done ∧ st.1.get (ConnectAddress (heap r)) ≠ some r ∧
    ∃ s, st.1.get (ConnectAddress (heap r)) = some s ∧ Better (heap r) (heap s) = false

/-! ## Shutdown -/

/-- How a call of `Stop` ends: it returns, or it stays parked on the send to
the channel `stop`. -/
inductive StopOutcome where
  | returned (pm : PeerManager)
  | blocked (pm : PeerManager)

/-- The method `Stop`. The send `pm.stop <- true` completes when the channel,
made with capacity 1, has room; then every peer of the store goes offline.
When the channel is full the call is parked on the send, and as nothing in
the manager receives from `stop` it stays there. -/
def Stop (pm : PeerManager) : StopOutcome :=
  if pm.stop < 1 then
    let pm := { pm with stop := pm.stop + 1 }
    StopOutcome.returned (pm.peerByHash.foldl (fun pm e => GoOffline pm e.2) pm)
  else StopOutcome.blocked pm

/-! ## Seed discovery -/

/-- The errors of `net.SplitHostPort`. -/
inductive AddrError where
  | missingPort
  | tooManyColons
  | missingBracket
  | unexpectedOpen
  | unexpectedClose
  deriving DecidableEq, Repr

/-- The position of the first `c` in `s`. -/
def indexByte : List Char → Char → Option Nat
  | [], _ => none
  | x :: rest, c => if x = c then some 0 else (indexByte rest c).map (· + 1)

/-- The position of the last `c` in `s`. -/
def lastIndexByte : List Char → Char → Option Nat
  | [], _ => none
  | x :: rest, c =>
    match lastIndexByte rest c with
    | some i => some (i + 1)
    | none => if x = c then some 0 else none

/-- The end of `net.SplitHostPort`: no `[` from position `j` on, no `]` from
position `k` on, and the port is what follows the last colon, at `i`. -/
def splitHostPortEnd (s : List Char) (i : Nat) (host : List Char) (j k : Nat) :
    Except AddrError (String × String) :=
  if (indexByte (s.drop j) '[').isSome then .error .unexpectedOpen
  else if (indexByte (s.drop k) ']').isSome then .error .unexpectedClose
  else .ok (String.mk host, String.mk (s.drop (i + 1)))

/-- The function `net.SplitHostPort` of the Go standard library. -/
def SplitHostPort (hostport : String) : Except AddrError (String × String) :=
  let s := hostport.data
  match lastIndexByte s ':' with
  | none => .error .missingPort
  | some i =>
    if s.head? = some '[' then
      match indexByte s ']' with
      | none => .error .missingBracket
      | some close =>
        if close + 1 = s.length then .error .missingPort
        else if close + 1 = i then
          splitHostPortEnd s i ((s.take close).drop 1) 1 (close + 1)
        else if s[close + 1]? = some ':' then .error .tooManyColons
        else .error .missingPort
    else
      let host := s.take i
      if (indexByte host ':').isSome then .error .tooManyColons
      else splitHostPortEnd s i host 0 0

/-- The body of the loop of `discoverSeeds` for one scanned line. -/
def discoverSeedsLine (pm : PeerManager) (line : String) : PeerManager :=
  match SplitHostPort line with
  | .ok (address, port) =>
    let (pm, seed) := SpawnPeer pm address true port
    addPeer pm seed
  | .error _ => pm

/-- The method `discoverSeeds`. The argument is the outcome of
`http.Get(pm.config.SeedURL)`: an error, or the lines that the scanner yields
for the response body, in order. -/
def discoverSeeds (pm : PeerManager) (resp : Except String (List String)) : PeerManager :=
  match resp with
  | .error _ => pm
  | .ok lines => lines.foldl discoverSeedsLine pm

/-! ## Further observations and concrete inputs -/

/-- The seed `host:port` is in the store: `peerByHash` binds the hash
`host:port` to an allocated peer with that hash and address that is outgoing
and `Offline`. -/
def seedStored (pm : PeerManager) (host port : String) : Prop :=
  ∃ q, q < pm.nextPtr ∧ pm.peerByHash.get (host ++ ":" ++ port) = some q ∧
    (pm.heap q).Hash = host ++ ":" ++ port ∧ (pm.heap q).Address = host ∧
    (pm.heap q).Outgoing = true ∧ (pm.heap q).state = PeerState.Offline

/-- The configuration `exampleConfig` with a fanout of one peer. -/
def fanoutOneConfig : Configuration :=
  { exampleConfig with Fanout := 1 }

/-- Two peers spawned on the empty manager under `fanoutOneConfig`, both
`Online`; peer 0, at `10.0.0.1`, is special, peer 1, at `10.0.0.2`, is not. -/
def twoOnline : PeerManager :=
  (((SpawnPeer (SpawnPeer (NewPeerManager fanoutOneConfig zeroRand)
      "10.0.0.1" true "8108").1 "10.0.0.2" true "8108").1.modifyPeer 0
      (fun p => { p with state := PeerState.Online, Special := true })).modifyPeer 1
      (fun p => { p with state := PeerState.Online }))

/-- A connect address: the peer's address and listen port. -/
def exampleConnectAddress (p : Peer) : String :=
  p.Address ++ ":" ++ p.ListenPort

/-- Two peers at `10.0.0.1` with the hashes `10.0.0.1:8108` and `10.0.0.1:0`
and the same connect address; peer 0 has `QualityScore` 10 and peer 1 has 5. -/
def twoScored : PeerManager :=
  (((SpawnPeer (SpawnPeer (NewPeerManager exampleConfig zeroRand)
      "10.0.0.1" true "8108").1 "10.0.0.1" false "0").1.modifyPeer 0
      (fun p => { p with QualityScore := 10 })).modifyPeer 1
      (fun p => { p with QualityScore := 5 }))

/-- The store `twoScored` with the bindings of `peerByHash` in the other
order. -/
def twoScoredReversed : PeerManager :=
  { twoScored with peerByHash := twoScored.peerByHash.reverse }

/-- A peer record as it travels in a peer share. -/
def sharedPeer : Peer :=
  { Address := "10.0.0.9", ListenPort := "8108", QualityScore := 3 }

/-! ## Dialling and the peer loop -/

/-- The subtraction `a - b` of two Go `uint`s on a 64-bit platform: the
difference modulo `2^64`. -/
def uintSub (a b : Nat) : Nat :=
  (a % 18446744073709551616 + 18446744073709551616 - b % 18446744073709551616) %
    18446744073709551616

/-- The conversion `int(x)` of a Go `uint` on a 64-bit platform: the 64 bits
are read as a two's complement number. -/
def uintToInt (x : Nat) : Int :=
  if x % 18446744073709551616 < 9223372036854775808 then
    ((x % 18446744073709551616 : Nat) : Int)
  else
    ((x % 18446744073709551616 : Nat) : Int) - 18446744073709551616

/-- Modelled from the spec: `Peer.CanDial` is not part of the sources; the spec
lists `CanDial` ("the peer has a usable listen endpoint") among the capability
flags of a peer. -/
def CanDial (pm : PeerManager) (peer : Ptr) : Bool :=
  (pm.heap peer).CanDial

/-- Modelled from the spec: `Peer.StartToDial` is not part of the sources; the
spec says it is "valid only in `Offline`; transitions to `Connecting` and
attempts TCP dial with a timeout". The call is recorded in `dialed`. -/
def StartToDial (pm : PeerManager) (peer : Ptr) : PeerManager :=
  let pm := { pm with dialed := pm.dialed ++ [peer] }
  if IsOffline pm peer then
    pm.modifyPeer peer (fun p => { p with state := PeerState.Connecting })
  else pm

/-- The method `filteredOutgoing`: the loop over `peerByHash` appends every
peer that is `Offline`, can be dialled and, under `TrustedOnly`, is special.
The configuration of a peer is the configuration of its manager. -/
def filteredOutgoing (pm : PeerManager) : List Ptr :=
  pm.peerByHash.foldl
    (fun filtered e =>
      if IsOffline pm e.2 && CanDial pm e.2 && (!pm.config.TrustedOnly || IsSpecial pm e.2) then
        filtered ++ [e.2]
      else filtered)
    []

/-- The counting loop at the start of `managePeersDialOutgoing`: a `uint`
incremented once for every peer of `peerByHash` that is not `Offline`. -/
def dialCount (pm : PeerManager) : Nat :=
  pm.peerByHash.foldl (fun count e => if !IsOffline pm e.2 then uintInc count else count) 0

/-- The method `managePeersDialOutgoing`. The selection draws from the
manager's random source. -/
def managePeersDialOutgoing (pm : PeerManager) : Except GoPanic PeerManager :=
  let count := dialCount pm
  let want := uintToInt (uintSub pm.config.Outgoing count)
  if want > 0 then do
    let filter := filteredOutgoing pm
    let (peers, rng) ← getOutgoingSelection pm filter want
    let pm := { pm with rng := rng }
    pure (peers.foldl StartToDial pm)
  else pure pm

/-- The bytes of an ASCII string, as the conversion `[]byte(s)` gives them. -/
def asciiBytes (s : String) : List Nat :=
  s.data.map Char.toNat

/-- The body of the loop over `peerByHash` in `managePeers`, for the peer `p`
while the clock reads `now`. The configuration of a peer is the configuration
of its manager. -/
def managePeersPeer (now : Int) (pm : PeerManager) (p : Ptr) : PeerManager :=
  if IsOnline pm p then
    let pm :=
      if timeSince now (pm.heap p).lastPeerRequest > pm.config.PeerRequestInterval then
        let pm := pm.modifyPeer p (fun q => { q with lastPeerRequest := now })
        let req := CreateParcel pm ParcelType.TypePeerRequest (asciiBytes "Peer Request")
        Send pm p req
      else pm
    if timeSince now (pm.heap p).lastPeerSend > pm.config.PingInterval then
      let ping := CreateParcel pm ParcelType.TypePing (asciiBytes "Ping")
      Send pm p ping
    else pm
  else pm

/-- One iteration of the loop of `managePeers` while the clock reads `now`:
the dialling of outgoing peers when `RedialInterval` has passed, then the loop
over `peerByHash`. The sleep at the end of the iteration is left out. -/
def managePeersStep (pm : PeerManager) (now : Int) : Except GoPanic PeerManager := do
  let pm ←
    if timeSince now pm.lastPeerDial > pm.config.RedialInterval then
      managePeersDialOutgoing { pm with lastPeerDial := now }
    else pure pm
  pure (pm.peerByHash.foldl (fun pm e => managePeersPeer now pm e.2) pm)

/-- The bucket of a peer for the bucket size `bucketSize`: the index
`peer.Location / bucketSize` computed in `uint32`. -/
def bucketOf (heap : Ptr → Peer) (bucketSize : Nat) (peer : Ptr) : Nat :=
  (heap peer).Location % 4294967296 / bucketSize

/-- A store of three peers under `exampleConfig` (eight outgoing peers
wanted): peer 0 is `Online`, peers 1 and 2 are `Offline` and can be dialled. -/
def threePeers : PeerManager :=
  ((((SpawnPeer (SpawnPeer (SpawnPeer (NewPeerManager exampleConfig zeroRand)
      "10.0.0.1" true "8108").1 "10.0.0.2" true "8108").1 "10.0.0.3" true "8108").1.modifyPeer 0
      (fun p => { p with state := PeerState.Online })).modifyPeer 1
      (fun p => { p with CanDial := true })).modifyPeer 2
      (fun p => { p with CanDial := true }))

/-- The store `threePeers` with a configuration that wants one outgoing
peer. -/
def threePeersWantOne : PeerManager :=
  { threePeers with config := { exampleConfig with Outgoing := 1 } }

/-- The store `threePeers` with all three peers `Online` and a configuration
that wants two outgoing peers. -/
def threeOnlineWantTwo : PeerManager :=
  { (((threePeers.modifyPeer 1 (fun p => { p with state := PeerState.Online })).modifyPeer 2
      (fun p => { p with state := PeerState.Online }))) with
    config := { exampleConfig with Outgoing := 2 } }

/-- The store `oneSeed` with its one peer `Online`. -/
def onlineSeed : PeerManager :=
  oneSeed.modifyPeer 0 (fun p => { p with state := PeerState.Online })

/-- The manager after one iteration of `managePeers` on `onlineSeed` at time
`5000000000`. -/
def afterRequest : PeerManager :=
  match managePeersStep onlineSeed 5000000000 with
  | .ok pm => pm
  | .error _ => onlineSeed

/-- The facts that hold of the state of the pick loop of `getOutgoingSelection`
(buckets, picks so far, random source) at the start of every pass: the picks
and the peers still in the buckets are, together, the peers of `filtered`,
each as often as `filtered` has it; and every peer in bucket `j` has bucket
index `j`. -/
structure PickInv (heap : Ptr → Peer) (bucketSize : Nat) (filtered : List Ptr)
    (st : List (List Ptr) × List Ptr × Rand) : Prop where
  perm : (st.2.1 ++ st.1.flatten).Perm filtered
  home : ∀ j bucket, st.1[j]? = some bucket → ∀ p ∈ bucket, bucketOf heap bucketSize p = j

/-- The picks hold a peer from the bucket of every peer of `filtered`. -/
def coversBuckets (heap : Ptr → Peer) (bucketSize : Nat) (filtered picked : List Ptr) : Prop :=
  ∀ p ∈ filtered, ∃ q ∈ picked, bucketOf heap bucketSize q = bucketOf heap bucketSize p

end P2P

/-! # The fast-boot file: `src/state/stateSaver.go` -/

namespace StateSaver

/-- The constant `version`. -/
def version : Nat := 8

/-- The function `NetworkIDToFilename`. A Go string is indexed by bytes; the
byte of `'/'` is never part of a longer UTF-8 sequence, so the test on the last
byte is the test on the last character and the slice `fileLocation[:i]` drops
that character. The verb `%v` prints the constant in decimal. -/
def NetworkIDToFilename (networkName fileLocation : String) : String :=
  let file := "FastBoot_" ++ networkName ++ "_v" ++ toString version ++ ".db"
  if fileLocation ≠ "" then
    let i := fileLocation.data.length - 1
    let fileLocation :=
      if fileLocation.data[i]? = some '/' then String.mk (fileLocation.data.take i)
      else fileLocation
    fileLocation ++ "/" ++ file
  else file

/-- The spec's file name `FastBoot_<Network>_v<Version>.db` at version 8. -/
def fastBootFile (name : String) : String :=
  "FastBoot_" ++ name ++ "_v8.db"

/-- The spec's "location with one trailing `/` removed (if present)". -/
def withoutTrailingSlash (location : String) : String :=
  if location.data.getLast? = some '/' then String.mk location.data.dropLast else location

/-- The fields of `StateSaverStruct`; the mutex is left out. A nil `TmpState`
is the empty list. -/
structure StateSaverStruct where
  FastBoot : Bool := false
  FastBootLocation : String := ""
  TmpDBHt : Nat := 0
  TmpState : List Nat := []
  Stop : Bool := false
  deriving DecidableEq, Repr

/-- Modelled from the spec: the type `DBStateList` is not part of the sources.
The record holds what `SaveDBStateList` reads from it: the value of
`GetHighestSavedBlk()`, the fields `State.FastSaveRate` and
`State.LLeaderHeight`, and the outcome of `MarshalBinary()`. -/
structure DBStateList where
  HighestSavedBlk : Nat
  FastSaveRate : Int
  LLeaderHeight : Nat
  MarshalBinary : Except String (List Nat)

/-- The files on disk: name and content. -/
abbrev Files := P2P.GoMap (List Nat)

/-- The function `SaveToFile`: `ioutil.WriteFile` replaces the content of the
file, or fails with `writeError`. -/
def SaveToFile (files : Files) (b : List Nat) (filename : String)
    (writeError : Option String) : Files × Option String :=
  match writeError with
  | some err => (files, some err)
  | none => (files.set filename b, none)

/-- A `primitives.Hash`: its bytes. -/
abbrev Hash := List Nat

/-- Modelled from the spec: `primitives.Hash` is not part of the sources; the
spec gives the content of the file as `SHA256(body) || body`, so
`Hash.UnmarshalBinaryData` takes the leading 32 bytes as the hash and returns
the rest, and fails on a shorter input. -/
def Hash.UnmarshalBinaryData (p : List Nat) : Except String (Hash × List Nat) :=
  if p.length < 32 then .error "Error unmarshalling" else .ok (p.take 32, p.drop 32)

/-- The method `SaveDBStateList`, for the hash function `Sha`
(`primitives.Sha`, not part of the sources). The result is the saver, the
files and the error returned; the remainder `%` by a zero `FastSaveRate`
panics. -/
def SaveDBStateList (Sha : List Nat → Hash) (sss : StateSaverStruct) (ss : DBStateList)
    (networkName : String) (files : Files) (writeError : Option String) :
    Except P2P.GoPanic (StateSaverStruct × Files × Option String) :=
  if sss.Stop = true then .ok (sss, files, none)
  else
    let hsb : Int := ((ss.HighestSavedBlk % 4294967296 : Nat) : Int)
    if ss.FastSaveRate = 0 then .error P2P.GoPanic.divideByZero
    else
      let cached : Except String StateSaverStruct :=
        if (hsb + 1).tmod ss.FastSaveRate = 0 then
          match ss.MarshalBinary with
          | .error err => .error err
          | .ok b =>
            let h := Sha b
            let b := h ++ b
            .ok { sss with TmpState := b, TmpDBHt := ss.LLeaderHeight }
        else .ok sss
      match cached with
      | .error err => .ok (sss, files, some err)
      | .ok sss =>
        if hsb.tmod ss.FastSaveRate = 0 ∧ sss.TmpState.length > 0 then
          match SaveToFile files sss.TmpState
              (NetworkIDToFilename networkName sss.FastBootLocation) writeError with
          | (files, some err) => .ok (sss, files, some err)
          | (files, none) => .ok ({ sss with TmpState := [] }, files, none)
        else .ok (sss, files, none)

end StateSaver

/-! # The logger: `src/logger/logger.go` -/

namespace FLog

/-- The type `Level`, an `int8`. -/
abbrev Level := Int

/-- The level `None`. -/
def None : Level := -1

/-- The level `Emergency`. -/
def Emergency : Level := 0

/-- The level `Alert`. -/
def Alert : Level := 1

/-- The level `Critical`. -/
def Critical : Level := 2

/-- The level `Error`. -/
def Error : Level := 3

/-- The level `Warning`. -/
def Warning : Level := 4

/-- The level `Notice`. -/
def Notice : Level := 5

/-- The level `Info`. -/
def Info : Level := 6

/-- The level `Debug`. -/
def Debug : Level := 7

/-- The table `levelPrefix`; a level outside the table reads as the empty
string. -/
def levelPrefix (level : Level) : String :=
  if level = Emergency then "EMERGENCY"
  else if level = Alert then "ALERT"
  else if level = Critical then "CRITICAL"
  else if level = Error then "ERROR"
  else if level = Warning then "WARNING"
  else if level = Notice then "NOTICE"
  else if level = Info then "INFO"
  else if level = Debug then "DEBUG"
  else ""

/-- A logger: the lines written to its writer `out` so far, its level, and the
text it puts in front of every message (the field `prefix`, here `label`). -/
structure FLogger where
  out : List String
  level : Level
  label : String
  deriving DecidableEq, Repr

/-- The method `write` for the message `l` of level `level`, when the clock
prints as `timestamp`. The result is the logger and whether `os.Exit(1)` was
called. -/
def write (logger : FLogger) (level : Level) (l : String) (timestamp : String) :
    FLogger × Bool :=
  if level > logger.level then (logger, false)
  else
    let logger :=
      { logger with
        out := logger.out ++
          [timestamp ++ " [" ++ levelPrefix level ++ "] " ++ logger.label ++ ": " ++ l ++ "\n"] }
    if level ≤ Critical then (logger, true) else (logger, false)

/-- The call of `write` puts a line on the writer. -/
def outputs (logger : FLogger) (level : Level) (l timestamp : String) : Prop :=
  (write logger level l timestamp).1.out ≠ logger.out

/-- The call of `write` ends the program with `os.Exit`. -/
def exits (logger : FLogger) (level : Level) (l timestamp : String) : Prop :=
  (write logger level l timestamp).2 = true

/-- A logger at level `Debug` that has written nothing. -/
def debugLogger : FLogger :=
  { out := [], level := Debug, label := "p2p" }

end FLog

/-! # The `getblocks` message: `src/btcd/wire/msggetblocks.go` -/

namespace Wire

/-- An `IHash`: its bytes. -/
abbrev IHash := List Nat

/-- The constant `MaxBlockLocatorsPerMsg`. -/
def MaxBlockLocatorsPerMsg : Nat := 500

/-- The type `MsgGetBlocks`. -/
structure MsgGetBlocks where
  ProtocolVersion : Nat
  BlockLocatorHashes : List IHash
  HashStop : IHash
  deriving DecidableEq, Repr

/-- The error values of the package: a `messageError(f, desc)` made by the
message code itself, or an error returned by a write to the writer. -/
inductive WireError where
  | messageError (func : String) (description : String)
  | writeError (description : String)
  deriving DecidableEq, Repr

/-- The method `AddBlockLocatorHash`: the message after the call and the error
returned. -/
def AddBlockLocatorHash (msg : MsgGetBlocks) (hash : IHash) : MsgGetBlocks × Option WireError :=
  if msg.BlockLocatorHashes.length + 1 > MaxBlockLocatorsPerMsg then
    let str := "too many block locator hashes for message [max " ++
      toString MaxBlockLocatorsPerMsg ++ "]"
    (msg, some (WireError.messageError "MsgGetBlocks.AddBlockLocatorHash" str))
  else
    ({ msg with BlockLocatorHashes := msg.BlockLocatorHashes ++ [hash] }, none)

/-- The method `BtcEncode`. The functions `writeElement` and `writeVarInt` are
not part of the sources; `written` is the error of the first write that fails,
if any. -/
def BtcEncode (msg : MsgGetBlocks) (written : Option String) : Option WireError :=
  let count := msg.BlockLocatorHashes.length
  if count > MaxBlockLocatorsPerMsg then
    let str := "too many block locator hashes for message [count " ++ toString count ++
      ", max " ++ toString MaxBlockLocatorsPerMsg ++ "]"
    some (WireError.messageError "MsgGetBlocks.BtcEncode" str)
  else
    match written with
    | some err => some (WireError.writeError err)
    | none => none

/-- The constructor `NewMsgGetBlocks`; the constant `ProtocolVersion` is not
part of the sources and is passed in. -/
def NewMsgGetBlocks (protocolVersion : Nat) (hashStop : IHash) : MsgGetBlocks :=
  { ProtocolVersion := protocolVersion, BlockLocatorHashes := [], HashStop := hashStop }

/-- The message built from `NewMsgGetBlocks` by one call of
`AddBlockLocatorHash` for every hash of `hashes`, in order. -/
def built (protocolVersion : Nat) (hashStop : IHash) (hashes : List IHash) : MsgGetBlocks :=
  hashes.foldl (fun msg hash => (AddBlockLocatorHash msg hash).1)
    (NewMsgGetBlocks protocolVersion hashStop)

/-- `BtcEncode` rejects the message for its count. -/
def rejectedForCount (msg : MsgGetBlocks) (written : Option String) : Prop :=
  ∃ str, BtcEncode msg written = some (WireError.messageError "MsgGetBlocks.BtcEncode" str)

end Wire

/-! # The signature entry of the admin block: `src/common/adminBlock/EntryDBSignature.go` -/

namespace AdminBlock

/-- The type `primitives.Signature` is not part of the sources. The entry sets
and reads its public-key bytes and its signature bytes (`SetPub`,
`SetSignature`, `GetPubBytes`, `GetSigBytes`); the record holds the two, each
of which may be nil. -/
structure Signature where
  Pub : Option (List Nat)
  Sig : Option (List Nat)
  deriving DecidableEq, Repr

/-- The functions of the packages `primitives` and `constants` that the entry
calls; none of them is part of the sources. `NewZeroHash` is the zero hash,
which is also the value of `new(primitives.Hash)`. The two unmarshalling
functions yield the receiver after the call, the bytes returned and the error
returned; `none` stands for a call that panics. -/
structure Primitives where
  TYPE_DB_SIGNATURE : Nat
  NewZeroHash : List Nat
  HashMarshalBinary : List Nat → Except String (List Nat)
  HashUnmarshalBinaryData : List Nat → List Nat → Option (List Nat × List Nat × Option String)
  SignatureInit : Signature → Signature
  GetPubBytes : Signature → List Nat
  GetSigBytes : Signature → List Nat
  SignatureUnmarshalBinaryData :
    Signature → List Nat → Option (Signature × List Nat × Option String)

/-- The type `DBSignatureEntry`; a nil `IdentityAdminChainID` is `none`. -/
structure DBSignatureEntry where
  IdentityAdminChainID : Option (List Nat)
  PrevDBSig : Signature
  deriving DecidableEq, Repr

/-- The method `Init`. -/
def Init (prim : Primitives) (e : DBSignatureEntry) : DBSignatureEntry :=
  let e :=
    match e.IdentityAdminChainID with
    | none => { e with IdentityAdminChainID := some prim.NewZeroHash }
    | some _ => e
  { e with PrevDBSig := prim.SignatureInit e.PrevDBSig }

/-- The method `Type`. -/
def entryType (prim : Primitives) (_e : DBSignatureEntry) : Nat :=
  prim.TYPE_DB_SIGNATURE

/-- The method `MarshalBinary`: the entry after `Init` and the bytes or the
error returned. A write to the buffer appends and does not fail. -/
def MarshalBinary (prim : Primitives) (e : DBSignatureEntry) :
    DBSignatureEntry × Except String (List Nat) :=
  let e := Init prim e
  let buf : List Nat := []
  let buf := buf ++ [entryType prim e]
  match prim.HashMarshalBinary (e.IdentityAdminChainID.getD prim.NewZeroHash) with
  | .error err => (e, .error err)
  | .ok data =>
    let buf := buf ++ data
    let buf := buf ++ prim.GetPubBytes e.PrevDBSig
    let buf := buf ++ prim.GetSigBytes e.PrevDBSig
    (e, .ok buf)

/-- The method `UnmarshalBinaryData`: the entry after the call, the value of
`newData` returned and the error returned. The index `newData[0]` on an empty
input panics, and so may the two calls into `primitives`; the deferred function
recovers the panic and sets the error, and the results keep the values they
had when the panic was raised. -/
def UnmarshalBinaryData (prim : Primitives) (e : DBSignatureEntry) (data : List Nat) :
    DBSignatureEntry × List Nat × Option String :=
  let newData := data
  match newData with
  | [] => (e, newData, some "Error unmarshallig DBSignature Entry: index out of range")
  | first :: rest =>
    if first ≠ entryType prim e then (e, [], some "Invalid Entry type")
    else
      let newData := rest
      let e := { e with IdentityAdminChainID := some prim.NewZeroHash }
      match prim.HashUnmarshalBinaryData prim.NewZeroHash newData with
      | none => (e, newData, some "Error unmarshallig DBSignature Entry: panic")
      | some (hash, newData, some err) =>
        ({ e with IdentityAdminChainID := some hash }, newData, some err)
      | some (hash, newData, none) =>
        let e := { e with IdentityAdminChainID := some hash }
        match prim.SignatureUnmarshalBinaryData e.PrevDBSig newData with
        | none => (e, newData, some "Error unmarshallig DBSignature Entry: panic")
        | some (sig, newData, err) => ({ e with PrevDBSig := sig }, newData, err)

/-- A set of primitives of the usual shape: type byte 1, hashes of 32 bytes,
public keys of 32 bytes and signatures of 64 bytes, written one after the
other. -/
def examplePrimitives : Primitives :=
  { TYPE_DB_SIGNATURE := 1
    NewZeroHash := List.replicate 32 0
    HashMarshalBinary := fun h => .ok h
    HashUnmarshalBinaryData := fun h p =>
      if p.length < 32 then some (h, p, some "Error unmarshalling")
      else some (p.take 32, p.drop 32, none)
    SignatureInit := fun s =>
      { Pub := some (s.Pub.getD (List.replicate 32 0)),
        Sig := some (s.Sig.getD (List.replicate 64 0)) }
    GetPubBytes := fun s => s.Pub.getD []
    GetSigBytes := fun s => s.Sig.getD []
    SignatureUnmarshalBinaryData := fun s p =>
      if p.length < 96 then some (s, [], some "Not enough data to unmarshal")
      else some ({ Pub := some (p.take 32), Sig := some ((p.drop 32).take 64) }, p.drop 96, none) }

/-- An entry with chain id `7, 7, ...`, public key `1, 1, ...` and signature
`2, 2, ...`. -/
def exampleEntry : DBSignatureEntry :=
  { IdentityAdminChainID := some (List.replicate 32 7)
    PrevDBSig := { Pub := some (List.replicate 32 1), Sig := some (List.replicate 64 2) } }

end AdminBlock

namespace P2P

/-! ## Go maps: lookup after update -/

theorem goMap_get_delete {V : Type} (m : GoMap V) (k k' : String) :
    (GoMap.delete m k).get k' = if k = k' then none else m.get k' := by
  induction m with
  | nil => simp [GoMap.delete, GoMap.get]
  | cons e rest ih =>
    obtain ⟨k0, v0⟩ := e
    by_cases h0 : k0 = k
    · subst h0
      simp only [GoMap.delete, if_true, ih, GoMap.get]
      by_cases h1 : k0 = k' <;> simp [h1]
    · simp only [GoMap.delete, if_neg h0, GoMap.get, ih]
      by_cases h1 : k0 = k'
      · subst h1
        have : ¬ k = k0 := fun h => h0 h.symm
        simp [this]
      · simp [h1]

theorem goMap_get_set {V : Type} (m : GoMap V) (k k' : String) (v : V) :
    (GoMap.set m k v).get k' = if k = k' then some v else m.get k' := by
  unfold GoMap.set
  by_cases h : k = k'
  · simp [GoMap.get, h]
  · simp [GoMap.get, h, goMap_get_delete]

theorem get2_set (byIP : GoMap PeerMap) (a a' k' : String) (m : PeerMap) :
    get2 (GoMap.set byIP a m) a' k' = if a = a' then m.get k' else get2 byIP a' k' := by
  unfold get2
  rw [goMap_get_set]
  by_cases h : a = a' <;> simp [h]

theorem get2_getD (byIP : GoMap PeerMap) (a k : String) :
    GoMap.get ((byIP.get a).getD []) k = get2 byIP a k := by
  unfold get2
  cases byIP.get a <;> simp [GoMap.get]

/-! ## The store operations, field by field -/

theorem addPeer_heap (pm : PeerManager) (p : Ptr) : (addPeer pm p).heap = pm.heap := by
  unfold addPeer
  dsimp only
  split <;> split <;> rfl

theorem addPeer_nextPtr (pm : PeerManager) (p : Ptr) : (addPeer pm p).nextPtr = pm.nextPtr := by
  unfold addPeer
  dsimp only
  split <;> split <;> rfl

theorem addPeer_peerByHash (pm : PeerManager) (p : Ptr) :
    (addPeer pm p).peerByHash = GoMap.set pm.peerByHash (pm.heap p).Hash p := by
  unfold addPeer
  dsimp only
  split <;> split <;> rfl

theorem addPeer_peerByIP (pm : PeerManager) (p : Ptr) :
    (addPeer pm p).peerByIP =
      GoMap.set pm.peerByIP (pm.heap p).Address
        (GoMap.set ((pm.peerByIP.get (pm.heap p).Address).getD []) (pm.heap p).Hash p) := by
  unfold addPeer
  dsimp only
  cases pm.peerByIP.get (pm.heap p).Address <;> split <;>
    simp [PeerMap.Add, GoMap.set, GoMap.delete]

theorem addPeer_get2 (pm : PeerManager) (p : Ptr) (a k : String) :
    get2 (addPeer pm p).peerByIP a k =
      if (pm.heap p).Address = a ∧ (pm.heap p).Hash = k then some p else get2 pm.peerByIP a k := by
  rw [addPeer_peerByIP, get2_set, goMap_get_set, get2_getD]
  by_cases ha : (pm.heap p).Address = a <;> by_cases hk : (pm.heap p).Hash = k <;> simp [ha, hk]

theorem removePeer_heap (pm : PeerManager) (p q : Ptr) :
    (removePeer pm p).heap q =
      if q = p then { pm.heap q with state := PeerState.Offline } else pm.heap q := by
  unfold removePeer GoOffline PeerManager.modifyPeer
  simp only
  split <;> rfl

theorem removePeer_Hash (pm : PeerManager) (p q : Ptr) :
    ((removePeer pm p).heap q).Hash = (pm.heap q).Hash := by
  rw [removePeer_heap]; split <;> rfl

theorem removePeer_Address (pm : PeerManager) (p q : Ptr) :
    ((removePeer pm p).heap q).Address = (pm.heap q).Address := by
  rw [removePeer_heap]; split <;> rfl

theorem removePeer_nextPtr (pm : PeerManager) (p : Ptr) :
    (removePeer pm p).nextPtr = pm.nextPtr := by
  unfold removePeer GoOffline PeerManager.modifyPeer
  simp only
  split <;> rfl

theorem removePeer_peerByHash (pm : PeerManager) (p : Ptr) :
    (removePeer pm p).peerByHash = GoMap.delete pm.peerByHash (pm.heap p).Hash := by
  unfold removePeer GoOffline PeerManager.modifyPeer PeerMap.Remove
  simp only
  split <;> simp

theorem removePeer_get2 (pm : PeerManager) (p : Ptr) (a k : String) :
    get2 (removePeer pm p).peerByIP a k =
      if (pm.heap p).Address = a ∧ (pm.heap p).Hash = k then none else get2 pm.peerByIP a k := by
  unfold removePeer GoOffline PeerManager.modifyPeer PeerMap.Remove
  simp only [if_true]
  cases hget : pm.peerByIP.get (pm.heap p).Address with
  | none =>
    simp only
    by_cases ha : (pm.heap p).Address = a
    · subst ha
      simp [get2, hget]
    · simp [ha]
  | some ip =>
    simp only
    rw [get2_set, goMap_get_delete]
    by_cases ha : (pm.heap p).Address = a
    · subst ha
      by_cases hk : (pm.heap p).Hash = k
      · simp [hk]
      · simp [hk, get2, hget]
    · simp [ha]

/-! ## Hashes of the form `Address:port` -/

theorem append_colon_inj (xs ys xs' ys' : List Char)
    (h : xs ++ ':' :: ys = xs' ++ ':' :: ys') (hy : ':' ∉ ys) (hy' : ':' ∉ ys') : xs = xs' := by
  induction xs generalizing xs' with
  | nil =>
    cases xs' with
    | nil => rfl
    | cons c t =>
      simp only [List.nil_append, List.cons_append, List.cons.injEq] at h
      exact absurd (h.2 ▸ (List.mem_append_right t (List.mem_cons_self ':' ys'))) hy
  | cons c t ih =>
    cases xs' with
    | nil =>
      simp only [List.nil_append, List.cons_append, List.cons.injEq] at h
      exact absurd (h.2 ▸ (List.mem_append_right t (List.mem_cons_self ':' ys))) hy'
    | cons c' t' =>
      simp only [List.cons_append, List.cons.injEq] at h
      rw [h.1, ih t' h.2]

theorem hash_address_inj (a a' lp lp' : String) (h : a ++ ":" ++ lp = a' ++ ":" ++ lp')
    (hl : colonFree lp) (hl' : colonFree lp') : a = a' := by
  have hd := congrArg String.data h
  simp only [String.data_append] at hd
  rw [List.append_assoc, List.append_assoc] at hd
  exact String.ext (append_colon_inj _ _ _ _ hd hl hl')

theorem storeInv_address_of_hash {pm : PeerManager} (inv : StoreInv pm) {p q : Ptr}
    (hp : p < pm.nextPtr) (hq : q < pm.nextPtr) (h : (pm.heap p).Hash = (pm.heap q).Hash) :
    (pm.heap p).Address = (pm.heap q).Address := by
  obtain ⟨lp, hlp, ep⟩ := inv.hashForm p hp
  obtain ⟨lq, hlq, eq⟩ := inv.hashForm q hq
  rw [ep, eq] at h
  exact hash_address_inj _ _ _ _ h hlp hlq

/-! ## The store invariant is kept by every operation -/

theorem storeInv_init (config : Configuration) (rng : Rand) :
    StoreInv (NewPeerManager config rng) := by
  refine ⟨?_, ?_, ?_⟩
  · intro a k q h
    simp [NewPeerManager, get2, GoMap.get] at h
  · intro q hq
    simp [NewPeerManager] at hq
  · intro k q
    simp [NewPeerManager, get2, GoMap.get]

theorem storeInv_addPeer {pm : PeerManager} (inv : StoreInv pm) {p : Ptr}
    (hp : p < pm.nextPtr) : StoreInv (addPeer pm p) := by
  refine ⟨?_, ?_, ?_⟩
  · intro a k q h
    rw [addPeer_get2] at h
    rw [addPeer_nextPtr, addPeer_heap]
    split at h
    · rename_i hc
      cases h
      exact ⟨hp, hc.2, hc.1⟩
    · exact inv.ipKey a k q h
  · intro q hq
    rw [addPeer_nextPtr] at hq
    rw [addPeer_heap]
    exact inv.hashForm q hq
  · intro k q
    rw [addPeer_peerByHash, goMap_get_set]
    simp only [addPeer_get2]
    by_cases hk : (pm.heap p).Hash = k
    · rw [if_pos hk]
      constructor
      · intro h
        cases h
        exact ⟨(pm.heap p).Address, by simp [hk]⟩
      · rintro ⟨a, ha⟩
        split at ha
        · exact ha
        · rename_i hne
          obtain ⟨hq, hqk, hqa⟩ := inv.ipKey a k q ha
          have := storeInv_address_of_hash inv hp hq (hk.trans hqk.symm)
          exact absurd ⟨this.trans hqa, hk⟩ hne
    · rw [if_neg hk, inv.agree]
      simp [hk]

theorem storeInv_removePeer {pm : PeerManager} (inv : StoreInv pm) {p : Ptr}
    (hp : p < pm.nextPtr) : StoreInv (removePeer pm p) := by
  refine ⟨?_, ?_, ?_⟩
  · intro a k q h
    rw [removePeer_get2] at h
    rw [removePeer_nextPtr, removePeer_Hash, removePeer_Address]
    split at h
    · cases h
    · exact inv.ipKey a k q h
  · intro q hq
    rw [removePeer_nextPtr] at hq
    rw [removePeer_Hash, removePeer_Address]
    exact inv.hashForm q hq
  · intro k q
    rw [removePeer_peerByHash, goMap_get_delete]
    simp only [removePeer_get2]
    by_cases hk : (pm.heap p).Hash = k
    · rw [if_pos hk]
      constructor
      · intro h
        cases h
      · rintro ⟨a, ha⟩
        split at ha
        · cases ha
        · rename_i hne
          obtain ⟨hq, hqk, hqa⟩ := inv.ipKey a k q ha
          have := storeInv_address_of_hash inv hp hq (hk.trans hqk.symm)
          exact absurd ⟨this.trans hqa, hk⟩ hne
    · rw [if_neg hk, inv.agree]
      simp [hk]

theorem storeInv_SpawnPeer {pm : PeerManager} (inv : StoreInv pm)
    (address : String) (outgoing : Bool) (listenPort : String) (hport : colonFree listenPort) :
    StoreInv (SpawnPeer pm address outgoing listenPort).1 := by
  unfold SpawnPeer
  dsimp only
  apply storeInv_addPeer
  · refine ⟨?_, ?_, ?_⟩
    · intro a k q h
      obtain ⟨hq, hk, ha⟩ := inv.ipKey a k q h
      have hne : q ≠ pm.nextPtr := Nat.ne_of_lt hq
      dsimp only
      rw [if_neg hne]
      exact ⟨Nat.lt_succ_of_lt hq, hk, ha⟩
    · intro q hq
      have hq' : q < pm.nextPtr + 1 := hq
      dsimp only
      by_cases hqn : q = pm.nextPtr
      · rw [if_pos hqn]
        exact ⟨listenPort, hport, rfl⟩
      · rw [if_neg hqn]
        exact inv.hashForm q (Nat.lt_of_le_of_ne (Nat.lt_succ_iff.mp hq') hqn)
    · intro k q
      exact inv.agree k q
  · exact Nat.lt_succ_self _

theorem reachable_storeInv {config : Configuration} {rng : Rand} {pm : PeerManager}
    (h : Reachable colonFree config rng pm) : StoreInv pm := by
  induction h with
  | init => exact storeInv_init config rng
  | spawn address outgoing listenPort _ hport ih => exact storeInv_SpawnPeer ih address outgoing listenPort hport
  | add peer _ hp ih => exact storeInv_addPeer ih hp
  | remove peer _ hp ih => exact storeInv_removePeer ih hp
  | ban peer _ hp ih => exact storeInv_removePeer ih hp

/-! ## Outgoing selection -/

theorem uint32_of_lt (x : Int) (h0 : 0 ≤ x) (h : x < 4294967296) : uint32 x = x.toNat := by
  unfold uint32
  rw [Int.emod_eq_of_lt h0 h]

/-- For `2 ≤ wanted < 2^32` the `uint32` computation of the bucket size does not
wrap: it is `⌊(2^32 − 1) / wanted⌋ + 1`, positive, and every 32-bit location
falls into one of the `wanted` buckets. -/
theorem bucketSize_of_two_le (wanted : Int) (h2 : 2 ≤ wanted) (h32 : wanted < 4294967296) :
    bucketSize wanted = Except.ok (4294967295 / wanted.toNat + 1) ∧
    ∀ loc, loc < 4294967296 → loc / (4294967295 / wanted.toNat + 1) < wanted.toNat := by
  have hw2 : 2 ≤ wanted.toNat := by omega
  have hu : uint32 wanted = wanted.toNat := uint32_of_lt wanted (by omega) h32
  have h1 : 4294967295 / wanted.toNat * wanted.toNat ≤ 4294967295 := Nat.div_mul_le_self _ _
  have h3 : 4294967295 / wanted.toNat * 2 ≤ 4294967295 / wanted.toNat * wanted.toNat :=
    Nat.mul_le_mul_left _ hw2
  constructor
  · unfold bucketSize
    rw [hu, if_neg (by omega), Nat.mod_eq_of_lt (by omega)]
  · intro loc hloc
    rw [Nat.div_lt_iff_lt_mul (Nat.succ_pos _)]
    have h4 : 4294967295 < wanted.toNat * (4294967295 / wanted.toNat + 1) :=
      Nat.lt_mul_div_succ _ (by omega)
    exact Nat.lt_of_le_of_lt (by omega) h4

/-- C1 (code defect). With `wanted = 3` and five peers, three of them in bucket
0 and two in bucket 1, `getOutgoingSelection` returns four peers, not three:
a pass over the buckets is never cut short when `wanted` picks are reached. -/
theorem getOutgoingSelection_exceeds_wanted :
    (getOutgoingSelection (withLocations [0, 1, 2, 1431655766, 1431655767])
      [0, 1, 2, 3, 4] 3).map Prod.fst = Except.ok [0, 3, 2, 4] := by
  decide!

/-- C2. When `len(filtered) <= wanted`, `getOutgoingSelection` returns `filtered`
itself (every input peer, once, in the input order) and draws no random number. -/
theorem getOutgoingSelection_returns_filtered (pm : PeerManager) (filtered : List Ptr)
    (wanted : Int) (h : (filtered.length : Int) ≤ wanted) :
    getOutgoingSelection pm filtered wanted = Except.ok (filtered, pm.rng) := by
  unfold getOutgoingSelection
  rw [if_pos h]

/-- C2 at the four peers with locations `0x00000001`, `0x40000001`,
`0x80000001`, `0xC0000001` and `wanted = 4`. -/
theorem getOutgoingSelection_returns_filtered_witness :
    (([0, 1, 2, 3] : List Ptr).length : Int) ≤ 4 ∧
    getOutgoingSelection (withLocations [0x00000001, 0x40000001, 0x80000001, 0xC0000001])
      [0, 1, 2, 3] 4
      = Except.ok ([0, 1, 2, 3],
          (withLocations [0x00000001, 0x40000001, 0x80000001, 0xC0000001]).rng) :=
  ⟨by decide, getOutgoingSelection_returns_filtered _ _ _ (by decide)⟩

/-- C3, as stated, fails: with one peer in `filtered` and `wanted = 0` the call
panics with a division by zero instead of returning the empty list. -/
theorem getOutgoingSelection_zero_wanted_fails :
    (getOutgoingSelection (withLocations [7]) [0] 0).map Prod.fst
      = Except.error GoPanic.divideByZero := by
  decide!

/-- C3, amended. `getOutgoingSelection(filtered, 0)` returns the empty list when
`filtered` is empty, and panics with a division by zero when it is not. -/
theorem getOutgoingSelection_zero_wanted (pm : PeerManager) (filtered : List Ptr) :
    (getOutgoingSelection pm filtered 0).map Prod.fst
      = if filtered = [] then Except.ok [] else Except.error GoPanic.divideByZero := by
  cases filtered with
  | nil => rfl
  | cons a l =>
    have h : ¬ (((a :: l).length : Int) ≤ 0) := by
      simp only [List.length_cons]; push_cast; omega
    unfold getOutgoingSelection
    rw [if_neg h]
    rfl

/-- C4 (code defect). For `wanted = 1` the `uint32` sum `4294967295/1 + 1` wraps
to `0`, so `bucketSize` is `0`, not `2^32`, and distributing two peers panics
with a division by zero. -/
theorem bucketSize_wraps_at_one :
    bucketSize 1 = Except.ok 0 ∧
    (getOutgoingSelection (withLocations [0, 1]) [0, 1] 1).map Prod.fst
      = Except.error GoPanic.divideByZero := by
  decide!

/-! ## Admission of inbound connections -/

theorem HandleIncoming_eq_rejected (pm : PeerManager) (con : Conn)
    (h : isSpecialIP pm con.RemoteAddr = false ∧
      (pm.outgoing ≥ pm.config.Outgoing ∨ pm.config.RefuseIncoming = true ∨
        pm.config.RefuseUnknown = true)) :
    HandleIncoming pm con = { pm with closed := pm.closed ++ [con.id] } := by
  obtain ⟨hs, hc⟩ := h
  unfold isSpecialIP at hs
  unfold HandleIncoming
  simp only [hs, Bool.not_false, if_true]
  by_cases ho : pm.outgoing ≥ pm.config.Outgoing
  · rw [if_pos ho]
  · rw [if_neg ho]
    rcases hc with hc | hc | hc
    · exact absurd hc ho
    · simp [hc]
    · simp [hc]

theorem HandleIncoming_eq_admitted (pm : PeerManager) (con : Conn)
    (h : ¬ (isSpecialIP pm con.RemoteAddr = false ∧
      (pm.outgoing ≥ pm.config.Outgoing ∨ pm.config.RefuseIncoming = true ∨
        pm.config.RefuseUnknown = true))) :
    HandleIncoming pm con =
      StartWithActiveConnection (SpawnPeer pm con.RemoteAddr false "0").1
        (SpawnPeer pm con.RemoteAddr false "0").2 con := by
  unfold isSpecialIP at h
  unfold HandleIncoming
  cases hs : (pm.specialIP.get con.RemoteAddr).getD false
  · simp only [hs, true_and, not_or] at h
    simp only [Bool.not_false, if_true]
    rw [if_neg h.1]
    have h1 : pm.config.RefuseIncoming = false := by simpa using h.2.1
    have h2 : pm.config.RefuseUnknown = false := by simpa using h.2.2
    simp [h1, h2]
  · simp [hs]

theorem SpawnPeer_snd (pm : PeerManager) (a : String) (o : Bool) (lp : String) :
    (SpawnPeer pm a o lp).2 = pm.nextPtr := rfl

theorem SpawnPeer_nextPtr (pm : PeerManager) (a : String) (o : Bool) (lp : String) :
    (SpawnPeer pm a o lp).1.nextPtr = pm.nextPtr + 1 := by
  unfold SpawnPeer
  dsimp only
  rw [addPeer_nextPtr]

theorem SpawnPeer_heap (pm : PeerManager) (a : String) (o : Bool) (lp : String) :
    (SpawnPeer pm a o lp).1.heap pm.nextPtr =
      { Address := a, Outgoing := o, state := PeerState.Offline,
        ListenPort := pm.config.ListenPort, Hash := a ++ ":" ++ lp } := by
  unfold SpawnPeer
  dsimp only
  rw [addPeer_heap]
  simp

theorem SpawnPeer_peerByHash (pm : PeerManager) (a : String) (o : Bool) (lp : String) :
    (SpawnPeer pm a o lp).1.peerByHash = GoMap.set pm.peerByHash (a ++ ":" ++ lp) pm.nextPtr := by
  unfold SpawnPeer
  dsimp only
  rw [addPeer_peerByHash]
  simp

theorem addPeer_closed (pm : PeerManager) (p : Ptr) : (addPeer pm p).closed = pm.closed := by
  unfold addPeer
  dsimp only
  split <;> split <;> rfl

theorem SpawnPeer_closed (pm : PeerManager) (a : String) (o : Bool) (lp : String) :
    (SpawnPeer pm a o lp).1.closed = pm.closed := by
  unfold SpawnPeer
  dsimp only
  rw [addPeer_closed]

theorem admitsIncoming_of_not (pm : PeerManager) (con : Conn)
    (h : ¬ (isSpecialIP pm con.RemoteAddr = false ∧
      (pm.outgoing ≥ pm.config.Outgoing ∨ pm.config.RefuseIncoming = true ∨
        pm.config.RefuseUnknown = true))) :
    admitsIncoming pm con := by
  unfold admitsIncoming
  rw [HandleIncoming_eq_admitted pm con h]
  unfold StartWithActiveConnection PeerManager.modifyPeer
  dsimp only
  rw [SpawnPeer_snd, SpawnPeer_closed, SpawnPeer_nextPtr, SpawnPeer_heap, SpawnPeer_peerByHash,
    goMap_get_set]
  simp

theorem rejectsIncoming_of (pm : PeerManager) (con : Conn)
    (h : isSpecialIP pm con.RemoteAddr = false ∧
      (pm.outgoing ≥ pm.config.Outgoing ∨ pm.config.RefuseIncoming = true ∨
        pm.config.RefuseUnknown = true)) :
    rejectsIncoming pm con := by
  unfold rejectsIncoming
  rw [HandleIncoming_eq_rejected pm con h]
  exact ⟨rfl, rfl, rfl, rfl⟩

theorem not_rejects_and_admits (pm : PeerManager) (con : Conn)
    (hr : rejectsIncoming pm con) (ha : admitsIncoming pm con) : False := by
  have h1 := hr.2.1
  have h2 := ha.2.1
  rw [h1] at h2
  exact absurd h2 (Nat.ne_of_lt (Nat.lt_succ_self _))

/-- C5, as stated, fails: a connection from the known, non-special address
`10.0.0.1:4000` is rejected when `RefuseUnknown` is set, although
`RefuseIncoming` is unset and `outgoing < config.Outgoing`. -/
theorem HandleIncoming_rejects_known_ip :
    isSpecialIP oneKnownPeer "10.0.0.1:4000" = false ∧
    knownIP oneKnownPeer "10.0.0.1:4000" = true ∧
    oneKnownPeer.config.RefuseUnknown = true ∧
    oneKnownPeer.config.RefuseIncoming = false ∧
    oneKnownPeer.outgoing < oneKnownPeer.config.Outgoing ∧
    rejectsIncoming oneKnownPeer ⟨7, "10.0.0.1:4000"⟩ ∧
    ¬ admitsIncoming oneKnownPeer ⟨7, "10.0.0.1:4000"⟩ ∧
    ¬ (rejectsIncoming oneKnownPeer ⟨7, "10.0.0.1:4000"⟩ ↔
      (isSpecialIP oneKnownPeer "10.0.0.1:4000" = false ∧
        (oneKnownPeer.outgoing ≥ oneKnownPeer.config.Outgoing ∨
          oneKnownPeer.config.RefuseIncoming = true ∨
          (oneKnownPeer.config.RefuseUnknown = true ∧
            knownIP oneKnownPeer "10.0.0.1:4000" = false)))) := by
  decide!

/-- C5, amended. `HandleIncoming` rejects an inbound connection (closes it and
spawns no peer) if and only if its remote IP is not special and
(`outgoing >= config.Outgoing`, or `RefuseIncoming` is set, or `RefuseUnknown`
is set), whether or not the IP is known; in every other case, so for every
special IP, the connection is admitted. -/
theorem HandleIncoming_rejects_iff (pm : PeerManager) (con : Conn) :
    (rejectsIncoming pm con ↔
      (isSpecialIP pm con.RemoteAddr = false ∧
        (pm.outgoing ≥ pm.config.Outgoing ∨ pm.config.RefuseIncoming = true ∨
          pm.config.RefuseUnknown = true))) ∧
    (admitsIncoming pm con ↔
      ¬ (isSpecialIP pm con.RemoteAddr = false ∧
        (pm.outgoing ≥ pm.config.Outgoing ∨ pm.config.RefuseIncoming = true ∨
          pm.config.RefuseUnknown = true))) := by
  constructor
  · constructor
    · intro hr
      by_contra hc
      exact not_rejects_and_admits pm con hr (admitsIncoming_of_not pm con hc)
    · exact rejectsIncoming_of pm con
  · constructor
    · intro ha hc
      exact not_rejects_and_admits pm con (rejectsIncoming_of pm con hc) ha
    · exact admitsIncoming_of_not pm con

/-! ## Spawning peers -/

/-- C6, as stated, fails: the inbound peer spawned for `10.0.0.1` with listen
port `"0"` on a node listening on `8108` has the hash `10.0.0.1:0`, while its
own `Address` and `ListenPort` fields give `10.0.0.1:8108`. -/
theorem SpawnPeer_hash_not_from_ListenPort :
    (spawnInbound.1.heap spawnInbound.2).Hash = "10.0.0.1:0" ∧
    (spawnInbound.1.heap spawnInbound.2).Address ++ ":" ++
      (spawnInbound.1.heap spawnInbound.2).ListenPort = "10.0.0.1:8108" ∧
    (spawnInbound.1.heap spawnInbound.2).Hash ≠
      (spawnInbound.1.heap spawnInbound.2).Address ++ ":" ++
        (spawnInbound.1.heap spawnInbound.2).ListenPort := by
  decide!

/-- C6, amended. The peer returned by `SpawnPeer(address, outgoing, listenPort)`
is `Offline`, is stored in `peerByHash` under its `Hash`, has the given address
and direction, and its `Hash` is `address + ":" + listenPort` for the
`listenPort` argument, while its `ListenPort` field is `config.ListenPort`. -/
theorem SpawnPeer_result (pm : PeerManager) (address : String) (outgoing : Bool)
    (listenPort : String) :
    ((SpawnPeer pm address outgoing listenPort).1.heap
      (SpawnPeer pm address outgoing listenPort).2).state = PeerState.Offline ∧
    storedByHash (SpawnPeer pm address outgoing listenPort).1
      (SpawnPeer pm address outgoing listenPort).2 ∧
    ((SpawnPeer pm address outgoing listenPort).1.heap
      (SpawnPeer pm address outgoing listenPort).2).Hash = address ++ ":" ++ listenPort ∧
    ((SpawnPeer pm address outgoing listenPort).1.heap
      (SpawnPeer pm address outgoing listenPort).2).Address = address ∧
    ((SpawnPeer pm address outgoing listenPort).1.heap
      (SpawnPeer pm address outgoing listenPort).2).Outgoing = outgoing ∧
    ((SpawnPeer pm address outgoing listenPort).1.heap
      (SpawnPeer pm address outgoing listenPort).2).ListenPort = pm.config.ListenPort := by
  unfold storedByHash
  rw [SpawnPeer_snd, SpawnPeer_heap, SpawnPeer_peerByHash, goMap_get_set]
  simp

/-! ## The two indices -/

/-- C7, as stated, fails: after `SpawnPeer("10.0.0.1:4000", false, "0")` and
`SpawnPeer("10.0.0.1", true, "4000:0")` both peers have the hash
`10.0.0.1:4000:0`; the first peer is no longer the value of `peerByHash` under
that hash but still is the value of `peerByIP["10.0.0.1:4000"]` under it. -/
theorem index_agreement_fails_on_collision :
    Reachable (fun _ => True) exampleConfig zeroRand twoColliding ∧
    ¬ storedByHash twoColliding 0 ∧ storedByIP twoColliding 0 ∧
    ¬ (storedByHash twoColliding 0 ↔ storedByIP twoColliding 0) := by
  refine ⟨?_, by decide!, by decide!, by decide!⟩
  exact Reachable.spawn "10.0.0.1" true "4000:0"
    (Reachable.spawn "10.0.0.1:4000" false "0" Reachable.init trivial) trivial

/-- C7, amended. In every manager state reachable from the empty store by
`SpawnPeer`, `addPeer`, `removePeer` and `banPeer` calls with arbitrary address
strings and listen-port strings that contain no `:`, a peer is the value stored
in `peerByHash` under its `Hash` if and only if it is the value stored in
`peerByIP[peer.Address]` under its `Hash`. -/
theorem index_agreement (config : Configuration) (rng : Rand) (pm : PeerManager)
    (h : Reachable colonFree config rng pm) (p : Ptr) :
    storedByHash pm p ↔ storedByIP pm p := by
  have inv := reachable_storeInv h
  unfold storedByHash storedByIP
  constructor
  · intro hh
    obtain ⟨a, ha⟩ := (inv.agree _ _).mp hh
    obtain ⟨_, _, haddr⟩ := inv.ipKey a _ p ha
    rw [haddr]
    exact ha
  · intro hi
    exact (inv.agree _ _).mpr ⟨_, hi⟩

/-- C7, amended, at the store holding the one seed `10.0.0.1:8108`: the seed is
in both indices. -/
theorem index_agreement_witness :
    Reachable colonFree exampleConfig zeroRand oneSeed ∧
    storedByHash oneSeed 0 ∧
    (storedByHash oneSeed 0 ↔ storedByIP oneSeed 0) :=
  ⟨Reachable.spawn "10.0.0.1" true "8108" Reachable.init (by decide!),
   by decide!,
   index_agreement exampleConfig zeroRand oneSeed
     (Reachable.spawn "10.0.0.1" true "8108" Reachable.init (by decide!)) 0⟩

/-! ## The counters -/

/-- C8 (code defect). After `SpawnPeer("10.0.0.1", true, "8108")` on the empty
manager `incoming + outgoing` is 1 although the only peer of the store is
`Offline`; and after `removePeer` of that peer the store is empty and the sum
is still 1. -/
theorem counters_exceed_live_peers :
    Reachable (fun _ => True) exampleConfig zeroRand oneSeed ∧
    oneSeed.incoming + oneSeed.outgoing = 1 ∧
    countNotOffline oneSeed = 0 ∧
    (removePeer oneSeed 0).peerByHash = [] ∧
    countNotOffline (removePeer oneSeed 0) = 0 ∧
    (removePeer oneSeed 0).incoming + (removePeer oneSeed 0).outgoing = 1 := by
  refine ⟨?_, by decide!, by decide!, by decide!, by decide!, by decide!⟩
  exact Reachable.spawn "10.0.0.1" true "8108" Reachable.init trivial

/-! ## The data loop -/

theorem removePeer_outputs (pm : PeerManager) (p : Ptr) :
    (removePeer pm p).FromNetwork = pm.FromNetwork ∧
    (removePeer pm p).sent = pm.sent ∧
    (removePeer pm p).goroutines = pm.goroutines ∧
    (removePeer pm p).ApplicationMessagesReceived = pm.ApplicationMessagesReceived := by
  unfold removePeer GoOffline PeerManager.modifyPeer
  dsimp only
  split <;> exact ⟨rfl, rfl, rfl, rfl⟩

theorem manageDataStep_of_wrong_network (pm : PeerManager) (data : PeerParcel) (now : Int)
    (hnet : data.Parcel.Header.Network ≠ pm.config.Network) :
    manageDataStep pm data now = removePeer pm data.Peer := by
  unfold manageDataStep banPeer
  simp [hnet]

/-- C9. A parcel whose `Header.Network` differs from `config.Network`, whatever
its type, makes one step of `manageData` ban the sender: afterwards neither
`peerByHash` nor `peerByIP[peer.Address]` has a binding under the sender's
`Hash`, the sender is `Offline`, nothing was handed to `BlockFreeChannelSend`
for the controller, no parcel was sent and no goroutine was started. -/
theorem manageDataStep_wrong_network (pm : PeerManager) (data : PeerParcel) (now : Int)
    (hnet : data.Parcel.Header.Network ≠ pm.config.Network) :
    (manageDataStep pm data now).peerByHash.get
      ((manageDataStep pm data now).heap data.Peer).Hash = none ∧
    get2 (manageDataStep pm data now).peerByIP
      ((manageDataStep pm data now).heap data.Peer).Address
      ((manageDataStep pm data now).heap data.Peer).Hash = none ∧
    ((manageDataStep pm data now).heap data.Peer).state = PeerState.Offline ∧
    (manageDataStep pm data now).FromNetwork = pm.FromNetwork ∧
    (manageDataStep pm data now).sent = pm.sent ∧
    (manageDataStep pm data now).goroutines = pm.goroutines ∧
    (manageDataStep pm data now).ApplicationMessagesReceived
      = pm.ApplicationMessagesReceived := by
  rw [manageDataStep_of_wrong_network pm data now hnet]
  obtain ⟨h1, h2, h3, h4⟩ := removePeer_outputs pm data.Peer
  refine ⟨?_, ?_, ?_, h1, h2, h3, h4⟩
  · rw [removePeer_peerByHash, removePeer_Hash, goMap_get_delete, if_pos rfl]
  · rw [removePeer_get2, removePeer_Hash, removePeer_Address, if_pos ⟨rfl, rfl⟩]
  · rw [removePeer_heap, if_pos rfl]

/-- C9 at the store holding the one seed `10.0.0.1:8108`, which sends an
application message tagged with network 2 to a node of network 1. -/
theorem manageDataStep_wrong_network_witness :
    (exampleParcel 2 ParcelType.TypeMessage).Header.Network ≠ oneSeed.config.Network ∧
    storedByHash oneSeed 0 ∧
    (manageDataStep oneSeed ⟨0, exampleParcel 2 ParcelType.TypeMessage⟩ 5).peerByHash.get
      ((manageDataStep oneSeed ⟨0, exampleParcel 2 ParcelType.TypeMessage⟩ 5).heap 0).Hash
        = none :=
  ⟨by decide, by decide!,
   (manageDataStep_wrong_network oneSeed ⟨0, exampleParcel 2 ParcelType.TypeMessage⟩ 5
     (by decide)).1⟩

/-- What `manageData` itself does with a parcel of the node's own network and
of type `Message`: it adds one to `ApplicationMessagesReceived`, calls
`BlockFreeChannelSend` once, with exactly that parcel, and leaves the peer
store (both indices, the peer records and the two counters) unchanged; no
parcel is sent and no goroutine is started. What the call does to the channel
is not part of this statement. -/
theorem manageDataStep_message (pm : PeerManager) (data : PeerParcel) (now : Int)
    (hnet : data.Parcel.Header.Network = pm.config.Network)
    (htype : data.Parcel.Header.Type' = ParcelType.TypeMessage) :
    (manageDataStep pm data now).FromNetwork = pm.FromNetwork ++ [data.Parcel] ∧
    (manageDataStep pm data now).ApplicationMessagesReceived
      = pm.ApplicationMessagesReceived + 1 ∧
    (manageDataStep pm data now).peerByHash = pm.peerByHash ∧
    (manageDataStep pm data now).peerByIP = pm.peerByIP ∧
    (manageDataStep pm data now).heap = pm.heap ∧
    (manageDataStep pm data now).incoming = pm.incoming ∧
    (manageDataStep pm data now).outgoing = pm.outgoing ∧
    (manageDataStep pm data now).sent = pm.sent ∧
    (manageDataStep pm data now).goroutines = pm.goroutines := by
  unfold manageDataStep BlockFreeChannelSend
  simp [hnet, htype]

/-! ## The data loop: pings and peer requests -/

theorem manageDataStep_of_ping (pm : PeerManager) (data : PeerParcel) (now : Int)
    (hnet : data.Parcel.Header.Network = pm.config.Network)
    (htype : data.Parcel.Header.Type' = ParcelType.TypePing) :
    manageDataStep pm data now = pm := by
  unfold manageDataStep
  simp [hnet, htype]

theorem manageDataStep_config (pm : PeerManager) (data : PeerParcel) (now : Int) :
    (manageDataStep pm data now).config = pm.config := by
  unfold manageDataStep banPeer removePeer GoOffline PeerManager.modifyPeer BlockFreeChannelSend
  dsimp only
  split
  · split <;> rfl
  · split <;> (try split) <;> rfl

theorem manageDataStep_lastPeerSend (pm : PeerManager) (data : PeerParcel) (now : Int)
    (peer : Ptr) :
    ((manageDataStep pm data now).heap peer).lastPeerSend = (pm.heap peer).lastPeerSend ∨
    ((manageDataStep pm data now).heap peer).lastPeerSend = now := by
  unfold manageDataStep banPeer removePeer GoOffline PeerManager.modifyPeer BlockFreeChannelSend
  dsimp only
  split
  · split <;> (dsimp only; split <;> simp)
  · split <;> (try split) <;> (try dsimp only) <;> (try split) <;> simp

theorem manageDataStep_store_of_own_network (pm : PeerManager) (data : PeerParcel) (now : Int)
    (hnet : data.Parcel.Header.Network = pm.config.Network) :
    (manageDataStep pm data now).peerByHash = pm.peerByHash ∧
    (manageDataStep pm data now).peerByIP = pm.peerByIP := by
  unfold manageDataStep BlockFreeChannelSend PeerManager.modifyPeer
  simp only [hnet, ne_eq, not_true_eq_false, if_false]
  split <;> (try split) <;> exact ⟨rfl, rfl⟩

theorem manageData_config (items : List (PeerParcel × Int)) (pm : PeerManager) :
    (manageData pm items).config = pm.config := by
  induction items generalizing pm with
  | nil => rfl
  | cons item rest ih =>
    unfold manageData
    rw [List.foldl_cons]
    exact (ih _).trans (manageDataStep_config pm item.1 item.2)

theorem manageData_lastPeerSend (items : List (PeerParcel × Int)) (pm : PeerManager)
    (peer : Ptr) (t : Int) (h : t ≤ (pm.heap peer).lastPeerSend)
    (hitems : ∀ item ∈ items, t ≤ item.2) :
    t ≤ ((manageData pm items).heap peer).lastPeerSend := by
  induction items generalizing pm with
  | nil => exact h
  | cons item rest ih =>
    unfold manageData
    rw [List.foldl_cons]
    apply ih
    · rcases manageDataStep_lastPeerSend pm item.1 item.2 peer with e | e
      · rw [e]; exact h
      · rw [e]; exact hitems item (List.mem_cons_self _ _)
    · intro it hit
      exact hitems it (List.mem_cons_of_mem _ hit)

theorem manageDataStep_request_goroutines (pm : PeerManager) (peer : Ptr) (req : Parcel)
    (now : Int) (hnet : req.Header.Network = pm.config.Network)
    (htype : req.Header.Type' = ParcelType.TypePeerRequest) :
    (timeSince now (pm.heap peer).lastPeerSend ≥ pm.config.PeerRequestInterval →
      (manageDataStep pm ⟨peer, req⟩ now).goroutines
          = pm.goroutines ++ [Goroutine.sharePeers peer] ∧
      ((manageDataStep pm ⟨peer, req⟩ now).heap peer).lastPeerSend = now) ∧
    (¬ timeSince now (pm.heap peer).lastPeerSend ≥ pm.config.PeerRequestInterval →
      (manageDataStep pm ⟨peer, req⟩ now).goroutines = pm.goroutines) := by
  unfold manageDataStep PeerManager.modifyPeer
  simp only [hnet, htype, ne_eq, not_true_eq_false, if_false]
  constructor
  · intro h
    rw [if_pos h]
    simp
  · intro h
    rw [if_neg h]

theorem timeSince_lt (now t bound : Int) (h0 : 0 < bound) (h : now - t < bound) :
    timeSince now t < bound := by
  unfold timeSince minDuration maxDuration
  omega

/-- C11, as stated, fails: a `Ping` of the node's own network from the one peer
of the store has no reply; nothing is handed to `Send` and no goroutine is
started. -/
theorem manageDataStep_ping_no_pong :
    (manageDataStep oneSeed ⟨0, exampleParcel 1 ParcelType.TypePing⟩ 5).sent = [] ∧
    (manageDataStep oneSeed ⟨0, exampleParcel 1 ParcelType.TypePing⟩ 5).goroutines = [] ∧
    ¬ ∃ e ∈ (manageDataStep oneSeed ⟨0, exampleParcel 1 ParcelType.TypePing⟩ 5).sent,
        e.1 = 0 ∧ e.2.Header.Type' = ParcelType.TypePong := by
  decide!

/-- C11, amended. For every parcel with matching network and type `Ping`, one
step of `manageData` accepts the parcel and does nothing: the manager state is
unchanged, so no parcel is sent and the sender stays in the store. -/
theorem manageDataStep_ping (pm : PeerManager) (data : PeerParcel) (now : Int)
    (hnet : data.Parcel.Header.Network = pm.config.Network)
    (htype : data.Parcel.Header.Type' = ParcelType.TypePing) :
    manageDataStep pm data now = pm ∧
    (manageDataStep pm data now).sent = pm.sent ∧
    (manageDataStep pm data now).peerByHash = pm.peerByHash := by
  rw [manageDataStep_of_ping pm data now hnet htype]
  exact ⟨rfl, rfl, rfl⟩

/-- C11, amended, at the store holding the one seed `10.0.0.1:8108`, which
pings a node of its own network. -/
theorem manageDataStep_ping_witness :
    (exampleParcel 1 ParcelType.TypePing).Header.Network = oneSeed.config.Network ∧
    (exampleParcel 1 ParcelType.TypePing).Header.Type' = ParcelType.TypePing ∧
    (manageDataStep oneSeed ⟨0, exampleParcel 1 ParcelType.TypePing⟩ 5).sent = oneSeed.sent :=
  ⟨by decide, by decide,
   (manageDataStep_ping oneSeed ⟨0, exampleParcel 1 ParcelType.TypePing⟩ 5
     (by decide) (by decide)).2.1⟩

/-- C12. Of two `PeerRequest` parcels of the node's own network from the same
peer, handled at times `t1 <= t2` with `t2 - t1 < PeerRequestInterval` (and
with any items handled in between, none before `t1`), at most one starts
`sharePeers`; and neither of the two steps changes the indices of the store,
so the peer is not banned by them. -/
theorem manageData_peer_request_rate_limit (pm : PeerManager) (peer : Ptr)
    (req1 req2 : Parcel) (between : List (PeerParcel × Int)) (t1 t2 : Int)
    (hnet1 : req1.Header.Network = pm.config.Network)
    (htype1 : req1.Header.Type' = ParcelType.TypePeerRequest)
    (hnet2 : req2.Header.Network = pm.config.Network)
    (htype2 : req2.Header.Type' = ParcelType.TypePeerRequest)
    (hbetween : ∀ item ∈ between, t1 ≤ item.2)
    (hclose : t2 - t1 < pm.config.PeerRequestInterval) (horder : t1 ≤ t2) :
    ¬ ((manageDataStep pm ⟨peer, req1⟩ t1).goroutines
          = pm.goroutines ++ [Goroutine.sharePeers peer] ∧
       (manageDataStep (manageData (manageDataStep pm ⟨peer, req1⟩ t1) between)
            ⟨peer, req2⟩ t2).goroutines
          = (manageData (manageDataStep pm ⟨peer, req1⟩ t1) between).goroutines
              ++ [Goroutine.sharePeers peer]) ∧
    (manageDataStep pm ⟨peer, req1⟩ t1).peerByHash = pm.peerByHash ∧
    (manageDataStep pm ⟨peer, req1⟩ t1).peerByIP = pm.peerByIP ∧
    (manageDataStep (manageData (manageDataStep pm ⟨peer, req1⟩ t1) between)
        ⟨peer, req2⟩ t2).peerByHash
      = (manageData (manageDataStep pm ⟨peer, req1⟩ t1) between).peerByHash ∧
    (manageDataStep (manageData (manageDataStep pm ⟨peer, req1⟩ t1) between)
        ⟨peer, req2⟩ t2).peerByIP
      = (manageData (manageDataStep pm ⟨peer, req1⟩ t1) between).peerByIP := by
  have hcfg : (manageData (manageDataStep pm ⟨peer, req1⟩ t1) between).config = pm.config :=
    (manageData_config _ _).trans (manageDataStep_config _ _ _)
  have hnet2' : req2.Header.Network
      = (manageData (manageDataStep pm ⟨peer, req1⟩ t1) between).config.Network := by
    rw [hcfg]; exact hnet2
  refine ⟨?_, (manageDataStep_store_of_own_network pm ⟨peer, req1⟩ t1 hnet1).1,
    (manageDataStep_store_of_own_network pm ⟨peer, req1⟩ t1 hnet1).2,
    (manageDataStep_store_of_own_network _ ⟨peer, req2⟩ t2 hnet2').1,
    (manageDataStep_store_of_own_network _ ⟨peer, req2⟩ t2 hnet2').2⟩
  rintro ⟨hfirst, hsecond⟩
  obtain ⟨hyes1, hno1⟩ := manageDataStep_request_goroutines pm peer req1 t1 hnet1 htype1
  obtain ⟨_, hno2⟩ := manageDataStep_request_goroutines
    (manageData (manageDataStep pm ⟨peer, req1⟩ t1) between) peer req2 t2 hnet2' htype2
  by_cases hc1 : timeSince t1 (pm.heap peer).lastPeerSend ≥ pm.config.PeerRequestInterval
  · have hsend := (hyes1 hc1).2
    have hlow := manageData_lastPeerSend between (manageDataStep pm ⟨peer, req1⟩ t1) peer t1
      (by rw [hsend]) hbetween
    have hlt : timeSince t2
        ((manageData (manageDataStep pm ⟨peer, req1⟩ t1) between).heap peer).lastPeerSend
          < pm.config.PeerRequestInterval :=
      timeSince_lt _ _ _ (by omega) (by omega)
    have hsame := hno2 (by rw [hcfg]; omega)
    rw [hsame] at hsecond
    have := congrArg List.length hsecond
    simp at this
  · have hsame := hno1 hc1
    rw [hsame] at hfirst
    have := congrArg List.length hfirst
    simp at this

/-- C12 at the spec's scenario: two requests 10 ms apart, at 1 s and 1.01 s,
with `PeerRequestInterval` = 1 s; the first one starts `sharePeers`. -/
theorem manageData_peer_request_rate_limit_witness :
    (exampleParcel 1 ParcelType.TypePeerRequest).Header.Network = oneSeed.config.Network ∧
    ((1010000000 : Int) - 1000000000 < oneSeed.config.PeerRequestInterval) ∧
    (manageDataStep oneSeed ⟨0, exampleParcel 1 ParcelType.TypePeerRequest⟩ 1000000000).goroutines
      = oneSeed.goroutines ++ [Goroutine.sharePeers 0] ∧
    ¬ ((manageDataStep oneSeed ⟨0, exampleParcel 1 ParcelType.TypePeerRequest⟩
          1000000000).goroutines = oneSeed.goroutines ++ [Goroutine.sharePeers 0] ∧
       (manageDataStep (manageData (manageDataStep oneSeed
            ⟨0, exampleParcel 1 ParcelType.TypePeerRequest⟩ 1000000000) [])
            ⟨0, exampleParcel 1 ParcelType.TypePeerRequest⟩ 1010000000).goroutines
          = (manageData (manageDataStep oneSeed
              ⟨0, exampleParcel 1 ParcelType.TypePeerRequest⟩ 1000000000) []).goroutines
              ++ [Goroutine.sharePeers 0]) :=
  ⟨by decide, by decide, by decide!,
   (manageData_peer_request_rate_limit oneSeed 0
     (exampleParcel 1 ParcelType.TypePeerRequest) (exampleParcel 1 ParcelType.TypePeerRequest)
     [] 1000000000 1010000000 (by decide) (by decide) (by decide) (by decide)
     (by intro item h; cases h) (by decide) (by decide)).1⟩

/-! ## Peer sharing -/

theorem foldl_append_filter {α β : Type} (c : α → Bool) (f : α → β) (l : List α)
    (init : List β) :
    l.foldl (fun acc e => if c e then acc ++ [f e] else acc) init
      = init ++ (l.filter c).map f := by
  induction l generalizing init with
  | nil => simp
  | cons a rest ih =>
    rw [List.foldl_cons, ih]
    by_cases h : c a <;> simp [h]

theorem processPeersDecode_eq (decode : List Nat → Option (List Peer)) (payload : List Nat) :
    processPeersDecode decode payload = ([], true) := rfl

theorem processPeers_eq (decode : List Nat → Option (List Peer))
    (ConnectAddress : Peer → String) (pm : PeerManager) (peer : Ptr) (parcel : Parcel) :
    processPeers decode ConnectAddress pm peer parcel = pm := rfl

/-- C13 (code defect). Whatever the payload and the decoder, the list that
`processPeers` gets from `json.Unmarshal` is empty and the error is set,
because the destination is the slice itself and not a pointer to it: for a
payload that decodes to the one-entry list `[sharedPeer]` when a pointer is
passed, `processPeers` still works on the empty list. -/
theorem processPeers_decodes_nothing (decode : List Nat → Option (List Peer))
    (payload : List Nat) :
    processPeersDecode decode payload = ([], true) ∧
    jsonUnmarshal (fun _ => some [sharedPeer]) payload (JsonDest.pointer [])
      = ([sharedPeer], false) ∧
    processPeersDecode (fun _ => some [sharedPeer]) payload = ([], true) ∧
    (processPeersDecode (fun _ => some [sharedPeer]) payload).1.length
      ≠ [sharedPeer].length := by
  refine ⟨rfl, rfl, rfl, ?_⟩
  rw [processPeersDecode_eq]
  decide

/-- C14, as stated, fails: for a payload that does not decode, `processPeers`
leaves the `QualityScore` of the sending peer as it was. -/
theorem processPeers_keeps_score :
    (processPeersDecode (fun _ => none) (exampleParcel 1 ParcelType.TypePeerResponse).Payload).2
      = true ∧
    ((processPeers (fun _ => none) exampleConnectAddress oneSeed 0
        (exampleParcel 1 ParcelType.TypePeerResponse)).heap 0).QualityScore
      = (oneSeed.heap 0).QualityScore ∧
    ¬ ((processPeers (fun _ => none) exampleConnectAddress oneSeed 0
        (exampleParcel 1 ParcelType.TypePeerResponse)).heap 0).QualityScore
      < (oneSeed.heap 0).QualityScore := by
  decide!

/-- C14, amended. For every `PeerResponse` payload that fails to decode,
`processPeers` leaves the sending peer's `QualityScore` unchanged and returns
without adding any peer to the store: no peer record is created and both
indices and both counters are as before. -/
theorem processPeers_on_decode_error (decode : List Nat → Option (List Peer))
    (ConnectAddress : Peer → String) (pm : PeerManager) (peer : Ptr) (parcel : Parcel) :
    (processPeersDecode decode parcel.Payload).2 = true ∧
    ((processPeers decode ConnectAddress pm peer parcel).heap peer).QualityScore
      = (pm.heap peer).QualityScore ∧
    (processPeers decode ConnectAddress pm peer parcel).nextPtr = pm.nextPtr ∧
    (processPeers decode ConnectAddress pm peer parcel).peerByHash = pm.peerByHash ∧
    (processPeers decode ConnectAddress pm peer parcel).peerByIP = pm.peerByIP ∧
    (processPeers decode ConnectAddress pm peer parcel).incoming = pm.incoming ∧
    (processPeers decode ConnectAddress pm peer parcel).outgoing = pm.outgoing := by
  rw [processPeers_eq]
  exact ⟨rfl, rfl, rfl, rfl, rfl, rfl, rfl⟩

theorem storeKeyed_nodup (pm : PeerManager) (h : storeKeyed pm) : (storePeers pm).Nodup := by
  obtain ⟨hkeys, hhash⟩ := h
  unfold storePeers
  apply List.Nodup.map_on
  · intro x hx y hy hxy
    have h1 := hhash x hx
    have h2 := hhash y hy
    have hk : x.1 = y.1 := by rw [← h1, ← h2, hxy]
    exact List.inj_on_of_nodup_map hkeys hx hy hk
  · exact List.Nodup.of_map _ hkeys

theorem filteredSharing_eq (pm : PeerManager) :
    filteredSharing pm =
      (storePeers pm).filter (fun p =>
        !IsSpecial pm p && decide ((pm.heap p).QualityScore ≥ pm.config.MinimumQualityScore)) := by
  unfold filteredSharing storePeers
  rw [foldl_append_filter
    (fun e : String × Ptr =>
      !IsSpecial pm e.2 && decide ((pm.heap e.2).QualityScore ≥ pm.config.MinimumQualityScore))
    Prod.snd]
  rw [List.nil_append, List.filter_map]
  rfl

/-- C18. `filteredSharing` returns the peers of `peerByHash` that are not
special and whose `QualityScore` is at least `config.MinimumQualityScore`, in
the order of the store and each as often as the store holds it, which is once
in a store as Go builds it; so a special peer is never in the list. -/
theorem filteredSharing_spec (pm : PeerManager) :
    filteredSharing pm =
      (storePeers pm).filter (fun p =>
        !IsSpecial pm p && decide ((pm.heap p).QualityScore ≥ pm.config.MinimumQualityScore)) ∧
    (∀ p, p ∈ filteredSharing pm ↔
      (p ∈ storePeers pm ∧ IsSpecial pm p = false ∧
        (pm.heap p).QualityScore ≥ pm.config.MinimumQualityScore)) ∧
    (filteredSharing pm).Sublist (storePeers pm) ∧
    (storeKeyed pm → (filteredSharing pm).Nodup) ∧
    (∀ p, IsSpecial pm p = true → p ∉ filteredSharing pm) := by
  refine ⟨filteredSharing_eq pm, ?_, ?_, ?_, ?_⟩
  · intro p
    rw [filteredSharing_eq, List.mem_filter]
    simp
  · rw [filteredSharing_eq]
    exact List.filter_sublist _
  · intro hkeyed
    rw [filteredSharing_eq]
    exact List.Nodup.sublist (List.filter_sublist _) (storeKeyed_nodup pm hkeyed)
  · intro p hp hmem
    rw [filteredSharing_eq, List.mem_filter] at hmem
    simp [hp] at hmem

/-! ## Broadcast -/

/-- C15 (code defect). With `full == false`, a fanout of 1 and the two online
peers of `twoOnline`, of which peer 0 is special, a shuffle that leaves peer 1
in front makes `Broadcast` call `Send` on peer 1 only: the special peer does
not get the parcel. With `full == true` both peers get it. -/
theorem Broadcast_fanout_skips_special :
    IsSpecial twoOnline 0 = true ∧ IsOnline twoOnline 0 = true ∧
    0 ∈ storePeers twoOnline ∧
    (Broadcast twoOnline (exampleParcel 1 ParcelType.TypeMessage) false [(1, 1)]).map
        (fun pm => pm.sent)
      = Except.ok [(1, exampleParcel 1 ParcelType.TypeMessage)] ∧
    (Broadcast twoOnline (exampleParcel 1 ParcelType.TypeMessage) true []).map
        (fun pm => pm.sent)
      = Except.ok [(1, exampleParcel 1 ParcelType.TypeMessage),
          (0, exampleParcel 1 ParcelType.TypeMessage)] := by
  decide!

/-! ## Shutdown -/

theorem foldl_GoOffline_fields (l : List (String × Ptr)) (pm : PeerManager) :
    (l.foldl (fun pm e => GoOffline pm e.2) pm).peerByHash = pm.peerByHash ∧
    (l.foldl (fun pm e => GoOffline pm e.2) pm).stop = pm.stop := by
  induction l generalizing pm with
  | nil => exact ⟨rfl, rfl⟩
  | cons e rest ih =>
    rw [List.foldl_cons]
    exact ih (GoOffline pm e.2)

theorem foldl_GoOffline_state (l : List (String × Ptr)) (pm : PeerManager) (p : Ptr) :
    ((l.foldl (fun pm e => GoOffline pm e.2) pm).heap p).state = PeerState.Offline ∨
    (p ∉ l.map Prod.snd ∧
      (l.foldl (fun pm e => GoOffline pm e.2) pm).heap p = pm.heap p) := by
  induction l generalizing pm with
  | nil => exact Or.inr ⟨by simp, rfl⟩
  | cons e rest ih =>
    rw [List.foldl_cons]
    rcases ih (GoOffline pm e.2) with h | ⟨hnot, heq⟩
    · exact Or.inl h
    · by_cases hp : p = e.2
      · left
        rw [heq]
        unfold GoOffline PeerManager.modifyPeer
        simp [hp]
      · right
        refine ⟨by simpa [hp] using hnot, ?_⟩
        rw [heq]
        unfold GoOffline PeerManager.modifyPeer
        simp [hp]

/-- C19 (code defect). On a manager whose `stop` channel is empty the first
`Stop` returns and leaves every peer of the store `Offline`; the second `Stop`
never returns: it stays parked on the send to the full channel. No step of
`manageData` takes the value out of `stop`, and after `Stop` the loop still
handles parcels: an application message is handed to `BlockFreeChannelSend` as
before. -/
theorem Stop_twice_blocks (pm : PeerManager) :
    ∃ pm1, Stop { pm with stop := 0 } = StopOutcome.returned pm1 ∧
      (∀ p ∈ storePeers pm1, IsOffline pm1 p = true) ∧
      Stop pm1 = StopOutcome.blocked pm1 ∧
      (∀ data now, (manageDataStep pm1 data now).stop = pm1.stop) ∧
      (∀ peer now, (manageDataStep pm1
          ⟨peer, exampleParcel pm1.config.Network ParcelType.TypeMessage⟩ now).FromNetwork
        = pm1.FromNetwork ++ [exampleParcel pm1.config.Network ParcelType.TypeMessage]) := by
  refine ⟨_, rfl, ?_, ?_, ?_, ?_⟩
  · intro p hp
    dsimp only at hp ⊢
    unfold storePeers at hp
    rw [(foldl_GoOffline_fields _ _).1] at hp
    unfold IsOffline
    rcases foldl_GoOffline_state pm.peerByHash
      { pm with stop := 0 + 1 } p with h | ⟨hnot, _⟩
    · simpa using h
    · exact absurd hp hnot
  · unfold Stop
    dsimp only
    rw [(foldl_GoOffline_fields _ _).2]
    simp
  · intro data now
    unfold manageDataStep banPeer removePeer GoOffline PeerManager.modifyPeer
      BlockFreeChannelSend
    dsimp only
    split
    · split <;> rfl
    · split <;> (try split) <;> rfl
  · intro peer now
    unfold manageDataStep BlockFreeChannelSend exampleParcel
    simp

/-! ## Random selection -/

theorem onlinePeers_eq (pm : PeerManager) :
    onlinePeers pm = (storePeers pm).filter (fun p => IsOnline pm p) := by
  unfold onlinePeers storePeers
  rw [foldl_append_filter (fun e : String × Ptr => IsOnline pm e.2) Prod.snd]
  rw [List.nil_append, List.filter_map]
  rfl

theorem swapPeers_perm (l : List Ptr) (i j : Nat) (hi : i < l.length) (hj : j < l.length) :
    ∃ l', swapPeers l i j = Except.ok l' ∧ l'.Perm l := by
  unfold swapPeers
  rw [List.getElem?_eq_getElem hi, List.getElem?_eq_getElem hj]
  refine ⟨_, rfl, ?_⟩
  rw [List.perm_iff_count]
  intro x
  have hj' : j < (l.set i l[j]).length := by rw [List.length_set]; exact hj
  rw [List.count_set _ _ _ _ hj', List.count_set _ _ _ _ hi]
  have hb : (l.set i l[j])[j] = l[j] := by
    rw [List.getElem_set]
    split
    · rfl
    · rfl
  rw [hb]
  have hle : (if (l[i] == x) = true then 1 else 0) ≤ l.count x := by
    split
    · rename_i h
      have : l[i] = x := by simpa using h
      rw [← this]
      exact List.count_pos_iff.mpr (List.getElem_mem hi)
    · exact Nat.zero_le _
  omega

theorem swaps_perm (swaps : List (Nat × Nat)) (l : List Ptr)
    (h : ∀ s ∈ swaps, s.1 < l.length ∧ s.2 < l.length) :
    ∃ l', swaps.foldlM (fun ps s => swapPeers ps s.1 s.2) l = Except.ok l' ∧ l'.Perm l := by
  induction swaps generalizing l with
  | nil => exact ⟨l, rfl, List.Perm.refl l⟩
  | cons s rest ih =>
    obtain ⟨l1, h1, p1⟩ := swapPeers_perm l s.1 s.2 (h s (List.mem_cons_self _ _)).1
      (h s (List.mem_cons_self _ _)).2
    obtain ⟨l2, h2, p2⟩ := ih l1 (by
      intro t ht
      rw [p1.length_eq]
      exact h t (List.mem_cons_of_mem _ ht))
    refine ⟨l2, ?_, p2.trans p1⟩
    rw [List.foldlM_cons, h1]
    exact h2

/-- C16. On a store as Go builds it, for every count and every outcome of the
shuffle (any sequence of swaps of positions of the snapshot),
`selectRandomPeers(count)` returns a list whose length is the minimum of
`count` and the number of `Online` peers of the store, that holds only `Online`
peers of the store and no peer twice; when there are at most `count` `Online`
peers it returns all of them. -/
theorem selectRandomPeers_spec (pm : PeerManager) (count : Nat) (swaps : List (Nat × Nat))
    (hstore : storeKeyed pm)
    (hswaps : ∀ s ∈ swaps,
      s.1 < ((storePeers pm).filter (fun p => IsOnline pm p)).length ∧
      s.2 < ((storePeers pm).filter (fun p => IsOnline pm p)).length) :
    ∃ sel, selectRandomPeers pm count swaps = Except.ok sel ∧
      sel.length = min count ((storePeers pm).filter (fun p => IsOnline pm p)).length ∧
      (∀ p ∈ sel, p ∈ storePeers pm ∧ IsOnline pm p = true) ∧
      sel.Nodup ∧
      (((storePeers pm).filter (fun p => IsOnline pm p)).length ≤ count →
        sel = (storePeers pm).filter (fun p => IsOnline pm p)) := by
  have hnodup : ((storePeers pm).filter (fun p => IsOnline pm p)).Nodup :=
    List.Nodup.sublist (List.filter_sublist _) (storeKeyed_nodup pm hstore)
  unfold selectRandomPeers
  dsimp only
  rw [onlinePeers_eq]
  by_cases hle : ((storePeers pm).filter (fun p => IsOnline pm p)).length ≤ count
  · rw [if_pos hle]
    refine ⟨_, rfl, ?_, ?_, hnodup, fun _ => rfl⟩
    · rw [Nat.min_eq_right hle]
    · intro p hp
      rw [List.mem_filter] at hp
      exact hp
  · rw [if_neg hle]
    obtain ⟨l', hl', hperm⟩ := swaps_perm swaps _ hswaps
    rw [hl']
    refine ⟨l'.take count, rfl, ?_, ?_, ?_, fun h => absurd h hle⟩
    · rw [List.length_take, hperm.length_eq]
    · intro p hp
      have hmem : p ∈ (storePeers pm).filter (fun p => IsOnline pm p) :=
        hperm.mem_iff.mp (List.mem_of_mem_take hp)
      rw [List.mem_filter] at hmem
      exact hmem
    · exact List.Nodup.sublist (List.take_sublist _ _) (hperm.nodup_iff.mpr hnodup)

/-- C16 at the two online peers of `twoOnline` with `count = 1` and a shuffle
that swaps the two positions: the call returns one peer. -/
theorem selectRandomPeers_spec_witness :
    storeKeyed twoOnline ∧
    selectRandomPeers twoOnline 1 [(1, 0)] = Except.ok [0] ∧
    ∃ sel, selectRandomPeers twoOnline 1 [(1, 0)] = Except.ok sel ∧
      sel.length = min 1 ((storePeers twoOnline).filter (fun p => IsOnline twoOnline p)).length ∧
      (∀ p ∈ sel, p ∈ storePeers twoOnline ∧ IsOnline twoOnline p = true) ∧
      sel.Nodup ∧
      (((storePeers twoOnline).filter (fun p => IsOnline twoOnline p)).length ≤ 1 →
        sel = (storePeers twoOnline).filter (fun p => IsOnline twoOnline p)) :=
  ⟨by decide!, by decide!,
   selectRandomPeers_spec twoOnline 1 [(1, 0)] (by decide!) (by decide!)⟩

/-! ## Duplicate detection -/

theorem Better_trans (a b c : Peer) (h1 : Better a b = true) (h2 : Better b c = true) :
    Better a c = true := by
  unfold Better at h1 h2 ⊢
  simp only [Bool.or_eq_true, Bool.and_eq_true, decide_eq_true_eq, Bool.not_eq_true',
    gt_iff_lt] at h1 h2 ⊢
  rcases h1 with h1 | ⟨e1, h1 | ⟨f1, o1, _⟩⟩ <;> rcases h2 with h2 | ⟨e2, h2 | ⟨f2, _, o2⟩⟩
  · left; omega
  · left; omega
  · left; omega
  · left; omega
  · right; exact ⟨by omega, Or.inl (by omega)⟩
  · right; exact ⟨by omega, Or.inl (by omega)⟩
  · left; omega
  · right; exact ⟨by omega, Or.inl (by omega)⟩
  · right; exact ⟨by omega, Or.inr ⟨by omega, o1, o2⟩⟩

theorem Better_asymm (a b : Peer) (h : Better a b = true) : Better b a = false := by
  cases hba : Better b a with
  | false => rfl
  | true =>
    exfalso
    unfold Better at h hba
    simp only [Bool.or_eq_true, Bool.and_eq_true, decide_eq_true_eq, Bool.not_eq_true',
      gt_iff_lt] at h hba
    rcases h with h | ⟨e1, h | ⟨f1, o1, n1⟩⟩ <;> rcases hba with g | ⟨e2, g | ⟨f2, o2, n2⟩⟩
    all_goals first | omega | (rw [o2] at n1; cases n1)

theorem detectInv_init (ConnectAddress : Peer → String) (heap : Ptr → Peer) :
    DetectInv ConnectAddress heap [] ([], []) := by
  refine ⟨?_, ?_, ?_⟩
  · intro a s h
    simp [GoMap.get] at h
  · intro q hq
    cases hq
  · intro r hr
    cases hr

theorem detectStep_inv (ConnectAddress : Peer → String) (heap : Ptr → Peer) (done : List Ptr)
    (st : GoMap Ptr × List Ptr) (e : String × Ptr)
    (inv : DetectInv ConnectAddress heap done st) (hnew : e.2 ∉ done) :
    DetectInv ConnectAddress heap (done ++ [e.2]) (detectStep ConnectAddress heap st e) := by
  unfold detectStep
  dsimp only
  cases hget : st.1.get (ConnectAddress (heap e.2)) with
  | none =>
    dsimp only
    refine ⟨?_, ?_, ?_⟩
    · intro a s h
      rw [goMap_get_set] at h
      split at h
      · rename_i ha
        cases h
        exact ⟨ha, by simp⟩
      · obtain ⟨h1, h2⟩ := inv.cur a s h
        exact ⟨h1, List.mem_append_left _ h2⟩
    · intro q hq
      rw [goMap_get_set]
      rcases List.mem_append.mp hq with hq | hq
      · rcases inv.visited q hq with h | h
        · exact Or.inl h
        · right
          have hne : ¬ ConnectAddress (heap e.2) = ConnectAddress (heap q) := by
            intro heq
            rw [heq, h] at hget
            cases hget
          rw [if_neg hne]
          exact h
      · have : q = e.2 := by simpa using hq
        subst this
        right
        rw [if_pos rfl]
    · intro r hr
      obtain ⟨h1, h2, s, h3, h4⟩ := inv.removed r hr
      have hne : ¬ ConnectAddress (heap e.2) = ConnectAddress (heap r) := by
        intro heq
        rw [heq, h3] at hget
        cases hget
      rw [goMap_get_set, if_neg hne]
      exact ⟨List.mem_append_left _ h1, h2, s, h3, h4⟩
  | some other =>
    dsimp only
    obtain ⟨hoaddr, hodone⟩ := inv.cur _ other hget
    have hpo : e.2 ≠ other := fun h => hnew (h ▸ hodone)
    by_cases hb : Better (heap e.2) (heap other) = true
    · rw [if_pos hb]
      refine ⟨?_, ?_, ?_⟩
      · intro a s h
        rw [goMap_get_set] at h
        split at h
        · rename_i ha
          cases h
          exact ⟨ha, by simp⟩
        · obtain ⟨h1, h2⟩ := inv.cur a s h
          exact ⟨h1, List.mem_append_left _ h2⟩
      · intro q hq
        dsimp only
        rw [goMap_get_set]
        rcases List.mem_append.mp hq with hq | hq
        · rcases inv.visited q hq with h | h
          · exact Or.inl (List.mem_append_left _ h)
          · by_cases heq : ConnectAddress (heap e.2) = ConnectAddress (heap q)
            · left
              rw [heq, h] at hget
              cases hget
              simp
            · right
              rw [if_neg heq]
              exact h
        · have : q = e.2 := by simpa using hq
          subst this
          right
          rw [if_pos rfl]
      · intro r hr
        dsimp only at hr ⊢
        rw [goMap_get_set]
        rcases List.mem_append.mp hr with hr | hr
        · obtain ⟨h1, h2, s, h3, h4⟩ := inv.removed r hr
          refine ⟨List.mem_append_left _ h1, ?_, ?_⟩
          · split
            · intro h
              cases h
              exact hnew h1
            · exact h2
          · by_cases heq : ConnectAddress (heap e.2) = ConnectAddress (heap r)
            · rw [if_pos heq]
              refine ⟨e.2, rfl, ?_⟩
              rw [heq, h3] at hget
              cases hget
              cases hrp : Better (heap r) (heap e.2) with
              | false => rfl
              | true =>
                have := Better_trans _ _ _ hrp hb
                rw [this] at h4
                cases h4
            · rw [if_neg heq]
              exact ⟨s, h3, h4⟩
        · have : r = other := by simpa using hr
          subst this
          refine ⟨List.mem_append_left _ hodone, ?_, ?_⟩
          · rw [if_pos hoaddr.symm]
            intro h
            cases h
            exact hpo rfl
          · rw [if_pos hoaddr.symm]
            exact ⟨e.2, rfl, Better_asymm _ _ hb⟩
    · rw [if_neg hb]
      have hb' : Better (heap e.2) (heap other) = false := by
        cases hx : Better (heap e.2) (heap other) with
        | false => rfl
        | true => exact absurd hx hb
      refine ⟨?_, ?_, ?_⟩
      · intro a s h
        obtain ⟨h1, h2⟩ := inv.cur a s h
        exact ⟨h1, List.mem_append_left _ h2⟩
      · intro q hq
        dsimp only
        rcases List.mem_append.mp hq with hq | hq
        · rcases inv.visited q hq with h | h
          · exact Or.inl (List.mem_append_left _ h)
          · exact Or.inr h
        · have : q = e.2 := by simpa using hq
          subst this
          left
          simp
      · intro r hr
        dsimp only at hr ⊢
        rcases List.mem_append.mp hr with hr | hr
        · obtain ⟨h1, h2, s, h3, h4⟩ := inv.removed r hr
          exact ⟨List.mem_append_left _ h1, h2, s, h3, h4⟩
        · have : r = e.2 := by simpa using hr
          subst this
          refine ⟨by simp, ?_, other, hget, hb'⟩
          rw [hget]
          intro h
          cases h
          exact hpo rfl

theorem detectLoop_inv (ConnectAddress : Peer → String) (heap : Ptr → Peer)
    (l : List (String × Ptr)) (done : List Ptr) (st : GoMap Ptr × List Ptr)
    (inv : DetectInv ConnectAddress heap done st) (hnodup : (done ++ l.map Prod.snd).Nodup) :
    DetectInv ConnectAddress heap (done ++ l.map Prod.snd)
      (l.foldl (detectStep ConnectAddress heap) st) := by
  induction l generalizing done st with
  | nil => simpa using inv
  | cons e rest ih =>
    rw [List.foldl_cons]
    have hnew : e.2 ∉ done := by
      intro h
      rw [List.map_cons] at hnodup
      have := List.nodup_append.mp hnodup
      exact this.2.2 h (List.mem_cons_self _ _)
    have h2 : (done ++ [e.2] ++ rest.map Prod.snd).Nodup := by
      simpa using hnodup
    have := ih (done ++ [e.2]) _ (detectStep_inv ConnectAddress heap done st e inv hnew) h2
    simpa using this

theorem goMap_mem_delete {V : Type} (m : GoMap V) (k : String) (e : String × V) :
    e ∈ GoMap.delete m k ↔ e ∈ m ∧ e.1 ≠ k := by
  induction m with
  | nil => simp [GoMap.delete]
  | cons x rest ih =>
    obtain ⟨k0, v0⟩ := x
    unfold GoMap.delete
    by_cases h0 : k0 = k
    · rw [if_pos h0, ih]
      constructor
      · rintro ⟨h1, h2⟩
        exact ⟨List.mem_cons_of_mem _ h1, h2⟩
      · rintro ⟨h1, h2⟩
        rcases List.mem_cons.mp h1 with h | h
        · subst h
          exact absurd h0 h2
        · exact ⟨h, h2⟩
    · rw [if_neg h0, List.mem_cons, ih, List.mem_cons]
      constructor
      · rintro (h | ⟨h1, h2⟩)
        · subst h
          exact ⟨Or.inl rfl, h0⟩
        · exact ⟨Or.inr h1, h2⟩
      · rintro ⟨h | h, h2⟩
        · exact Or.inl h
        · exact Or.inr ⟨h, h2⟩

theorem goMap_delete_sublist {V : Type} (m : GoMap V) (k : String) :
    (GoMap.delete m k).Sublist m := by
  induction m with
  | nil => exact List.Sublist.refl _
  | cons x rest ih =>
    obtain ⟨k0, v0⟩ := x
    unfold GoMap.delete
    by_cases h0 : k0 = k
    · rw [if_pos h0]
      exact List.Sublist.cons _ ih
    · rw [if_neg h0]
      exact List.Sublist.cons₂ _ ih

theorem removeAll_Hash (remove : List Ptr) (pm : PeerManager) (q : Ptr) :
    ((remove.foldl removePeer pm).heap q).Hash = (pm.heap q).Hash := by
  induction remove generalizing pm with
  | nil => rfl
  | cons r rest ih =>
    rw [List.foldl_cons, ih, removePeer_Hash]

theorem removeAll_heap (remove : List Ptr) (pm : PeerManager) (q : Ptr) (hq : q ∉ remove) :
    (remove.foldl removePeer pm).heap q = pm.heap q := by
  induction remove generalizing pm with
  | nil => rfl
  | cons r rest ih =>
    have hne : ¬ q = r := fun h => hq (by rw [h]; exact List.mem_cons_self _ _)
    rw [List.foldl_cons, ih _ (fun h => hq (List.mem_cons_of_mem _ h)), removePeer_heap,
      if_neg hne]

theorem removeAll_mem (remove : List Ptr) (pm : PeerManager) (e : String × Ptr) :
    e ∈ (remove.foldl removePeer pm).peerByHash ↔
      e ∈ pm.peerByHash ∧ ∀ r ∈ remove, (pm.heap r).Hash ≠ e.1 := by
  induction remove generalizing pm with
  | nil => simp
  | cons r rest ih =>
    rw [List.foldl_cons, ih, removePeer_peerByHash, goMap_mem_delete]
    simp only [removePeer_Hash, List.mem_cons, forall_eq_or_imp]
    constructor
    · rintro ⟨⟨h1, h2⟩, h3⟩
      exact ⟨h1, fun h => h2 h.symm, h3⟩
    · rintro ⟨h1, h2, h3⟩
      exact ⟨⟨h1, fun h => h2 h.symm⟩, h3⟩

theorem removeAll_sublist (remove : List Ptr) (pm : PeerManager) :
    (remove.foldl removePeer pm).peerByHash.Sublist pm.peerByHash := by
  induction remove generalizing pm with
  | nil => exact List.Sublist.refl _
  | cons r rest ih =>
    rw [List.foldl_cons]
    refine (ih _).trans ?_
    rw [removePeer_peerByHash]
    exact goMap_delete_sublist _ _

theorem managePeersDetectDuplicate_eq (ConnectAddress : Peer → String) (pm : PeerManager) :
    managePeersDetectDuplicate ConnectAddress pm =
      (pm.peerByHash.foldl (detectStep ConnectAddress pm.heap) ([], [])).2.foldl removePeer pm := by
  unfold managePeersDetectDuplicate
  dsimp only
  split
  · rfl
  · rename_i h
    have : (pm.peerByHash.foldl (detectStep ConnectAddress pm.heap) ([], [])).2 = [] := by
      cases hl : (pm.peerByHash.foldl (detectStep ConnectAddress pm.heap) ([], [])).2 with
      | nil => rfl
      | cons a t => rw [hl] at h; simp at h
    rw [this]
    rfl

theorem detect_survives_iff (ConnectAddress : Peer → String) (pm : PeerManager)
    (hkeyed : storeKeyed pm) (q : Ptr) (hq : q ∈ storePeers pm) :
    q ∈ storePeers (managePeersDetectDuplicate ConnectAddress pm) ↔
      q ∉ (pm.peerByHash.foldl (detectStep ConnectAddress pm.heap) ([], [])).2 := by
  have inv := detectLoop_inv ConnectAddress pm.heap pm.peerByHash [] ([], [])
    (detectInv_init ConnectAddress pm.heap) (by simpa using storeKeyed_nodup pm hkeyed)
  rw [List.nil_append] at inv
  rw [managePeersDetectDuplicate_eq]
  obtain ⟨hkeys, hhash⟩ := hkeyed
  unfold storePeers at hq ⊢
  rw [List.mem_map] at hq ⊢
  obtain ⟨e, he, heq⟩ := hq
  constructor
  · rintro ⟨e', he', heq'⟩ hR
    rw [removeAll_mem] at he'
    apply he'.2 q hR
    rw [← heq', hhash e' he'.1]
  · intro hR
    refine ⟨e, ?_, heq⟩
    rw [removeAll_mem]
    refine ⟨he, ?_⟩
    intro r hr hrk
    have hrV := (inv.removed r hr).1
    rw [List.mem_map] at hrV
    obtain ⟨e2, he2, heq2⟩ := hrV
    have hk : e2.1 = e.1 := by rw [← hhash e2 he2, heq2, hrk]
    have : e2 = e := List.inj_on_of_nodup_map hkeys he2 he hk
    apply hR
    rw [← heq, ← this, heq2]
    exact hr

/-- C17. On a store as Go builds it (distinct keys, every peer under its own
`Hash`), whatever the order of its bindings, after one pass of
`managePeersDetectDuplicate` the peers left are peers of the old store with
unchanged records, none twice; for each `ConnectAddress` that was present
exactly one peer is left; and no removed peer is `Better` than the peer left
with the same `ConnectAddress`. -/
theorem managePeersDetectDuplicate_spec (ConnectAddress : Peer → String) (pm : PeerManager)
    (hkeyed : storeKeyed pm) :
    (∀ s ∈ storePeers (managePeersDetectDuplicate ConnectAddress pm),
      s ∈ storePeers pm ∧
      (managePeersDetectDuplicate ConnectAddress pm).heap s = pm.heap s) ∧
    (storePeers (managePeersDetectDuplicate ConnectAddress pm)).Nodup ∧
    (∀ q ∈ storePeers pm,
      ∃ s ∈ storePeers (managePeersDetectDuplicate ConnectAddress pm),
        ConnectAddress (pm.heap s) = ConnectAddress (pm.heap q) ∧
        ∀ s' ∈ storePeers (managePeersDetectDuplicate ConnectAddress pm),
          ConnectAddress (pm.heap s') = ConnectAddress (pm.heap q) → s' = s) ∧
    (∀ r ∈ storePeers pm, r ∉ storePeers (managePeersDetectDuplicate ConnectAddress pm) →
      ∀ s ∈ storePeers (managePeersDetectDuplicate ConnectAddress pm),
        ConnectAddress (pm.heap s) = ConnectAddress (pm.heap r) →
        Better (pm.heap r) (pm.heap s) = false) := by
  have inv := detectLoop_inv ConnectAddress pm.heap pm.peerByHash [] ([], [])
    (detectInv_init ConnectAddress pm.heap) (by simpa using storeKeyed_nodup pm hkeyed)
  rw [List.nil_append] at inv
  have hsub : ∀ s ∈ storePeers (managePeersDetectDuplicate ConnectAddress pm),
      s ∈ storePeers pm := by
    intro s hs
    unfold storePeers at hs ⊢
    rw [managePeersDetectDuplicate_eq] at hs
    exact ((removeAll_sublist _ pm).map Prod.snd).subset hs
  have hiff := detect_survives_iff ConnectAddress pm hkeyed
  have hcur : ∀ s ∈ storePeers (managePeersDetectDuplicate ConnectAddress pm),
      (pm.peerByHash.foldl (detectStep ConnectAddress pm.heap) ([], [])).1.get
        (ConnectAddress (pm.heap s)) = some s := by
    intro s hs
    have hV := hsub s hs
    rcases inv.visited s hV with h | h
    · exact absurd h ((hiff s hV).mp hs)
    · exact h
  refine ⟨?_, ?_, ?_, ?_⟩
  · intro s hs
    refine ⟨hsub s hs, ?_⟩
    rw [managePeersDetectDuplicate_eq]
    exact removeAll_heap _ pm s ((hiff s (hsub s hs)).mp hs)
  · unfold storePeers
    rw [managePeersDetectDuplicate_eq]
    exact List.Nodup.sublist ((removeAll_sublist _ pm).map Prod.snd)
      (storeKeyed_nodup pm hkeyed)
  · intro q hq
    have hex : ∃ s, (pm.peerByHash.foldl (detectStep ConnectAddress pm.heap) ([], [])).1.get
        (ConnectAddress (pm.heap q)) = some s := by
      rcases inv.visited q hq with h | h
      · obtain ⟨_, _, s, hs, _⟩ := inv.removed q h
        exact ⟨s, hs⟩
      · exact ⟨q, h⟩
    obtain ⟨s, hs⟩ := hex
    obtain ⟨hsaddr, hsV⟩ := inv.cur _ s hs
    have hsurv : s ∈ storePeers (managePeersDetectDuplicate ConnectAddress pm) := by
      rw [hiff s hsV]
      intro hR
      have := (inv.removed s hR).2.1
      rw [hsaddr] at this
      exact this hs
    refine ⟨s, hsurv, hsaddr, ?_⟩
    intro s' hs' haddr
    have h' := hcur s' hs'
    rw [haddr, hs] at h'
    cases h'
    rfl
  · intro r hr hgone s hs haddr
    have hR : r ∈ (pm.peerByHash.foldl (detectStep ConnectAddress pm.heap) ([], [])).2 := by
      by_contra hnot
      exact hgone ((hiff r hr).mpr hnot)
    obtain ⟨_, _, s0, hs0, hbetter⟩ := inv.removed r hR
    have h' := hcur s hs
    rw [haddr, hs0] at h'
    cases h'
    exact hbetter

/-- C17 at the spec's scenario, two peers with the same connect address and
`QualityScore` 10 and 5, in both orders of the store: only the peer with 10 is
left. -/
theorem managePeersDetectDuplicate_spec_witness :
    storeKeyed twoScored ∧ storeKeyed twoScoredReversed ∧
    storePeers (managePeersDetectDuplicate exampleConnectAddress twoScored) = [0] ∧
    storePeers (managePeersDetectDuplicate exampleConnectAddress twoScoredReversed) = [0] ∧
    (twoScored.heap 0).QualityScore = 10 ∧
    (∀ r ∈ storePeers twoScored,
      r ∉ storePeers (managePeersDetectDuplicate exampleConnectAddress twoScored) →
      ∀ s ∈ storePeers (managePeersDetectDuplicate exampleConnectAddress twoScored),
        exampleConnectAddress (twoScored.heap s) = exampleConnectAddress (twoScored.heap r) →
        Better (twoScored.heap r) (twoScored.heap s) = false) :=
  ⟨by decide!, by decide!, by decide!, by decide!, by decide!,
   (managePeersDetectDuplicate_spec exampleConnectAddress twoScored (by decide!)).2.2.2⟩

/-! ## Seed discovery -/

theorem lastIndexByte_drop (s : List Char) (c : Char) (i : Nat)
    (h : lastIndexByte s c = some i) : c ∉ s.drop (i + 1) := by
  induction s generalizing i with
  | nil => simp [lastIndexByte] at h
  | cons x rest ih =>
    unfold lastIndexByte at h
    cases hr : lastIndexByte rest c with
    | some k =>
      rw [hr] at h
      simp only [Option.some.injEq] at h
      subst h
      simpa using ih k hr
    | none =>
      rw [hr] at h
      simp only at h
      split at h
      · simp only [Option.some.injEq] at h
        subst h
        simp only [Nat.zero_add, List.drop_succ_cons, List.drop_zero]
        clear ih
        induction rest with
        | nil => simp
        | cons y t iht =>
          unfold lastIndexByte at hr
          cases ht : lastIndexByte t c with
          | some k => rw [ht] at hr; simp at hr
          | none =>
            rw [ht] at hr
            simp only at hr
            split at hr
            · simp at hr
            · rename_i hne
              simp only [List.mem_cons, not_or]
              exact ⟨fun e => hne e.symm, iht ht⟩
      · simp at h

theorem splitHostPortEnd_port (s : List Char) (i : Nat) (host : List Char) (j k : Nat)
    (h p : String) (hok : splitHostPortEnd s i host j k = Except.ok (h, p)) :
    p = String.mk (s.drop (i + 1)) := by
  unfold splitHostPortEnd at hok
  split at hok
  · cases hok
  · split at hok
    · cases hok
    · simp only [Except.ok.injEq, Prod.mk.injEq] at hok
      exact hok.2.symm

theorem SplitHostPort_port_colonFree (line host port : String)
    (h : SplitHostPort line = Except.ok (host, port)) : colonFree port := by
  unfold SplitHostPort at h
  dsimp only at h
  cases hi : lastIndexByte line.data ':' with
  | none => rw [hi] at h; cases h
  | some i =>
    rw [hi] at h
    dsimp only at h
    have key : ∀ hostc j k, splitHostPortEnd line.data i hostc j k = Except.ok (host, port) →
        colonFree port := by
      intro hostc j k hk
      rw [splitHostPortEnd_port _ _ _ _ _ _ _ hk]
      unfold colonFree
      exact lastIndexByte_drop _ _ _ hi
    split at h
    · split at h
      · cases h
      · split at h
        · cases h
        · split at h
          · exact key _ _ _ h
          · split at h <;> cases h
    · split at h
      · cases h
      · exact key _ _ _ h

theorem discoverSeedsLine_of_ok (pm : PeerManager) (line host port : String)
    (h : SplitHostPort line = Except.ok (host, port)) :
    discoverSeedsLine pm line
      = addPeer (SpawnPeer pm host true port).1 (SpawnPeer pm host true port).2 := by
  unfold discoverSeedsLine
  rw [h]

theorem discoverSeedsLine_of_error (pm : PeerManager) (line : String) (err : AddrError)
    (h : SplitHostPort line = Except.error err) : discoverSeedsLine pm line = pm := by
  unfold discoverSeedsLine
  rw [h]

theorem SpawnPeer_heap_of_lt (pm : PeerManager) (a : String) (o : Bool) (lp : String)
    (q : Ptr) (hq : q < pm.nextPtr) : (SpawnPeer pm a o lp).1.heap q = pm.heap q := by
  unfold SpawnPeer
  dsimp only
  rw [addPeer_heap]
  simp [Nat.ne_of_lt hq]

theorem seedStored_after_line (pm : PeerManager) (line host port : String)
    (h : SplitHostPort line = Except.ok (host, port)) :
    seedStored (discoverSeedsLine pm line) host port := by
  rw [discoverSeedsLine_of_ok pm line host port h]
  refine ⟨pm.nextPtr, ?_, ?_, ?_, ?_, ?_, ?_⟩
  · rw [addPeer_nextPtr, SpawnPeer_nextPtr]
    exact Nat.lt_succ_self _
  · rw [addPeer_peerByHash, SpawnPeer_snd, SpawnPeer_heap, goMap_get_set, if_pos rfl]
  all_goals rw [addPeer_heap, SpawnPeer_heap]

theorem seedStored_line (pm : PeerManager) (line host port : String)
    (hport : colonFree port) (hs : seedStored pm host port) :
    seedStored (discoverSeedsLine pm line) host port := by
  cases hsplit : SplitHostPort line with
  | error err => rw [discoverSeedsLine_of_error pm line err hsplit]; exact hs
  | ok hp =>
    obtain ⟨host2, port2⟩ := hp
    by_cases hkey : host2 ++ ":" ++ port2 = host ++ ":" ++ port
    · have hport2 := SplitHostPort_port_colonFree line host2 port2 hsplit
      have hhost : host2 = host := hash_address_inj _ _ _ _ hkey hport2 hport
      subst hhost
      have hp2 : port2 = port := by
        have := congrArg String.data hkey
        simp only [String.data_append, List.append_assoc] at this
        exact String.ext (List.append_cancel_left (List.append_cancel_left this))
      subst hp2
      exact seedStored_after_line pm line host2 port2 hsplit
    · obtain ⟨q, hq, hget, hhash, haddr, hout, hstate⟩ := hs
      rw [discoverSeedsLine_of_ok pm line host2 port2 hsplit]
      refine ⟨q, ?_, ?_, ?_, ?_, ?_, ?_⟩
      · rw [addPeer_nextPtr, SpawnPeer_nextPtr]
        exact Nat.lt_succ_of_lt hq
      · rw [addPeer_peerByHash, SpawnPeer_snd, SpawnPeer_heap, goMap_get_set, if_neg hkey,
          SpawnPeer_peerByHash, goMap_get_set, if_neg hkey]
        exact hget
      all_goals rw [addPeer_heap, SpawnPeer_heap_of_lt pm host2 true port2 q hq]
      · exact hhash
      · exact haddr
      · exact hout
      · exact hstate

theorem seedStored_lines (lines : List String) (pm : PeerManager) (host port : String)
    (hport : colonFree port) (hs : seedStored pm host port) :
    seedStored (lines.foldl discoverSeedsLine pm) host port := by
  induction lines generalizing pm with
  | nil => exact hs
  | cons l rest ih =>
    rw [List.foldl_cons]
    exact ih _ (seedStored_line pm l host port hport hs)

/-- C20, as stated, fails: the scanned line `#10.0.0.3:8108` splits into the
host `#10.0.0.3` and the port `8108`, and `discoverSeeds` adds a peer for it. -/
theorem discoverSeeds_takes_comment_line :
    SplitHostPort "#10.0.0.3:8108" = Except.ok ("#10.0.0.3", "8108") ∧
    (discoverSeeds (NewPeerManager exampleConfig zeroRand)
        (Except.ok ["#10.0.0.3:8108"])).peerByHash = [("#10.0.0.3:8108", 0)] ∧
    ((discoverSeeds (NewPeerManager exampleConfig zeroRand)
        (Except.ok ["#10.0.0.3:8108"])).heap 0).Address = "#10.0.0.3" := by
  decide!

/-- C20, amended. For every sequence of lines scanned from the seed response,
after `discoverSeeds` the store contains, for each line that
`net.SplitHostPort` splits into a host and a port, an `Offline` outgoing peer
with the hash `host:port` and the address `host`; a line that does not split,
such as a blank line, creates no peer and changes nothing. -/
theorem discoverSeeds_stores_split_lines (pm : PeerManager) (lines : List String)
    (line host port : String) (hmem : line ∈ lines)
    (hsplit : SplitHostPort line = Except.ok (host, port)) :
    seedStored (discoverSeeds pm (Except.ok lines)) host port ∧
    (∀ pm1 l err, SplitHostPort l = Except.error err → discoverSeedsLine pm1 l = pm1) ∧
    SplitHostPort "" = Except.error AddrError.missingPort := by
  refine ⟨?_, fun pm1 l err h => discoverSeedsLine_of_error pm1 l err h, by decide!⟩
  have hport := SplitHostPort_port_colonFree line host port hsplit
  unfold discoverSeeds
  dsimp only
  induction lines generalizing pm with
  | nil => cases hmem
  | cons l rest ih =>
    rw [List.foldl_cons]
    rcases List.mem_cons.mp hmem with e | hrest
    · subst e
      exact seedStored_lines rest _ host port hport (seedStored_after_line pm line host port hsplit)
    · exact ih _ hrest

/-- C20, amended, at the spec's scenario: the lines `10.0.0.1:8108` and
`10.0.0.2:8108` yield exactly the two peers with these hashes, counted twice
each in `outgoing`. -/
theorem discoverSeeds_stores_split_lines_witness :
    "10.0.0.1:8108" ∈ ["10.0.0.1:8108", "10.0.0.2:8108"] ∧
    SplitHostPort "10.0.0.1:8108" = Except.ok ("10.0.0.1", "8108") ∧
    seedStored (discoverSeeds (NewPeerManager exampleConfig zeroRand)
      (Except.ok ["10.0.0.1:8108", "10.0.0.2:8108"])) "10.0.0.1" "8108" ∧
    (discoverSeeds (NewPeerManager exampleConfig zeroRand)
      (Except.ok ["10.0.0.1:8108", "10.0.0.2:8108"])).peerByHash
        = [("10.0.0.2:8108", 1), ("10.0.0.1:8108", 0)] :=
  ⟨by decide, by decide!,
   (discoverSeeds_stores_split_lines (NewPeerManager exampleConfig zeroRand)
     ["10.0.0.1:8108", "10.0.0.2:8108"] "10.0.0.1:8108" "10.0.0.1" "8108"
     (by decide) (by decide!)).1,
   by decide!⟩

/-! ## Dialling outgoing peers -/

theorem foldl_uintInc_count (pm : PeerManager) (l : List (String × Ptr)) (c : Nat) :
    l.foldl (fun count e => if !IsOffline pm e.2 then uintInc count else count) c =
      if (l.filter (fun e => !IsOffline pm e.2)).length = 0 then c
      else (c + (l.filter (fun e => !IsOffline pm e.2)).length) % 18446744073709551616 := by
  induction l generalizing c with
  | nil => simp
  | cons e rest ih =>
    rw [List.foldl_cons, ih, List.filter_cons]
    by_cases he : (!IsOffline pm e.2) = true
    · simp only [he, if_true, List.length_cons]
      unfold uintInc
      split
      · rename_i h0
        rw [h0]
        simp
      · simp only [Nat.succ_ne_zero, if_false]
        omega
    · simp only [he, if_false]
      simp

theorem dialCount_eq (pm : PeerManager) (hsize : pm.peerByHash.length < 9223372036854775808) :
    dialCount pm = countNotOffline pm := by
  unfold dialCount countNotOffline
  rw [foldl_uintInc_count]
  have hle : (pm.peerByHash.filter (fun e => !IsOffline pm e.2)).length ≤ pm.peerByHash.length :=
    List.length_filter_le _ _
  split
  · rename_i h0
    rw [h0]
  · omega

theorem uintToInt_uintSub_of_le (a b : Nat) (hb : b < 9223372036854775808) (h : a ≤ b) :
    uintToInt (uintSub a b) = (a : Int) - (b : Int) := by
  unfold uintToInt uintSub
  split <;> omega

theorem uintSub_of_lt (a b : Nat) (hb : b < 18446744073709551616) (h : a < b) :
    uintSub a b = 18446744073709551616 - (b - a) := by
  unfold uintSub
  omega

theorem foldl_StartToDial_fields (peers : List Ptr) (pm : PeerManager) :
    (peers.foldl StartToDial pm).config = pm.config ∧
    (peers.foldl StartToDial pm).sent = pm.sent ∧
    (peers.foldl StartToDial pm).peerByHash = pm.peerByHash ∧
    (peers.foldl StartToDial pm).dialed = pm.dialed ++ peers := by
  induction peers generalizing pm with
  | nil => simp
  | cons p rest ih =>
    rw [List.foldl_cons]
    obtain ⟨h1, h2, h3, h4⟩ := ih (StartToDial pm p)
    have hs : (StartToDial pm p).config = pm.config ∧ (StartToDial pm p).sent = pm.sent ∧
        (StartToDial pm p).peerByHash = pm.peerByHash ∧
        (StartToDial pm p).dialed = pm.dialed ++ [p] := by
      unfold StartToDial PeerManager.modifyPeer
      dsimp only
      split <;> exact ⟨rfl, rfl, rfl, rfl⟩
    rw [h1, h2, h3, h4, hs.1, hs.2.1, hs.2.2.1, hs.2.2.2]
    simp

theorem managePeersDialOutgoing_fields (pm pm1 : PeerManager)
    (h : managePeersDialOutgoing pm = .ok pm1) :
    pm1.config = pm.config ∧ pm1.sent = pm.sent ∧ pm1.peerByHash = pm.peerByHash := by
  unfold managePeersDialOutgoing at h
  dsimp only at h
  split at h
  · cases hsel : getOutgoingSelection pm (filteredOutgoing pm)
        (uintToInt (uintSub pm.config.Outgoing (dialCount pm))) with
    | error e =>
      rw [hsel] at h
      cases h
    | ok r =>
      rw [hsel] at h
      obtain ⟨peers, rng⟩ := r
      simp only [bind, Except.bind, pure, Except.pure, Except.ok.injEq] at h
      rw [← h]
      obtain ⟨h1, h2, h3, _⟩ := foldl_StartToDial_fields peers { pm with rng := rng }
      exact ⟨h1, h2, h3⟩
  · simp only [pure, Except.pure, Except.ok.injEq] at h
    rw [← h]
    exact ⟨rfl, rfl, rfl⟩

/-- C28. For every store with fewer than `2^63` peers (a Go map cannot hold
more) and every configuration, when the number of peers that are not `Offline`
is at least `config.Outgoing`, the conversion to `int` of the unsigned
difference `config.Outgoing - count` is not positive (the difference itself
wraps to `2^64 - (count - config.Outgoing)` when the count is larger), and
`managePeersDialOutgoing` returns with the manager as it was: `StartToDial` is
called on no peer. -/
theorem managePeersDialOutgoing_no_dial (pm : PeerManager)
    (hsize : pm.peerByHash.length < 9223372036854775808)
    (h : pm.config.Outgoing ≤ countNotOffline pm) :
    uintToInt (uintSub pm.config.Outgoing (dialCount pm)) ≤ 0 ∧
    (pm.config.Outgoing < countNotOffline pm →
      uintSub pm.config.Outgoing (dialCount pm)
        = 18446744073709551616 - (countNotOffline pm - pm.config.Outgoing)) ∧
    managePeersDialOutgoing pm = .ok pm ∧
    (∀ pm1, managePeersDialOutgoing pm = .ok pm1 → pm1.dialed = pm.dialed) := by
  have hcount := dialCount_eq pm hsize
  have hle : countNotOffline pm ≤ pm.peerByHash.length := by
    unfold countNotOffline
    exact List.length_filter_le _ _
  have hwant : uintToInt (uintSub pm.config.Outgoing (dialCount pm)) ≤ 0 := by
    rw [hcount, uintToInt_uintSub_of_le _ _ (by omega) h]
    omega
  have hret : managePeersDialOutgoing pm = .ok pm := by
    unfold managePeersDialOutgoing
    dsimp only
    rw [if_neg (by omega)]
    rfl
  refine ⟨hwant, ?_, hret, ?_⟩
  · intro hlt
    rw [hcount]
    exact uintSub_of_lt _ _ (by omega) hlt
  · intro pm1 h1
    rw [hret] at h1
    simp only [Except.ok.injEq] at h1
    rw [← h1]

theorem managePeersDialOutgoing_no_dial_witness :
    threeOnlineWantTwo.peerByHash.length < 9223372036854775808 ∧
    threeOnlineWantTwo.config.Outgoing ≤ countNotOffline threeOnlineWantTwo ∧
    uintSub threeOnlineWantTwo.config.Outgoing (dialCount threeOnlineWantTwo)
      = 18446744073709551615 ∧
    uintToInt (uintSub threeOnlineWantTwo.config.Outgoing (dialCount threeOnlineWantTwo)) ≤ 0 ∧
    managePeersDialOutgoing threeOnlineWantTwo = .ok threeOnlineWantTwo :=
  ⟨by decide!, by decide!, by decide!,
   (managePeersDialOutgoing_no_dial threeOnlineWantTwo (by decide!) (by decide!)).1,
   (managePeersDialOutgoing_no_dial threeOnlineWantTwo (by decide!) (by decide!)).2.2.1⟩

/-- With one peer of three connected and eight wanted, the two `Offline` peers
that can be dialled are dialled. -/
theorem managePeersDialOutgoing_dials :
    (managePeersDialOutgoing threePeers).map (fun pm => pm.dialed) = .ok [2, 1] ∧
    (managePeersDialOutgoing threePeers).map (fun pm => (pm.heap 1).state)
      = .ok PeerState.Connecting := by
  decide!

/-! ## The peer loop: requests and responses -/

theorem managePeersPeer_spec (now : Int) (pm : PeerManager) (p : Ptr) :
    (managePeersPeer now pm p).config = pm.config ∧
    (managePeersPeer now pm p).peerByHash = pm.peerByHash ∧
    (∀ q, ((managePeersPeer now pm p).heap q).lastPeerRequest = (pm.heap q).lastPeerRequest ∨
      (q = p ∧ ((managePeersPeer now pm p).heap q).lastPeerRequest = now)) ∧
    ∃ extra, (managePeersPeer now pm p).sent = pm.sent ++ extra ∧
      ∀ q parcel, (q, parcel) ∈ extra → parcel.Header.Type' = ParcelType.TypePeerRequest →
        q = p ∧ ((managePeersPeer now pm p).heap q).lastPeerRequest = now := by
  unfold managePeersPeer
  split
  · dsimp only
    by_cases hreq : timeSince now (pm.heap p).lastPeerRequest > pm.config.PeerRequestInterval
    · simp only [hreq, if_true]
      split
      · refine ⟨rfl, rfl, ?_, ?_⟩
        · intro q
          by_cases hq : q = p
          · right
            simp [Send, PeerManager.modifyPeer, hq]
          · left
            simp [Send, PeerManager.modifyPeer, hq]
        · refine ⟨[(p, CreateParcel (pm.modifyPeer p (fun q => { q with lastPeerRequest := now }))
              ParcelType.TypePeerRequest (asciiBytes "Peer Request")),
            (p, CreateParcel (Send (pm.modifyPeer p (fun q => { q with lastPeerRequest := now })) p
              (CreateParcel (pm.modifyPeer p (fun q => { q with lastPeerRequest := now }))
                ParcelType.TypePeerRequest (asciiBytes "Peer Request")))
              ParcelType.TypePing (asciiBytes "Ping"))], ?_, ?_⟩
          · simp [Send, PeerManager.modifyPeer]
          · intro q parcel hmem _
            simp only [List.mem_cons, Prod.mk.injEq, List.mem_singleton, List.not_mem_nil,
              or_false] at hmem
            have hq : q = p := by
              rcases hmem with h | h <;> exact h.1
            exact ⟨hq, by simp [Send, PeerManager.modifyPeer, hq]⟩
      · refine ⟨rfl, rfl, ?_, ?_⟩
        · intro q
          by_cases hq : q = p
          · right
            simp [Send, PeerManager.modifyPeer, hq]
          · left
            simp [Send, PeerManager.modifyPeer, hq]
        · refine ⟨[(p, CreateParcel (pm.modifyPeer p (fun q => { q with lastPeerRequest := now }))
              ParcelType.TypePeerRequest (asciiBytes "Peer Request"))], ?_, ?_⟩
          · simp [Send, PeerManager.modifyPeer]
          · intro q parcel hmem _
            simp only [List.mem_singleton, Prod.mk.injEq] at hmem
            exact ⟨hmem.1, by simp [Send, PeerManager.modifyPeer, hmem.1]⟩
    · simp only [hreq, if_false]
      split
      · refine ⟨rfl, rfl, fun q => Or.inl rfl, ?_⟩
        refine ⟨[(p, CreateParcel pm ParcelType.TypePing (asciiBytes "Ping"))], rfl, ?_⟩
        intro q parcel hmem htype
        simp only [List.mem_singleton, Prod.mk.injEq] at hmem
        rw [hmem.2] at htype
        simp [CreateParcel] at htype
      · exact ⟨rfl, rfl, fun q => Or.inl rfl, [], by simp, by simp⟩
  · exact ⟨rfl, rfl, fun q => Or.inl rfl, [], by simp, by simp⟩

theorem managePeersLoop_spec (now : Int) (l : List (String × Ptr)) (pm : PeerManager) :
    (l.foldl (fun pm e => managePeersPeer now pm e.2) pm).config = pm.config ∧
    (l.foldl (fun pm e => managePeersPeer now pm e.2) pm).peerByHash = pm.peerByHash ∧
    (∀ q, (pm.heap q).lastPeerRequest = now →
      ((l.foldl (fun pm e => managePeersPeer now pm e.2) pm).heap q).lastPeerRequest = now) ∧
    ∃ extra, (l.foldl (fun pm e => managePeersPeer now pm e.2) pm).sent = pm.sent ++ extra ∧
      ∀ q parcel, (q, parcel) ∈ extra → parcel.Header.Type' = ParcelType.TypePeerRequest →
        ((l.foldl (fun pm e => managePeersPeer now pm e.2) pm).heap q).lastPeerRequest = now := by
  induction l generalizing pm with
  | nil => exact ⟨rfl, rfl, fun q h => h, [], by simp, by simp⟩
  | cons e rest ih =>
    rw [List.foldl_cons]
    obtain ⟨h1, h2, h3, extra1, h4, h5⟩ := managePeersPeer_spec now pm e.2
    obtain ⟨i1, i2, i3, extra2, i4, i5⟩ := ih (managePeersPeer now pm e.2)
    refine ⟨i1.trans h1, i2.trans h2, ?_, extra1 ++ extra2, ?_, ?_⟩
    · intro q hq
      apply i3
      rcases h3 q with h | h
      · rw [h]; exact hq
      · exact h.2
    · rw [i4, h4, List.append_assoc]
    · intro q parcel hmem htype
      rcases List.mem_append.mp hmem with hm | hm
      · exact i3 q (h5 q parcel hm htype).2
      · exact i5 q parcel hm htype

theorem managePeersStep_spec (pm pm1 : PeerManager) (now : Int)
    (h : managePeersStep pm now = .ok pm1) :
    pm1.config = pm.config ∧ pm1.peerByHash = pm.peerByHash ∧
    ∃ extra, pm1.sent = pm.sent ++ extra ∧
      ∀ q parcel, (q, parcel) ∈ extra → parcel.Header.Type' = ParcelType.TypePeerRequest →
        (pm1.heap q).lastPeerRequest = now := by
  unfold managePeersStep at h
  have key : ∀ pmd : PeerManager, pmd.config = pm.config → pmd.sent = pm.sent →
      pmd.peerByHash = pm.peerByHash →
      pm1 = pmd.peerByHash.foldl (fun pm e => managePeersPeer now pm e.2) pmd →
      pm1.config = pm.config ∧ pm1.peerByHash = pm.peerByHash ∧
      ∃ extra, pm1.sent = pm.sent ++ extra ∧
        ∀ q parcel, (q, parcel) ∈ extra → parcel.Header.Type' = ParcelType.TypePeerRequest →
          (pm1.heap q).lastPeerRequest = now := by
    intro pmd hc hs hp h1
    obtain ⟨i1, i2, _, extra, i4, i5⟩ := managePeersLoop_spec now pmd.peerByHash pmd
    rw [h1]
    exact ⟨i1.trans hc, i2.trans hp, extra, by rw [i4, hs], i5⟩
  split at h
  · cases hd : managePeersDialOutgoing { pm with lastPeerDial := now } with
    | error e =>
      rw [hd] at h
      cases h
    | ok pmd =>
      rw [hd] at h
      simp only [bind, Except.bind, pure, Except.pure, Except.ok.injEq] at h
      obtain ⟨hc, hs, hp⟩ := managePeersDialOutgoing_fields _ pmd hd
      exact key pmd hc hs hp h.symm
  · simp only [bind, Except.bind, pure, Except.pure, Except.ok.injEq] at h
    exact key pm rfl rfl rfl h.symm

theorem manageDataStep_lastPeerRequest (pm : PeerManager) (data : PeerParcel) (now : Int)
    (peer : Ptr) :
    ((manageDataStep pm data now).heap peer).lastPeerRequest = (pm.heap peer).lastPeerRequest ∨
    ((manageDataStep pm data now).heap peer).lastPeerRequest = now := by
  unfold manageDataStep banPeer removePeer GoOffline PeerManager.modifyPeer BlockFreeChannelSend
  dsimp only
  split
  · split <;> (dsimp only; split <;> simp)
  · split <;> (try split) <;> (try dsimp only) <;> (try split) <;> simp

theorem manageData_lastPeerRequest (items : List (PeerParcel × Int)) (pm : PeerManager)
    (peer : Ptr) (t : Int) (h : t ≤ (pm.heap peer).lastPeerRequest)
    (hitems : ∀ item ∈ items, t ≤ item.2) :
    t ≤ ((manageData pm items).heap peer).lastPeerRequest := by
  induction items generalizing pm with
  | nil => exact h
  | cons item rest ih =>
    unfold manageData
    rw [List.foldl_cons]
    apply ih
    · rcases manageDataStep_lastPeerRequest pm item.1 item.2 peer with e | e
      · rw [e]; exact h
      · rw [e]; exact hitems item (List.mem_cons_self _ _)
    · intro it hit
      exact hitems it (List.mem_cons_of_mem _ hit)

theorem manageDataStep_response_early (pm : PeerManager) (peer : Ptr) (response : Parcel)
    (now : Int) (hnet : response.Header.Network = pm.config.Network)
    (htype : response.Header.Type' = ParcelType.TypePeerResponse)
    (hearly : timeSince now (pm.heap peer).lastPeerRequest < pm.config.PeerRequestInterval) :
    manageDataStep pm ⟨peer, response⟩ now = pm := by
  unfold manageDataStep
  simp only [hnet, ne_eq, not_true_eq_false, if_false, htype]
  rw [if_neg (by omega)]

/-- C29. If an iteration of `managePeers` at time `t` hands a `PeerRequest` for
the peer to `Send`, the peer's `lastPeerRequest` is `t` afterwards; and a
`PeerResponse` of the node's own network from that peer that `manageData`
handles at a time `t'` with `t <= t'` and `t' - t < PeerRequestInterval` (after
any items handled in between, none before `t`) leaves the manager as it was:
`processPeers` is not started and the peer store is unchanged. -/
theorem manageData_drops_response_after_request (pm pm1 : PeerManager) (peer : Ptr)
    (request response : Parcel) (between : List (PeerParcel × Int)) (t t' : Int)
    (hstep : managePeersStep pm t = .ok pm1)
    (hsent : (peer, request) ∈ pm1.sent.drop pm.sent.length)
    (hrequest : request.Header.Type' = ParcelType.TypePeerRequest)
    (hnet : response.Header.Network = pm.config.Network)
    (htype : response.Header.Type' = ParcelType.TypePeerResponse)
    (hbetween : ∀ item ∈ between, t ≤ item.2)
    (horder : t ≤ t') (hclose : t' - t < pm.config.PeerRequestInterval) :
    (pm1.heap peer).lastPeerRequest = t ∧
    manageDataStep (manageData pm1 between) ⟨peer, response⟩ t' = manageData pm1 between ∧
    (manageDataStep (manageData pm1 between) ⟨peer, response⟩ t').goroutines
      = (manageData pm1 between).goroutines ∧
    (manageDataStep (manageData pm1 between) ⟨peer, response⟩ t').peerByHash
      = (manageData pm1 between).peerByHash ∧
    (manageDataStep (manageData pm1 between) ⟨peer, response⟩ t').peerByIP
      = (manageData pm1 between).peerByIP ∧
    (manageDataStep (manageData pm1 between) ⟨peer, response⟩ t').nextPtr
      = (manageData pm1 between).nextPtr := by
  obtain ⟨hcfg1, _, extra, hextra, hreq⟩ := managePeersStep_spec pm pm1 t hstep
  have hmem : (peer, request) ∈ extra := by
    rw [hextra, List.drop_left] at hsent
    exact hsent
  have hlast : (pm1.heap peer).lastPeerRequest = t := hreq peer request hmem hrequest
  have hcfg : (manageData pm1 between).config = pm.config :=
    (manageData_config _ _).trans hcfg1
  have hlow := manageData_lastPeerRequest between pm1 peer t (by rw [hlast]) hbetween
  have hsame : manageDataStep (manageData pm1 between) ⟨peer, response⟩ t'
      = manageData pm1 between := by
    apply manageDataStep_response_early _ _ _ _ (by rw [hcfg]; exact hnet) htype
    rw [hcfg]
    exact timeSince_lt _ _ _ (by omega) (by omega)
  exact ⟨hlast, hsame, by rw [hsame], by rw [hsame], by rw [hsame], by rw [hsame]⟩

theorem except_eq_ok_of_toBool {ε α : Type} (x : Except ε α) (d : α) (h : x.toBool = true) :
    x = .ok (match x with
      | .ok v => v
      | .error _ => d) := by
  cases x with
  | ok v => rfl
  | error e => simp [Except.toBool] at h

theorem manageData_drops_response_after_request_witness :
    (0, CreateParcel onlineSeed ParcelType.TypePeerRequest (asciiBytes "Peer Request"))
      ∈ afterRequest.sent.drop onlineSeed.sent.length ∧
    ((5500000000 : Int) - 5000000000 < onlineSeed.config.PeerRequestInterval) ∧
    (afterRequest.heap 0).lastPeerRequest = 5000000000 ∧
    (manageDataStep (manageData afterRequest [])
        ⟨0, exampleParcel 1 ParcelType.TypePeerResponse⟩ 5500000000).goroutines
      = (manageData afterRequest []).goroutines :=
  ⟨by decide!, by decide,
   (manageData_drops_response_after_request onlineSeed afterRequest 0
     (CreateParcel onlineSeed ParcelType.TypePeerRequest (asciiBytes "Peer Request"))
     (exampleParcel 1 ParcelType.TypePeerResponse) [] 5000000000 5500000000
     (except_eq_ok_of_toBool (managePeersStep onlineSeed 5000000000) onlineSeed (by decide!)) (by decide!) (by decide) (by decide) (by decide)
     (by intro item h; cases h) (by decide) (by decide)).1,
   (manageData_drops_response_after_request onlineSeed afterRequest 0
     (CreateParcel onlineSeed ParcelType.TypePeerRequest (asciiBytes "Peer Request"))
     (exampleParcel 1 ParcelType.TypePeerResponse) [] 5000000000 5500000000
     (except_eq_ok_of_toBool (managePeersStep onlineSeed 5000000000) onlineSeed (by decide!)) (by decide!) (by decide) (by decide) (by decide)
     (by intro item h; cases h) (by decide) (by decide)).2.2.1⟩

/-! ## Outgoing selection: buckets and the pick loop -/

theorem flatten_of_getElem? (buckets : List (List Ptr)) (i : Nat) (b : List Ptr)
    (h : buckets[i]? = some b) :
    buckets.flatten = (buckets.take i).flatten ++ b ++ (buckets.drop (i + 1)).flatten := by
  obtain ⟨hi, hb⟩ := List.getElem?_eq_some_iff.mp h
  conv_lhs => rw [← List.take_append_drop i buckets, List.drop_eq_getElem_cons hi, hb]
  rw [List.flatten_append, List.flatten_cons, List.append_assoc]

theorem flatten_set (buckets : List (List Ptr)) (i : Nat) (b b' : List Ptr)
    (h : buckets[i]? = some b) :
    (buckets.set i b').flatten
      = (buckets.take i).flatten ++ b' ++ (buckets.drop (i + 1)).flatten := by
  obtain ⟨hi, _⟩ := List.getElem?_eq_some_iff.mp h
  rw [List.set_eq_take_append_cons_drop, if_pos hi, List.flatten_append, List.flatten_cons,
    List.append_assoc]

theorem count_flatten_set (buckets : List (List Ptr)) (i : Nat) (b b' : List Ptr) (x : Ptr)
    (h : buckets[i]? = some b) :
    (buckets.set i b').flatten.count x + b.count x = buckets.flatten.count x + b'.count x := by
  rw [flatten_set buckets i b b' h, flatten_of_getElem? buckets i b h]
  simp only [List.count_append]
  omega

theorem distribute_spec (heap : Ptr → Peer) (bs : Nat) (l : List Ptr)
    (buckets buckets' : List (List Ptr))
    (h : distribute heap bs l buckets = .ok buckets') :
    buckets'.length = buckets.length ∧
    buckets'.flatten.Perm (buckets.flatten ++ l) ∧
    ((∀ j bucket, buckets[j]? = some bucket → ∀ p ∈ bucket, bucketOf heap bs p = j) →
      ∀ j bucket, buckets'[j]? = some bucket → ∀ p ∈ bucket, bucketOf heap bs p = j) := by
  induction l generalizing buckets with
  | nil =>
    unfold distribute at h
    simp only [Except.ok.injEq] at h
    rw [← h]
    exact ⟨rfl, by simp, fun hh => hh⟩
  | cons peer rest ih =>
    unfold distribute at h
    split at h
    · cases h
    · dsimp only at h
      split at h
      · cases h
      · rename_i bucket hb
        obtain ⟨h1, h2, h3⟩ := ih _ h
        refine ⟨by rw [h1, List.length_set], ?_, ?_⟩
        · refine h2.trans ?_
          rw [List.perm_iff_count]
          intro x
          have hc := count_flatten_set buckets _ bucket (bucket ++ [peer]) x hb
          simp only [List.count_append] at hc ⊢
          simp only [List.count_cons, List.count_nil] at hc ⊢
          omega
        · intro hhome
          apply h3
          intro j bucket' hj p hp
          rw [List.getElem?_set] at hj
          split at hj
          · rename_i hij
            split at hj
            · simp only [Option.some.injEq] at hj
              rw [← hj] at hp
              rcases List.mem_append.mp hp with hp | hp
              · rw [← hij]
                exact hhome _ bucket hb p hp
              · rw [List.mem_singleton] at hp
                rw [hp, ← hij]
                rfl
            · cases hj
          · exact hhome j bucket' hj p hp

theorem distribute_total (heap : Ptr → Peer) (bs : Nat) (hbs : bs ≠ 0) (l : List Ptr)
    (buckets : List (List Ptr)) (hidx : ∀ p ∈ l, bucketOf heap bs p < buckets.length) :
    ∃ buckets', distribute heap bs l buckets = .ok buckets' := by
  induction l generalizing buckets with
  | nil => exact ⟨buckets, rfl⟩
  | cons peer rest ih =>
    unfold distribute
    rw [if_neg hbs]
    dsimp only
    have hp : (heap peer).Location % 4294967296 / bs < buckets.length :=
      hidx peer (List.mem_cons_self _ _)
    rw [List.getElem?_eq_getElem hp]
    dsimp only
    apply ih
    intro q hq
    rw [List.length_set]
    exact hidx q (List.mem_cons_of_mem _ hq)

theorem pick_perm (bucket : List Ptr) (pi : Nat) (chosen last : Ptr)
    (hc : bucket[pi]? = some chosen) (hl : bucket[bucket.length - 1]? = some last) :
    (chosen :: (bucket.set pi last).take (bucket.length - 1)).Perm bucket := by
  obtain ⟨hpi, hchosen⟩ := List.getElem?_eq_some_iff.mp hc
  obtain ⟨hm, hlast⟩ := List.getElem?_eq_some_iff.mp hl
  have hlen : (bucket.set pi last).length = bucket.length := List.length_set _ _ _
  have hm' : bucket.length - 1 < (bucket.set pi last).length := by rw [hlen]; exact hm
  have hsm : (bucket.set pi last)[bucket.length - 1] = last := by
    rw [List.getElem_set]
    split
    · rfl
    · exact hlast
  have hs : bucket.set pi last = (bucket.set pi last).take (bucket.length - 1) ++ [last] := by
    conv_lhs => rw [← List.take_append_drop (bucket.length - 1) (bucket.set pi last),
      List.drop_eq_getElem_cons hm', hsm]
    rw [List.drop_of_length_le (by rw [hlen]; omega)]
  rw [List.perm_iff_count]
  intro x
  have h1 := congrArg (List.count x) hs
  rw [List.count_set _ _ _ _ hpi, List.count_append, List.count_singleton, hchosen] at h1
  rw [List.count_cons]
  have hle : (if (chosen == x) = true then 1 else 0) ≤ bucket.count x := by
    split
    · rename_i h
      have : chosen = x := by simpa using h
      rw [← this, ← hchosen]
      exact List.count_pos_iff.mpr (List.getElem_mem hpi)
    · exact Nat.zero_le _
  omega

theorem pickFrom_eq (offset i : Nat) (buckets : List (List Ptr)) (picked : List Ptr) (rng : Rand)
    (hn : 0 < buckets.length) :
    ∃ bucket, buckets[(i + offset) % buckets.length]? = some bucket ∧
      ((bucket = [] ∧ pickFrom offset (buckets, picked, rng) i = .ok (buckets, picked, rng)) ∨
       (∃ pi chosen last, bucket[pi]? = some chosen ∧ bucket[bucket.length - 1]? = some last ∧
          pickFrom offset (buckets, picked, rng) i =
            .ok (buckets.set ((i + offset) % buckets.length)
                  ((bucket.set pi last).take (bucket.length - 1)),
                picked ++ [chosen], { rng with pos := rng.pos + 1 }))) := by
  have hbi : (i + offset) % buckets.length < buckets.length := Nat.mod_lt _ hn
  refine ⟨buckets[(i + offset) % buckets.length], List.getElem?_eq_getElem hbi, ?_⟩
  unfold pickFrom
  dsimp only
  rw [List.getElem?_eq_getElem hbi]
  dsimp only
  generalize buckets[(i + offset) % buckets.length] = bucket
  by_cases hlen : bucket.length > 0
  · right
    rw [if_pos hlen]
    have hpi : rng.src rng.pos % bucket.length < bucket.length := Nat.mod_lt _ hlen
    refine ⟨rng.src rng.pos % bucket.length, bucket[rng.src rng.pos % bucket.length],
      bucket[bucket.length - 1], List.getElem?_eq_getElem hpi,
      List.getElem?_eq_getElem (by omega), ?_⟩
    unfold Rand.Intn
    rw [if_neg (by omega)]
    simp only [bind, Except.bind, Int.toNat_ofNat]
    rw [List.getElem?_eq_getElem hpi, List.getElem?_eq_getElem (by omega)]
    dsimp only
    rw [List.length_set]
    rfl
  · left
    rw [if_neg hlen]
    refine ⟨?_, rfl⟩
    apply List.eq_nil_of_length_eq_zero
    omega

theorem pickFrom_spec (heap : Ptr → Peer) (bs : Nat) (filtered : List Ptr) (offset i : Nat)
    (buckets : List (List Ptr)) (picked : List Ptr) (rng : Rand)
    (hn : 0 < buckets.length) (hinv : PickInv heap bs filtered (buckets, picked, rng)) :
    ∃ buckets' picked' rng',
      pickFrom offset (buckets, picked, rng) i = .ok (buckets', picked', rng') ∧
      buckets'.length = buckets.length ∧
      PickInv heap bs filtered (buckets', picked', rng') ∧
      (∃ extra, picked' = picked ++ extra) ∧
      ((buckets' = buckets ∧ picked' = picked) ∨ picked'.length = picked.length + 1) ∧
      (buckets[(i + offset) % buckets.length]? ≠ some [] →
        picked'.length = picked.length + 1 ∧
        ∃ q ∈ picked', bucketOf heap bs q = (i + offset) % buckets.length) := by
  obtain ⟨bucket, hb, h⟩ := pickFrom_eq offset i buckets picked rng hn
  rcases h with ⟨hnil, heq⟩ | ⟨pi, chosen, last, hc, hl, heq⟩
  · refine ⟨buckets, picked, rng, heq, rfl, hinv, ⟨[], by simp⟩, Or.inl ⟨rfl, rfl⟩, ?_⟩
    intro hne
    rw [hb, hnil] at hne
    exact absurd rfl hne
  · have hperm := pick_perm bucket pi chosen last hc hl
    have hmem : chosen ∈ bucket := by
      obtain ⟨hpi, hch⟩ := List.getElem?_eq_some_iff.mp hc
      rw [← hch]
      exact List.getElem_mem hpi
    have hhome : bucketOf heap bs chosen = (i + offset) % buckets.length :=
      hinv.home _ bucket hb chosen hmem
    refine ⟨_, _, _, heq, List.length_set _ _ _, ⟨?_, ?_⟩, ⟨[chosen], rfl⟩,
      Or.inr (by simp), fun _ => ⟨by simp, chosen, by simp, hhome⟩⟩
    · refine List.Perm.trans ?_ hinv.perm
      rw [List.perm_iff_count]
      intro x
      have h1 := count_flatten_set buckets _ bucket
        ((bucket.set pi last).take (bucket.length - 1)) x hb
      have h2 := hperm.count_eq x
      rw [List.count_cons] at h2
      simp only [List.count_append, List.count_cons, List.count_nil] at h1 ⊢
      omega
    · intro j bucket' hj p hp
      dsimp only at hj
      rw [List.getElem?_set] at hj
      split at hj
      · rename_i hij
        split at hj
        · simp only [Option.some.injEq] at hj
          rw [← hj] at hp
          have hp' : p ∈ bucket := hperm.subset (List.mem_cons_of_mem _ hp)
          rw [← hij]
          exact hinv.home _ bucket hb p hp'
        · cases hj
      · exact hinv.home j bucket' hj p hp

theorem pickSteps_spec (heap : Ptr → Peer) (bs : Nat) (filtered : List Ptr) (offset : Nat)
    (steps : List Nat) (buckets : List (List Ptr)) (picked : List Ptr) (rng : Rand)
    (hn : 0 < buckets.length) (hinv : PickInv heap bs filtered (buckets, picked, rng)) :
    ∃ buckets' picked' rng',
      steps.foldlM (pickFrom offset) (buckets, picked, rng) = .ok (buckets', picked', rng') ∧
      buckets'.length = buckets.length ∧
      PickInv heap bs filtered (buckets', picked', rng') ∧
      (∃ extra, picked' = picked ++ extra) ∧
      ((buckets' = buckets ∧ picked' = picked) ∨ picked.length < picked'.length) ∧
      (∀ i ∈ steps, buckets[(i + offset) % buckets.length]? ≠ some [] →
        picked.length < picked'.length) ∧
      (∀ i ∈ steps, ∀ p ∈ filtered, bucketOf heap bs p = (i + offset) % buckets.length →
        ∃ q ∈ picked', bucketOf heap bs q = (i + offset) % buckets.length) := by
  induction steps generalizing buckets picked rng with
  | nil =>
    exact ⟨buckets, picked, rng, rfl, rfl, hinv, ⟨[], by simp⟩, Or.inl ⟨rfl, rfl⟩,
      by simp, by simp⟩
  | cons i rest ih =>
    obtain ⟨b1, p1, r1, h1, hl1, hinv1, ⟨e1, he1⟩, hd1, hne1⟩ :=
      pickFrom_spec heap bs filtered offset i buckets picked rng hn hinv
    obtain ⟨b2, p2, r2, h2, hl2, hinv2, ⟨e2, he2⟩, hd2, hprog2, hcov2⟩ :=
      ih b1 p1 r1 (by rw [hl1]; exact hn) hinv1
    have hlen12 : p1.length ≤ p2.length := by rw [he2]; simp
    have hlen01 : picked.length ≤ p1.length := by rw [he1]; simp
    refine ⟨b2, p2, r2, ?_, hl2.trans hl1, hinv2, ⟨e1 ++ e2, by rw [he2, he1, List.append_assoc]⟩,
      ?_, ?_, ?_⟩
    · rw [List.foldlM_cons, h1]
      exact h2
    · rcases hd1 with ⟨hb, hp⟩ | hlt
      · rcases hd2 with ⟨hb', hp'⟩ | hlt'
        · exact Or.inl ⟨hb'.trans hb, hp'.trans hp⟩
        · right
          rw [← hp]
          exact hlt'
      · right
        omega
    · intro j hj hne
      rcases List.mem_cons.mp hj with hji | hjr
      · rw [hji] at hne
        have := (hne1 hne).1
        omega
      · rcases hd1 with ⟨hb, hp⟩ | hlt
        · rw [← hp]
          apply hprog2 j hjr
          rw [hb]
          exact hne
        · omega
    · intro j hj p hp hbp
      rcases List.mem_cons.mp hj with hji | hjr
      · rw [hji] at hbp ⊢
        have hpm : p ∈ picked ++ buckets.flatten := hinv.perm.symm.subset hp
        rcases List.mem_append.mp hpm with hpp | hpb
        · exact ⟨p, by rw [he2, he1]; simp [hpp], hbp⟩
        · obtain ⟨bucket, hbucket, hpin⟩ := List.mem_flatten.mp hpb
          obtain ⟨k, hk⟩ := List.mem_iff_getElem?.mp hbucket
          have hkeq : bucketOf heap bs p = k := hinv.home k bucket hk p hpin
          have hne : buckets[(i + offset) % buckets.length]? ≠ some [] := by
            rw [← hbp, hkeq, hk]
            intro h0
            simp only [Option.some.injEq] at h0
            rw [h0] at hpin
            cases hpin
          obtain ⟨_, q, hq, hbq⟩ := hne1 hne
          exact ⟨q, by rw [he2]; exact List.mem_append_left _ hq, hbq⟩
      · have := hcov2 j hjr p hp (by rw [hl1]; exact hbp)
        rw [hl1] at this
        exact this

theorem rotation_visits (n offset j : Nat) (ho : offset < n) (hj : j < n) :
    ∃ i, i < n ∧ (i + offset) % n = j := by
  by_cases h : offset ≤ j
  · exact ⟨j - offset, by omega, by rw [Nat.sub_add_cancel h]; exact Nat.mod_eq_of_lt hj⟩
  · refine ⟨j + n - offset, by omega, ?_⟩
    have h1 : j + n - offset + offset = j + n := by omega
    rw [h1, Nat.add_mod_right]
    exact Nat.mod_eq_of_lt hj

theorem pickInv_rng (heap : Ptr → Peer) (bs : Nat) (filtered : List Ptr)
    (buckets : List (List Ptr)) (picked : List Ptr) (rng rng' : Rand)
    (hinv : PickInv heap bs filtered (buckets, picked, rng)) :
    PickInv heap bs filtered (buckets, picked, rng') :=
  ⟨hinv.perm, hinv.home⟩

theorem pickInv_index (heap : Ptr → Peer) (bs : Nat) (filtered : List Ptr)
    (buckets : List (List Ptr)) (picked : List Ptr) (rng : Rand)
    (hinv : PickInv heap bs filtered (buckets, picked, rng)) (p : Ptr) (hp : p ∈ filtered) :
    p ∈ picked ∨
    (bucketOf heap bs p < buckets.length ∧ buckets[bucketOf heap bs p]? ≠ some []) := by
  have hpm : p ∈ picked ++ buckets.flatten := hinv.perm.symm.subset hp
  rcases List.mem_append.mp hpm with hpp | hpb
  · exact Or.inl hpp
  · right
    obtain ⟨bucket, hbucket, hpin⟩ := List.mem_flatten.mp hpb
    obtain ⟨k, hk⟩ := List.mem_iff_getElem?.mp hbucket
    have hkeq : bucketOf heap bs p = k := hinv.home k bucket hk p hpin
    obtain ⟨hlt, _⟩ := List.getElem?_eq_some_iff.mp hk
    rw [hkeq]
    refine ⟨hlt, ?_⟩
    rw [hk]
    intro h0
    simp only [Option.some.injEq] at h0
    rw [h0] at hpin
    cases hpin

theorem pickPass_spec (heap : Ptr → Peer) (bs : Nat) (filtered : List Ptr)
    (buckets : List (List Ptr)) (picked : List Ptr) (rng : Rand)
    (hn : 0 < buckets.length) (hinv : PickInv heap bs filtered (buckets, picked, rng)) :
    ∃ buckets' picked' rng',
      pickPass (buckets, picked, rng) = .ok (buckets', picked', rng') ∧
      buckets'.length = buckets.length ∧
      PickInv heap bs filtered (buckets', picked', rng') ∧
      (∃ extra, picked' = picked ++ extra) ∧
      (picked.length < filtered.length → picked.length < picked'.length) ∧
      coversBuckets heap bs filtered picked' := by
  have ho : rng.src rng.pos % buckets.length < buckets.length := Nat.mod_lt _ hn
  obtain ⟨b1, p1, r1, h1, hl1, hinv1, ⟨e1, he1⟩, _, hprog, hcov⟩ :=
    pickSteps_spec heap bs filtered (rng.src rng.pos % buckets.length)
      (List.range buckets.length) buckets picked { rng with pos := rng.pos + 1 } hn
      (pickInv_rng heap bs filtered buckets picked rng _ hinv)
  refine ⟨b1, p1, r1, ?_, hl1, hinv1, ⟨e1, he1⟩, ?_, ?_⟩
  · unfold pickPass Rand.Intn
    dsimp only
    rw [if_neg (by omega)]
    simp only [bind, Except.bind, Int.toNat_ofNat]
    exact h1
  · intro hlt
    have hlen := hinv.perm.length_eq
    rw [List.length_append] at hlen
    have hpos : 0 < buckets.flatten.length := by
      have : (buckets, picked, rng).2.1 = picked := rfl
      have : (buckets, picked, rng).1 = buckets := rfl
      simp only [] at hlen
      omega
    obtain ⟨p, hp⟩ := List.exists_mem_of_length_pos hpos
    obtain ⟨bucket, hbucket, hpin⟩ := List.mem_flatten.mp hp
    obtain ⟨k, hk⟩ := List.mem_iff_getElem?.mp hbucket
    obtain ⟨hklt, _⟩ := List.getElem?_eq_some_iff.mp hk
    obtain ⟨i, hi, hik⟩ := rotation_visits buckets.length _ k ho hklt
    apply hprog i (List.mem_range.mpr hi)
    rw [hik, hk]
    intro h0
    simp only [Option.some.injEq] at h0
    rw [h0] at hpin
    cases hpin
  · intro p hp
    rcases pickInv_index heap bs filtered buckets picked rng hinv p hp with hpp | ⟨hlt, _⟩
    · exact ⟨p, by rw [he1]; exact List.mem_append_left _ hpp, rfl⟩
    · obtain ⟨i, hi, hik⟩ := rotation_visits buckets.length _ _ ho hlt
      obtain ⟨q, hq, hbq⟩ := hcov i (List.mem_range.mpr hi) p hp hik.symm
      exact ⟨q, hq, by rw [hbq, hik]⟩

theorem pickLoop_spec (heap : Ptr → Peer) (bs : Nat) (filtered : List Ptr) (wanted : Int)
    (hlen : wanted < filtered.length) (fuel : Nat)
    (buckets : List (List Ptr)) (picked : List Ptr) (rng : Rand)
    (hn : 0 < buckets.length) (hinv : PickInv heap bs filtered (buckets, picked, rng))
    (hfuel : wanted ≤ ((picked.length + fuel : Nat) : Int)) :
    ∃ picked' rng',
      pickLoop wanted fuel (buckets, picked, rng) = .ok (picked', rng') ∧
      picked'.Subperm filtered ∧
      wanted ≤ (picked'.length : Int) ∧
      (∃ extra, picked' = picked ++ extra) ∧
      ((picked.length : Int) < wanted → coversBuckets heap bs filtered picked') := by
  induction fuel generalizing buckets picked rng with
  | zero =>
    unfold pickLoop
    rw [if_neg (by omega)]
    refine ⟨picked, rng, rfl, ?_, by omega, ⟨[], by simp⟩, fun h => by omega⟩
    exact (List.sublist_append_left picked buckets.flatten).subperm.trans hinv.perm.subperm
  | succ fuel ih =>
    unfold pickLoop
    by_cases hlt : (picked.length : Int) < wanted
    · rw [if_pos hlt]
      obtain ⟨b1, p1, r1, h1, hl1, hinv1, ⟨e1, he1⟩, hprog, hcov⟩ :=
        pickPass_spec heap bs filtered buckets picked rng hn hinv
      have hgrow : picked.length < p1.length := hprog (by omega)
      obtain ⟨p2, r2, h2, hsub, hw, ⟨e2, he2⟩, _⟩ :=
        ih b1 p1 r1 (by rw [hl1]; exact hn) hinv1 (by omega)
      refine ⟨p2, r2, ?_, hsub, hw, ⟨e1 ++ e2, by rw [he2, he1, List.append_assoc]⟩, ?_⟩
      · simp only [bind, Except.bind, h1]
        exact h2
      · intro _ p hp
        obtain ⟨q, hq, hbq⟩ := hcov p hp
        exact ⟨q, by rw [he2]; exact List.mem_append_left _ hq, hbq⟩
    · rw [if_neg hlt]
      refine ⟨picked, rng, rfl, ?_, by omega, ⟨[], by simp⟩, fun h => absurd h hlt⟩
      exact (List.sublist_append_left picked buckets.flatten).subperm.trans hinv.perm.subperm

theorem pickInv_after_distribute (heap : Ptr → Peer) (bs n : Nat) (filtered : List Ptr)
    (buckets : List (List Ptr)) (rng : Rand)
    (hd : distribute heap bs filtered (List.replicate n []) = .ok buckets) :
    buckets.length = n ∧ PickInv heap bs filtered (buckets, [], rng) := by
  obtain ⟨h1, h2, h3⟩ := distribute_spec heap bs filtered _ buckets hd
  refine ⟨by rw [h1, List.length_replicate], ⟨?_, ?_⟩⟩
  · rw [List.flatten_replicate_nil] at h2
    simpa using h2
  · apply h3
    intro j bucket hj p hp
    rw [List.getElem?_replicate] at hj
    split at hj
    · simp only [Option.some.injEq] at hj
      rw [← hj] at hp
      cases hp
    · cases hj

theorem getOutgoingSelection_eq_pickLoop (pm : PeerManager) (filtered : List Ptr) (wanted : Int)
    (h0 : 0 ≤ wanted) (hlen : wanted < filtered.length) (bs : Nat) (buckets : List (List Ptr))
    (hbs : bucketSize wanted = .ok bs)
    (hd : distribute pm.heap bs filtered (List.replicate wanted.toNat []) = .ok buckets) :
    getOutgoingSelection pm filtered wanted = pickLoop wanted wanted.toNat (buckets, [], pm.rng) := by
  unfold getOutgoingSelection
  rw [if_neg (by omega), if_neg (by omega)]
  simp only [bind, Except.bind, hbs, hd]

theorem getOutgoingSelection_inv (pm : PeerManager) (filtered : List Ptr) (wanted : Int)
    (h0 : 0 ≤ wanted) (hlen : wanted < filtered.length) (r : List Ptr × Rand)
    (h : getOutgoingSelection pm filtered wanted = .ok r) :
    ∃ bs buckets, bucketSize wanted = .ok bs ∧
      distribute pm.heap bs filtered (List.replicate wanted.toNat []) = .ok buckets := by
  unfold getOutgoingSelection at h
  rw [if_neg (by omega), if_neg (by omega)] at h
  cases hbs : bucketSize wanted with
  | error e =>
    simp only [bind, Except.bind, hbs] at h
    cases h
  | ok bs =>
    cases hd : distribute pm.heap bs filtered (List.replicate wanted.toNat []) with
    | error e =>
      simp only [bind, Except.bind, hbs, hd] at h
      cases h
    | ok buckets => exact ⟨bs, buckets, rfl, hd⟩

theorem distribute_of_two_le (pm : PeerManager) (filtered : List Ptr) (wanted : Int)
    (h2 : 2 ≤ wanted) (h32 : wanted < 4294967296) :
    ∃ bs buckets, bucketSize wanted = .ok bs ∧
      distribute pm.heap bs filtered (List.replicate wanted.toNat []) = .ok buckets := by
  obtain ⟨hbs, hidx⟩ := bucketSize_of_two_le wanted h2 h32
  obtain ⟨buckets, hd⟩ := distribute_total pm.heap (4294967295 / wanted.toNat + 1)
    (Nat.succ_ne_zero _) filtered (List.replicate wanted.toNat []) (by
      intro p _
      rw [List.length_replicate]
      exact hidx _ (Nat.mod_lt _ (by decide)))
  exact ⟨_, buckets, hbs, hd⟩

/-- The selection for `wanted >= 2` and more than `wanted` peers, once the
peers are in their buckets: the pick loop returns within `wanted` passes, with
at least `wanted` peers, each taken from `filtered` at a position of its own,
and with a peer from the bucket of every peer of `filtered`. -/
theorem getOutgoingSelection_of_buckets (pm : PeerManager) (filtered : List Ptr) (wanted : Int)
    (h2 : 2 ≤ wanted) (hlen : wanted < filtered.length) (bs : Nat) (buckets : List (List Ptr))
    (hbs : bucketSize wanted = .ok bs)
    (hd : distribute pm.heap bs filtered (List.replicate wanted.toNat []) = .ok buckets) :
    ∃ picked rng',
      pickLoop wanted wanted.toNat (buckets, [], pm.rng) = .ok (picked, rng') ∧
      getOutgoingSelection pm filtered wanted = .ok (picked, rng') ∧
      picked.Subperm filtered ∧
      wanted ≤ (picked.length : Int) ∧
      coversBuckets pm.heap bs filtered picked := by
  obtain ⟨hl, hinv⟩ := pickInv_after_distribute pm.heap bs wanted.toNat filtered buckets pm.rng hd
  obtain ⟨picked, rng', h1, hsub, hw, _, hcov⟩ :=
    pickLoop_spec pm.heap bs filtered wanted hlen wanted.toNat buckets [] pm.rng
      (by rw [hl]; omega) hinv (by simp only [List.length_nil]; omega)
  refine ⟨picked, rng', h1, ?_, hsub, hw, hcov (by simp only [List.length_nil]; omega)⟩
  rw [getOutgoingSelection_eq_pickLoop pm filtered wanted (by omega) hlen bs buckets hbs hd]
  exact h1

/-- C25. For `wanted >= 2` and more than `wanted` peers in `filtered`, whatever
the random source: when `wanted < 2^32` the call returns; and every result the
call returns holds, for every peer `p` of `filtered`, a peer `q` with
`q.Location / bucketSize == p.Location / bucketSize`, so every non-empty bucket
is represented. -/
theorem getOutgoingSelection_covers_buckets (pm : PeerManager) (filtered : List Ptr)
    (wanted : Int) (h2 : 2 ≤ wanted) (hlen : wanted < filtered.length) :
    (wanted < 4294967296 →
      ∃ picked rng', getOutgoingSelection pm filtered wanted = .ok (picked, rng')) ∧
    (∀ picked rng', getOutgoingSelection pm filtered wanted = .ok (picked, rng') →
      ∃ bs, bucketSize wanted = .ok bs ∧
        ∀ p ∈ filtered, ∃ q ∈ picked, bucketOf pm.heap bs q = bucketOf pm.heap bs p) := by
  constructor
  · intro h32
    obtain ⟨bs, buckets, hbs, hd⟩ := distribute_of_two_le pm filtered wanted h2 h32
    obtain ⟨picked, rng', _, h, _⟩ :=
      getOutgoingSelection_of_buckets pm filtered wanted h2 hlen bs buckets hbs hd
    exact ⟨picked, rng', h⟩
  · intro picked rng' h
    obtain ⟨bs, buckets, hbs, hd⟩ :=
      getOutgoingSelection_inv pm filtered wanted (by omega) hlen _ h
    obtain ⟨picked1, rng1, _, h1, _, _, hcov⟩ :=
      getOutgoingSelection_of_buckets pm filtered wanted h2 hlen bs buckets hbs hd
    rw [h1] at h
    simp only [Except.ok.injEq, Prod.mk.injEq] at h
    rw [← h.1]
    exact ⟨bs, hbs, hcov⟩

theorem getOutgoingSelection_covers_buckets_witness :
    (2 : Int) ≤ 2 ∧ (2 : Int) < (([0, 1, 2, 3] : List Ptr).length : Int) ∧
    (∃ picked rng',
      getOutgoingSelection (withLocations [1, 2, 3, 0x80000001]) [0, 1, 2, 3] 2
        = .ok (picked, rng')) ∧
    (getOutgoingSelection (withLocations [1, 2, 3, 0x80000001]) [0, 1, 2, 3] 2).map Prod.fst
      = .ok [0, 3] :=
  ⟨by decide, by decide,
   (getOutgoingSelection_covers_buckets (withLocations [1, 2, 3, 0x80000001]) [0, 1, 2, 3] 2
     (by decide) (by decide)).1 (by decide),
   by decide!⟩

/-- C26. For `wanted >= 2` and more than `wanted` peers in `filtered`, whatever
the random source: when `wanted < 2^32` the call returns; and every result the
call returns is a permutation of a sub-list of `filtered`: every peer of the
result is an element of `filtered`, and no peer occurs in the result more often
than in `filtered`, so no position of `filtered` is picked twice. -/
theorem getOutgoingSelection_subperm (pm : PeerManager) (filtered : List Ptr)
    (wanted : Int) (h2 : 2 ≤ wanted) (hlen : wanted < filtered.length) :
    (wanted < 4294967296 →
      ∃ picked rng', getOutgoingSelection pm filtered wanted = .ok (picked, rng')) ∧
    (∀ picked rng', getOutgoingSelection pm filtered wanted = .ok (picked, rng') →
      (∃ sub : List Ptr, sub.Perm picked ∧ sub.Sublist filtered) ∧
      (∀ q ∈ picked, q ∈ filtered) ∧
      (∀ q, picked.count q ≤ filtered.count q) ∧
      (filtered.Nodup → picked.Nodup)) := by
  constructor
  · intro h32
    obtain ⟨bs, buckets, hbs, hd⟩ := distribute_of_two_le pm filtered wanted h2 h32
    obtain ⟨picked, rng', _, h, _⟩ :=
      getOutgoingSelection_of_buckets pm filtered wanted h2 hlen bs buckets hbs hd
    exact ⟨picked, rng', h⟩
  · intro picked rng' h
    obtain ⟨bs, buckets, hbs, hd⟩ :=
      getOutgoingSelection_inv pm filtered wanted (by omega) hlen _ h
    obtain ⟨picked1, rng1, _, h1, hsub, _, _⟩ :=
      getOutgoingSelection_of_buckets pm filtered wanted h2 hlen bs buckets hbs hd
    rw [h1] at h
    simp only [Except.ok.injEq, Prod.mk.injEq] at h
    rw [← h.1]
    refine ⟨hsub, fun q hq => hsub.subset hq, fun q => hsub.count_le q, fun hnd => ?_⟩
    obtain ⟨sub, hperm, hsl⟩ := hsub
    exact hperm.nodup_iff.mp (hsl.nodup hnd)

theorem getOutgoingSelection_subperm_witness :
    (2 : Int) ≤ 3 ∧ (3 : Int) < (([0, 1, 2, 3, 4] : List Ptr).length : Int) ∧
    (∃ picked rng',
      getOutgoingSelection (withLocations [0, 1, 2, 1431655766, 1431655767])
        [0, 1, 2, 3, 4] 3 = .ok (picked, rng')) :=
  ⟨by decide, by decide,
   (getOutgoingSelection_subperm (withLocations [0, 1, 2, 1431655766, 1431655767])
     [0, 1, 2, 3, 4] 3 (by decide) (by decide)).1 (by decide)⟩

/-- C27. For `wanted >= 2` and more than `wanted` peers in `filtered`, whatever
the random source: when `wanted < 2^32` the call returns; and once the peers
are in their buckets, (1) the state at the start of the pick loop satisfies
the loop's invariant, (2) from every state that satisfies it and has fewer than
`wanted` picks, a pass over the buckets returns, keeps the invariant and adds
at least one pick, and (3) the loop returns after at most `wanted` passes, with
at least `wanted` picks. -/
theorem pickLoop_terminates (pm : PeerManager) (filtered : List Ptr)
    (wanted : Int) (h2 : 2 ≤ wanted) (hlen : wanted < filtered.length) :
    (wanted < 4294967296 →
      ∃ picked rng', getOutgoingSelection pm filtered wanted = .ok (picked, rng')) ∧
    (∀ bs buckets, bucketSize wanted = .ok bs →
      distribute pm.heap bs filtered (List.replicate wanted.toNat []) = .ok buckets →
      (buckets.length = wanted.toNat ∧ PickInv pm.heap bs filtered (buckets, [], pm.rng)) ∧
      (∀ (bkts : List (List Ptr)) (picked : List Ptr) (rng : Rand),
        bkts.length = wanted.toNat → PickInv pm.heap bs filtered (bkts, picked, rng) →
        (picked.length : Int) < wanted →
        ∃ bkts' picked' rng',
          pickPass (bkts, picked, rng) = .ok (bkts', picked', rng') ∧
          bkts'.length = wanted.toNat ∧
          PickInv pm.heap bs filtered (bkts', picked', rng') ∧
          picked.length < picked'.length) ∧
      (∃ picked rng',
        pickLoop wanted wanted.toNat (buckets, [], pm.rng) = .ok (picked, rng') ∧
        getOutgoingSelection pm filtered wanted = .ok (picked, rng') ∧
        wanted ≤ (picked.length : Int))) := by
  constructor
  · intro h32
    obtain ⟨bs, buckets, hbs, hd⟩ := distribute_of_two_le pm filtered wanted h2 h32
    obtain ⟨picked, rng', _, h, _⟩ :=
      getOutgoingSelection_of_buckets pm filtered wanted h2 hlen bs buckets hbs hd
    exact ⟨picked, rng', h⟩
  · intro bs buckets hbs hd
    refine ⟨pickInv_after_distribute pm.heap bs wanted.toNat filtered buckets pm.rng hd, ?_, ?_⟩
    · intro bkts picked rng hl hinv hlt
      obtain ⟨b1, p1, r1, h1, hl1, hinv1, _, hprog, _⟩ :=
        pickPass_spec pm.heap bs filtered bkts picked rng (by rw [hl]; omega) hinv
      exact ⟨b1, p1, r1, h1, hl1.trans hl, hinv1, hprog (by omega)⟩
    · obtain ⟨picked, rng', h1, h, _, hw, _⟩ :=
        getOutgoingSelection_of_buckets pm filtered wanted h2 hlen bs buckets hbs hd
      exact ⟨picked, rng', h1, h, hw⟩

theorem pickLoop_terminates_witness :
    (2 : Int) ≤ 2 ∧ (2 : Int) < (([0, 1, 2] : List Ptr).length : Int) ∧
    (∃ picked rng',
      getOutgoingSelection (withLocations [5, 6, 7]) [0, 1, 2] 2 = .ok (picked, rng')) ∧
    (getOutgoingSelection (withLocations [5, 6, 7]) [0, 1, 2] 2).map Prod.fst = .ok [0, 2] :=
  ⟨by decide, by decide,
   (pickLoop_terminates (withLocations [5, 6, 7]) [0, 1, 2] 2 (by decide) (by decide)).1
     (by decide),
   by decide!⟩

end P2P

/-! # The fast-boot file -/

namespace StateSaver

theorem fastBootFile_eq (name : String) :
    "FastBoot_" ++ name ++ "_v" ++ toString version ++ ".db" = "FastBoot_" ++ name ++ "_v8.db" := by
  have h : toString version = "8" := by decide
  rw [h, String.append_assoc, String.append_assoc]
  rfl

theorem NetworkIDToFilename_empty (name : String) :
    NetworkIDToFilename name "" = "FastBoot_" ++ name ++ "_v8.db" := by
  unfold NetworkIDToFilename
  simp only [ne_eq, not_true_eq_false, if_false]
  exact fastBootFile_eq name

theorem NetworkIDToFilename_nonempty (name location : String) (h : location ≠ "") :
    NetworkIDToFilename name location =
      withoutTrailingSlash location ++ "/" ++ ("FastBoot_" ++ name ++ "_v8.db") := by
  unfold NetworkIDToFilename withoutTrailingSlash
  simp only [ne_eq, h, not_false_eq_true, if_true]
  rw [fastBootFile_eq, List.getLast?_eq_getElem?, List.dropLast_eq_take]

theorem withoutTrailingSlash_append_slash (dir : String) :
    withoutTrailingSlash (dir ++ "/") = dir := by
  unfold withoutTrailingSlash
  have h : (dir ++ "/").data = dir.data ++ ['/'] := by
    rw [String.data_append]
  rw [h]
  simp

theorem withoutTrailingSlash_of_no_slash (dir : String) (h : dir.data.getLast? ≠ some '/') :
    withoutTrailingSlash dir = dir := by
  unfold withoutTrailingSlash
  rw [if_neg h]

theorem append_slash_ne_empty (dir : String) : dir ++ "/" ≠ "" := by
  intro h
  have h2 : (dir ++ "/").data = dir.data ++ ['/'] := by
    rw [String.data_append]
  rw [h] at h2
  have h3 := congrArg List.length h2
  simp at h3

/-- C21. For every network name, `NetworkIDToFilename(name, "")` is
`FastBoot_<name>_v8.db`; for every non-empty location it is the location with
one trailing `/` removed (if present), then `/`, then that file name; so a
directory `dir` that does not end in `/` and the location `dir/` give the same
path. -/
theorem NetworkIDToFilename_spec :
    (∀ name : String, NetworkIDToFilename name "" = "FastBoot_" ++ name ++ "_v8.db") ∧
    (∀ name location : String, location ≠ "" →
      NetworkIDToFilename name location =
        withoutTrailingSlash location ++ "/" ++ ("FastBoot_" ++ name ++ "_v8.db")) ∧
    (∀ name dir : String, dir ≠ "" → dir.data.getLast? ≠ some '/' →
      NetworkIDToFilename name (dir ++ "/") = NetworkIDToFilename name dir ∧
      NetworkIDToFilename name dir = dir ++ "/" ++ ("FastBoot_" ++ name ++ "_v8.db")) := by
  refine ⟨NetworkIDToFilename_empty, NetworkIDToFilename_nonempty, ?_⟩
  intro name dir hne hlast
  rw [NetworkIDToFilename_nonempty name _ (append_slash_ne_empty dir),
    NetworkIDToFilename_nonempty name dir hne, withoutTrailingSlash_append_slash,
    withoutTrailingSlash_of_no_slash dir hlast]
  exact ⟨rfl, rfl⟩

end StateSaver

/-! # The logger -/

namespace FLog

theorem write_of_gt (logger : FLogger) (level : Level) (l timestamp : String)
    (h : level > logger.level) : write logger level l timestamp = (logger, false) := by
  unfold write
  rw [if_pos h]

theorem write_of_le (logger : FLogger) (level : Level) (l timestamp : String)
    (h : level ≤ logger.level) :
    write logger level l timestamp =
      ({ logger with
          out := logger.out ++
            [timestamp ++ " [" ++ levelPrefix level ++ "] " ++ logger.label ++ ": " ++ l ++ "\n"] },
        decide (level ≤ Critical)) := by
  unfold write
  rw [if_neg (not_lt.mpr h)]
  by_cases hc : level ≤ Critical
  · simp [hc]
  · simp [hc]

/-- C23, counterexample. A message of level `Error` written to a logger at
level `Debug` is put out, and `write` does not call `os.Exit`, although the
level of the message is `<= Error`. -/
theorem write_error_level_does_not_exit :
    Error ≤ Error ∧
    outputs debugLogger Error "disk full" "2017-06-01T00:00:00Z" ∧
    ¬ exits debugLogger Error "disk full" "2017-06-01T00:00:00Z" := by
  unfold outputs exits
  decide

/-- C23, amended. For every logger and every message level, `write` puts the
line out exactly when `level <= logger.level`, and calls `os.Exit` exactly when
it has put the line out and the level of the message is `<= Critical`
(`Emergency`, `Alert` and `Critical`). -/
theorem write_outputs_and_exits (logger : FLogger) (level : Level) (l timestamp : String) :
    (outputs logger level l timestamp ↔ level ≤ logger.level) ∧
    (exits logger level l timestamp ↔ level ≤ logger.level ∧ level ≤ Critical) := by
  unfold outputs exits
  by_cases h : level ≤ logger.level
  · rw [write_of_le logger level l timestamp h]
    simp [h]
  · rw [write_of_gt logger level l timestamp (not_le.mp h)]
    simp [h]

end FLog

/-! # The `getblocks` message -/

namespace Wire

theorem AddBlockLocatorHash_of_lt (msg : MsgGetBlocks) (hash : IHash)
    (h : msg.BlockLocatorHashes.length < 500) :
    AddBlockLocatorHash msg hash =
      ({ msg with BlockLocatorHashes := msg.BlockLocatorHashes ++ [hash] }, none) := by
  unfold AddBlockLocatorHash MaxBlockLocatorsPerMsg
  rw [if_neg (by omega)]

theorem AddBlockLocatorHash_of_ge (msg : MsgGetBlocks) (hash : IHash)
    (h : ¬ msg.BlockLocatorHashes.length < 500) :
    (AddBlockLocatorHash msg hash).1 = msg ∧ (AddBlockLocatorHash msg hash).2 ≠ none := by
  unfold AddBlockLocatorHash MaxBlockLocatorsPerMsg
  rw [if_pos (by omega)]
  simp

theorem AddBlockLocatorHash_length_le (msg : MsgGetBlocks) (hash : IHash)
    (h : msg.BlockLocatorHashes.length ≤ 500) :
    (AddBlockLocatorHash msg hash).1.BlockLocatorHashes.length ≤ 500 := by
  by_cases hlt : msg.BlockLocatorHashes.length < 500
  · rw [AddBlockLocatorHash_of_lt msg hash hlt]
    simp
    omega
  · rw [(AddBlockLocatorHash_of_ge msg hash hlt).1]
    exact h

theorem foldl_AddBlockLocatorHash_length_le (hashes : List IHash) (msg : MsgGetBlocks)
    (h : msg.BlockLocatorHashes.length ≤ 500) :
    (hashes.foldl (fun msg hash => (AddBlockLocatorHash msg hash).1) msg).BlockLocatorHashes.length
      ≤ 500 := by
  induction hashes generalizing msg with
  | nil => exact h
  | cons hash rest ih =>
    rw [List.foldl_cons]
    exact ih _ (AddBlockLocatorHash_length_le msg hash h)

theorem built_length_le (protocolVersion : Nat) (hashStop : IHash) (hashes : List IHash) :
    (built protocolVersion hashStop hashes).BlockLocatorHashes.length ≤ 500 := by
  unfold built
  apply foldl_AddBlockLocatorHash_length_le
  simp [NewMsgGetBlocks]

theorem not_rejectedForCount_of_le (msg : MsgGetBlocks) (written : Option String)
    (h : msg.BlockLocatorHashes.length ≤ 500) : ¬ rejectedForCount msg written := by
  rintro ⟨str, hstr⟩
  unfold BtcEncode MaxBlockLocatorsPerMsg at hstr
  simp only [] at hstr
  rw [if_neg (by omega)] at hstr
  cases written <;> simp at hstr

/-- C24. For every message and hash, `AddBlockLocatorHash` returns nil exactly
when the message holds fewer than 500 hashes before the call, and then the
hash is appended at the end of `BlockLocatorHashes`; otherwise it returns an
error and the message is unchanged. A message built from `NewMsgGetBlocks` by
calls of `AddBlockLocatorHash` never holds more than 500 hashes, `BtcEncode`
never rejects it for its count, and encoding succeeds when every write
does. -/
theorem AddBlockLocatorHash_spec :
    (∀ (msg : MsgGetBlocks) (hash : IHash),
      ((AddBlockLocatorHash msg hash).2 = none ↔ msg.BlockLocatorHashes.length < 500) ∧
      (msg.BlockLocatorHashes.length < 500 →
        AddBlockLocatorHash msg hash =
          ({ msg with BlockLocatorHashes := msg.BlockLocatorHashes ++ [hash] }, none)) ∧
      (¬ msg.BlockLocatorHashes.length < 500 →
        (AddBlockLocatorHash msg hash).1 = msg ∧ (AddBlockLocatorHash msg hash).2 ≠ none)) ∧
    (∀ (protocolVersion : Nat) (hashStop : IHash) (hashes : List IHash),
      (built protocolVersion hashStop hashes).BlockLocatorHashes.length ≤ 500 ∧
      (∀ written, ¬ rejectedForCount (built protocolVersion hashStop hashes) written) ∧
      BtcEncode (built protocolVersion hashStop hashes) none = none) := by
  refine ⟨fun msg hash => ⟨?_, AddBlockLocatorHash_of_lt msg hash,
    AddBlockLocatorHash_of_ge msg hash⟩, fun pv hashStop hashes => ⟨built_length_le pv hashStop hashes,
      fun written => not_rejectedForCount_of_le _ written (built_length_le pv hashStop hashes), ?_⟩⟩
  · constructor
    · intro h
      by_contra hlt
      exact (AddBlockLocatorHash_of_ge msg hash hlt).2 h
    · intro h
      rw [AddBlockLocatorHash_of_lt msg hash h]
  · have h := built_length_le pv hashStop hashes
    unfold BtcEncode MaxBlockLocatorsPerMsg
    simp only []
    rw [if_neg (by omega)]

end Wire

/-! # The fast-boot file: integrity hash -/

namespace StateSaver

theorem SaveToFile_eq (files : Files) (b : List Nat) (filename : String)
    (writeError : Option String) :
    SaveToFile files b filename writeError = (files, writeError) ∨
    SaveToFile files b filename writeError = (files.set filename b, none) := by
  unfold SaveToFile
  cases writeError
  · right; rfl
  · left; rfl

theorem SaveDBStateList_total (Sha : List Nat → Hash) (sss : StateSaverStruct)
    (ss : DBStateList) (name : String) (files : Files) (writeError : Option String)
    (hrate : ss.FastSaveRate ≠ 0) :
    ∃ r, SaveDBStateList Sha sss ss name files writeError = .ok r := by
  unfold SaveDBStateList
  split
  · exact ⟨_, rfl⟩
  · simp only [if_neg hrate]
    split
    · exact ⟨_, rfl⟩
    · split
      · split <;> exact ⟨_, rfl⟩
      · exact ⟨_, rfl⟩

end StateSaver

/-! # The signature entry of the admin block -/

namespace AdminBlock

theorem UnmarshalBinaryData_empty (prim : Primitives) (e : DBSignatureEntry) :
    (UnmarshalBinaryData prim e []).2.2 ≠ none := by
  simp [UnmarshalBinaryData]

theorem UnmarshalBinaryData_wrong_type (prim : Primitives) (e : DBSignatureEntry)
    (first : Nat) (rest : List Nat) (h : first ≠ prim.TYPE_DB_SIGNATURE) :
    UnmarshalBinaryData prim e (first :: rest) = (e, [], some "Invalid Entry type") := by
  simp [UnmarshalBinaryData, entryType, h]

theorem MarshalBinary_eq (prim : Primitives) (id : List Nat) (sig : Signature)
    (hInit : prim.SignatureInit sig = sig) (hHashM : prim.HashMarshalBinary id = .ok id) :
    MarshalBinary prim { IdentityAdminChainID := some id, PrevDBSig := sig } =
      ({ IdentityAdminChainID := some id, PrevDBSig := sig },
        .ok ([prim.TYPE_DB_SIGNATURE] ++ id ++ prim.GetPubBytes sig ++ prim.GetSigBytes sig)) := by
  simp [MarshalBinary, Init, entryType, hInit, hHashM]

theorem UnmarshalBinaryData_eq (prim : Primitives) (id : List Nat) (sig : Signature)
    (hHashU : ∀ rest, prim.HashUnmarshalBinaryData prim.NewZeroHash (id ++ rest)
      = some (id, rest, none))
    (hSigU : ∀ s, prim.SignatureUnmarshalBinaryData s
      (prim.GetPubBytes sig ++ prim.GetSigBytes sig) = some (sig, [], none))
    (e0 : DBSignatureEntry) :
    UnmarshalBinaryData prim e0
        ([prim.TYPE_DB_SIGNATURE] ++ id ++ prim.GetPubBytes sig ++ prim.GetSigBytes sig)
      = ({ IdentityAdminChainID := some id, PrevDBSig := sig }, [], none) := by
  have h : [prim.TYPE_DB_SIGNATURE] ++ id ++ prim.GetPubBytes sig ++ prim.GetSigBytes sig
      = prim.TYPE_DB_SIGNATURE :: (id ++ (prim.GetPubBytes sig ++ prim.GetSigBytes sig)) := by
    simp
  rw [h]
  simp [UnmarshalBinaryData, entryType, hHashU, hSigU]

/-- C30. Let the entry have a 32-byte chain id, 32 public-key bytes and 64
signature bytes, and let the functions of `primitives` do on these values what
their names say (`Init` keeps the signature, the hash marshals to its bytes and
is read back from them, the signature is read back from its public-key and
signature bytes). Then `MarshalBinary` yields the 129 bytes type byte, chain
id, public key, signature, and `UnmarshalBinaryData` of those bytes, on any
receiver, succeeds, leaves no byte over and yields the same
`IdentityAdminChainID` and `PrevDBSig`. For every input that is empty or whose
first byte is not `TYPE_DB_SIGNATURE`, `UnmarshalBinaryData` returns an
error. -/
theorem DBSignatureEntry_round_trip (prim : Primitives) (id : List Nat) (sig : Signature)
    (hid : id.length = 32) (hpub : (prim.GetPubBytes sig).length = 32)
    (hsig : (prim.GetSigBytes sig).length = 64)
    (hInit : prim.SignatureInit sig = sig)
    (hHashM : prim.HashMarshalBinary id = .ok id)
    (hHashU : ∀ rest, prim.HashUnmarshalBinaryData prim.NewZeroHash (id ++ rest)
      = some (id, rest, none))
    (hSigU : ∀ s, prim.SignatureUnmarshalBinaryData s
      (prim.GetPubBytes sig ++ prim.GetSigBytes sig) = some (sig, [], none)) :
    (∃ bytes,
      MarshalBinary prim { IdentityAdminChainID := some id, PrevDBSig := sig } =
        ({ IdentityAdminChainID := some id, PrevDBSig := sig }, .ok bytes) ∧
      bytes = [prim.TYPE_DB_SIGNATURE] ++ id ++ prim.GetPubBytes sig ++ prim.GetSigBytes sig ∧
      bytes.length = 129 ∧
      ∀ e0, UnmarshalBinaryData prim e0 bytes =
        ({ IdentityAdminChainID := some id, PrevDBSig := sig }, [], none)) ∧
    (∀ e0, (UnmarshalBinaryData prim e0 []).2.2 ≠ none) ∧
    (∀ e0 first rest, first ≠ prim.TYPE_DB_SIGNATURE →
      (UnmarshalBinaryData prim e0 (first :: rest)).2.2 ≠ none) := by
  refine ⟨⟨_, MarshalBinary_eq prim id sig hInit hHashM, rfl, ?_,
    UnmarshalBinaryData_eq prim id sig hHashU hSigU⟩, UnmarshalBinaryData_empty prim, ?_⟩
  · simp [hid, hpub, hsig]
  · intro e0 first rest h
    rw [UnmarshalBinaryData_wrong_type prim e0 first rest h]
    simp

theorem DBSignatureEntry_round_trip_witness :
    (List.replicate 32 7).length = 32 ∧
    (∃ bytes,
      MarshalBinary examplePrimitives exampleEntry = (exampleEntry, .ok bytes) ∧
      bytes = [1] ++ List.replicate 32 7 ++ List.replicate 32 1 ++ List.replicate 64 2 ∧
      bytes.length = 129 ∧
      ∀ e0, UnmarshalBinaryData examplePrimitives e0 bytes = (exampleEntry, [], none)) :=
  ⟨by decide,
   (DBSignatureEntry_round_trip examplePrimitives (List.replicate 32 7)
     { Pub := some (List.replicate 32 1), Sig := some (List.replicate 64 2) }
     (by decide) (by decide) (by decide) (by decide) (by decide)
     (by intro rest; simp [examplePrimitives])
     (by intro s; simp [examplePrimitives])).1⟩

end AdminBlock
